import Mathlib

/-!
# Verification of the V2ray subscription rewriting engine

A shallow embedding, in Lean 4, of the link-rewriting engine of the
V2ray-Sub-EXC repository (TypeScript), together with proofs and refutations
of the frozen specification claims.

The embedding translates the repository's source functions
(`src/services/v2rayService.ts`, the location-resolver revision carrying the
host guards, and the helpers they use) into executable Lean definitions:

* JavaScript strings are Lean `String` / `List Char`;
* `atob` / `btoa` (with the `escape`/`encodeURIComponent` UTF-8 bridge used by
  the source) become an executable forgiving-Base64 codec over UTF-8 byte
  lists;
* `JSON.parse` / `JSON.stringify` become an executable parser/printer pair for
  a JSON value type (numbers are modelled as integers: the configuration
  objects the engine manipulates carry only integral numbers, and links whose
  payload uses fractional or exponent number syntax fall outside the model);
* `new URL(...)`, `URLSearchParams` and `url.toString()` become an executable
  record-level model of the WHATWG behaviour the source relies on
  (scheme, userinfo, host, port, path, query and fragment splitting, lazy
  query re-serialization on mutation, application/x-www-form-urlencoded
  percent-coding);
* fallible operations return `Option`; a `try ... catch` of the source
  becomes a `match` on the `Option`.

All definitions are computable, so each universally quantified theorem is
accompanied by a concrete witness evaluated by `decide`.
-/

set_option maxHeartbeats 1000000
set_option maxRecDepth 8000

namespace VSub

/-! ## Characters -/

theorem char_toNat_ofNat (n : Nat) (h : Nat.isValidChar n) :
    (Char.ofNat n).toNat = n := by
  simp only [Char.ofNat, h, dite_true, Char.ofNatAux, Char.toNat]
  exact BitVec.toNat_ofNatLt n _

theorem char_toNat_ofNat_small (n : Nat) (h : n < 55296) :
    (Char.ofNat n).toNat = n :=
  char_toNat_ofNat n (Or.inl h)

theorem char_toNat_lt (c : Char) : c.toNat < 1114112 := by
  have e : c.toNat = c.val.toNat := rfl
  rcases c.valid with h | h <;> omega

theorem char_toNat_not_surrogate (c : Char) :
    ¬ (55296 ≤ c.toNat ∧ c.toNat < 57344) := by
  have e : c.toNat = c.val.toNat := rfl
  rcases c.valid with h | h <;> omega

/-! ## Decimal digits (JavaScript number-to-string on naturals) -/

def digitChar (n : Nat) : Char := Char.ofNat (48 + n % 10)

/-- Decimal representation of a natural number, most significant digit first
(the behaviour of JavaScript template interpolation of a nonnegative
integer). -/
def natToChars (n : Nat) : List Char :=
  if _ : n < 10 then [digitChar n]
  else natToChars (n / 10) ++ [digitChar (n % 10)]
  decreasing_by exact Nat.div_lt_self (by omega) (by omega)

def natStr (n : Nat) : String := String.mk (natToChars n)

def isDigitChar (c : Char) : Bool := 48 ≤ c.toNat && c.toNat ≤ 57

theorem digitChar_toNat (n : Nat) : (digitChar n).toNat = 48 + n % 10 := by
  have h : n % 10 < 10 := Nat.mod_lt _ (by omega)
  exact char_toNat_ofNat_small _ (by omega)

theorem digitChar_isDigit (n : Nat) : isDigitChar (digitChar n) = true := by
  have h : n % 10 < 10 := Nat.mod_lt _ (by omega)
  simp [isDigitChar, digitChar_toNat]
  omega

theorem natToChars_ne_nil (n : Nat) : natToChars n ≠ [] := by
  unfold natToChars
  split <;> simp

theorem natToChars_digits (n : Nat) :
    ∀ c ∈ natToChars n, isDigitChar c = true := by
  induction n using Nat.strong_induction_on with
  | _ n ih =>
    intro c hc
    unfold natToChars at hc
    split at hc
    · simp at hc; subst hc; exact digitChar_isDigit n
    · rename_i h
      rcases List.mem_append.mp hc with h1 | h1
      · exact ih (n / 10) (Nat.div_lt_self (by omega) (by omega)) c h1
      · simp at h1; subst h1; exact digitChar_isDigit (n % 10)

/-- Digit-fold used by the number parser. -/
def charsToNatAux (acc : Nat) : List Char → Nat
  | [] => acc
  | c :: cs => charsToNatAux (acc * 10 + (c.toNat - 48)) cs

theorem charsToNatAux_nil (acc : Nat) : charsToNatAux acc [] = acc := rfl

theorem charsToNatAux_cons (acc : Nat) (c : Char) (cs : List Char) :
    charsToNatAux acc (c :: cs) = charsToNatAux (acc * 10 + (c.toNat - 48)) cs := rfl

theorem charsToNatAux_append (acc : Nat) (l1 l2 : List Char) :
    charsToNatAux acc (l1 ++ l2) = charsToNatAux (charsToNatAux acc l1) l2 := by
  induction l1 generalizing acc with
  | nil => rfl
  | cons c cs ih => exact ih (acc * 10 + (c.toNat - 48))

theorem charsToNatAux_natToChars (n : Nat) :
    ∀ acc, charsToNatAux acc (natToChars n) = acc * 10 ^ (natToChars n).length + n := by
  induction n using Nat.strong_induction_on with
  | _ n ih =>
    intro acc
    unfold natToChars
    split
    · rename_i h
      rw [charsToNatAux_cons, charsToNatAux_nil]
      simp [digitChar_toNat, Nat.mod_eq_of_lt h]
    · rename_i h
      rw [charsToNatAux_append, ih (n / 10) (Nat.div_lt_self (by omega) (by omega)) acc]
      rw [charsToNatAux_cons, charsToNatAux_nil]
      simp only [digitChar_toNat, List.length_append, List.length_singleton, pow_succ]
      have := Nat.div_add_mod n 10
      ring_nf
      omega

theorem charsToNat_natToChars (n : Nat) : charsToNatAux 0 (natToChars n) = n := by
  simpa using charsToNatAux_natToChars n 0

/-! ## UTF-8 (the byte bridge `decodeURIComponent(escape(...))` /
`unescape(encodeURIComponent(...))` used by `safeB64Decode` /
`safeB64Encode`) -/

def utf8EncodeChar (c : Char) : List Nat :=
  if c.toNat < 128 then [c.toNat]
  else if c.toNat < 2048 then [192 + c.toNat / 64, 128 + c.toNat % 64]
  else if c.toNat < 65536 then
    [224 + c.toNat / 4096, 128 + c.toNat / 64 % 64, 128 + c.toNat % 64]
  else
    [240 + c.toNat / 262144, 128 + c.toNat / 4096 % 64, 128 + c.toNat / 64 % 64,
      128 + c.toNat % 64]

def utf8Encode (cs : List Char) : List Nat := (cs.map utf8EncodeChar).flatten

/-- Decode one UTF-8 sequence whose lead byte is `b` and whose following
bytes head the list `bs`. Strict: rejects overlong encodings, surrogate code
points and truncated sequences. -/
def utf8DecodeOne (b : Nat) (bs : List Nat) : Option (Char × List Nat) :=
  if b < 128 then some (Char.ofNat b, bs)
  else if 192 ≤ b ∧ b < 224 then
    match bs with
    | b1 :: bs1 =>
      if (128 ≤ b1 ∧ b1 < 192) ∧
          (128 ≤ (b - 192) * 64 + (b1 - 128) ∧ (b - 192) * 64 + (b1 - 128) < 2048) then
        some (Char.ofNat ((b - 192) * 64 + (b1 - 128)), bs1)
      else none
    | [] => none
  else if 224 ≤ b ∧ b < 240 then
    match bs with
    | b1 :: b2 :: bs2 =>
      if ((128 ≤ b1 ∧ b1 < 192) ∧ (128 ≤ b2 ∧ b2 < 192)) ∧
          ((2048 ≤ (b - 224) * 4096 + (b1 - 128) * 64 + (b2 - 128) ∧
            (b - 224) * 4096 + (b1 - 128) * 64 + (b2 - 128) < 65536) ∧
           ¬ (55296 ≤ (b - 224) * 4096 + (b1 - 128) * 64 + (b2 - 128) ∧
              (b - 224) * 4096 + (b1 - 128) * 64 + (b2 - 128) < 57344)) then
        some (Char.ofNat ((b - 224) * 4096 + (b1 - 128) * 64 + (b2 - 128)), bs2)
      else none
    | _ => none
  else if 240 ≤ b ∧ b < 248 then
    match bs with
    | b1 :: b2 :: b3 :: bs3 =>
      if ((128 ≤ b1 ∧ b1 < 192) ∧ (128 ≤ b2 ∧ b2 < 192) ∧ (128 ≤ b3 ∧ b3 < 192)) ∧
          (65536 ≤ (b - 240) * 262144 + (b1 - 128) * 4096 + (b2 - 128) * 64 + (b3 - 128) ∧
           (b - 240) * 262144 + (b1 - 128) * 4096 + (b2 - 128) * 64 + (b3 - 128) < 1114112) then
        some (Char.ofNat ((b - 240) * 262144 + (b1 - 128) * 4096 + (b2 - 128) * 64 + (b3 - 128)),
          bs3)
      else none
    | _ => none
  else none

/-- Fueled UTF-8 decoding loop; one unit of fuel per decoded character, so a
fuel of the byte-list length always suffices. -/
def utf8DecodeAux : Nat → List Nat → Option (List Char)
  | _, [] => some []
  | 0, _ :: _ => none
  | f + 1, b :: bs =>
    match utf8DecodeOne b bs with
    | some (c, rest) => (utf8DecodeAux f rest).map (fun cs => c :: cs)
    | none => none

def utf8Decode (l : List Nat) : Option (List Char) := utf8DecodeAux l.length l

/-- One-step inversion: decoding the encoding of one character consumes
exactly its bytes. -/
theorem utf8DecodeOne_encodeChar (c : Char) (rest : List Nat) :
    ∃ b t, utf8EncodeChar c = b :: t ∧ utf8DecodeOne b (t ++ rest) = some (c, rest) := by
  have hlt := char_toNat_lt c
  have hsur := char_toNat_not_surrogate c
  unfold utf8EncodeChar
  by_cases h1 : c.toNat < 128
  · refine ⟨c.toNat, [], by simp [h1], ?_⟩
    unfold utf8DecodeOne
    simp [h1, Char.ofNat_toNat c]
  · by_cases h2 : c.toNat < 2048
    · refine ⟨192 + c.toNat / 64, [128 + c.toNat % 64], by simp [h1, h2], ?_⟩
      unfold utf8DecodeOne
      have hd : c.toNat / 64 < 32 := by omega
      have hm : c.toNat % 64 < 64 := Nat.mod_lt _ (by omega)
      have hval : (192 + c.toNat / 64 - 192) * 64 + (128 + c.toNat % 64 - 128) = c.toNat := by
        have := Nat.div_add_mod c.toNat 64
        omega
      rw [if_neg (by omega),
        if_pos (by omega : 192 ≤ 192 + c.toNat / 64 ∧ 192 + c.toNat / 64 < 224)]
      simp only [List.cons_append, List.nil_append]
      rw [if_pos (by omega), hval, Char.ofNat_toNat c]
    · by_cases h3 : c.toNat < 65536
      · refine ⟨224 + c.toNat / 4096, [128 + c.toNat / 64 % 64, 128 + c.toNat % 64],
          by simp [h1, h2, h3], ?_⟩
        unfold utf8DecodeOne
        have hd : c.toNat / 4096 < 16 := by omega
        have hm1 : c.toNat / 64 % 64 < 64 := Nat.mod_lt _ (by omega)
        have hm2 : c.toNat % 64 < 64 := Nat.mod_lt _ (by omega)
        have hval : (224 + c.toNat / 4096 - 224) * 4096 + (128 + c.toNat / 64 % 64 - 128) * 64
            + (128 + c.toNat % 64 - 128) = c.toNat := by
          have e1 := Nat.div_add_mod c.toNat 64
          have e2 := Nat.div_add_mod (c.toNat / 64) 64
          have e3 : c.toNat / 64 / 64 = c.toNat / 4096 := by rw [Nat.div_div_eq_div_mul]
          omega
        rw [if_neg (by omega), if_neg (by omega), if_pos (by omega :
          224 ≤ 224 + c.toNat / 4096 ∧ 224 + c.toNat / 4096 < 240)]
        simp only [List.cons_append, List.nil_append]
        rw [if_pos (by rw [hval]; exact ⟨⟨⟨by omega, by omega⟩, by omega, by omega⟩,
          ⟨by omega, h3⟩, hsur⟩), hval, Char.ofNat_toNat c]
      · refine ⟨240 + c.toNat / 262144,
          [128 + c.toNat / 4096 % 64, 128 + c.toNat / 64 % 64, 128 + c.toNat % 64],
          by simp [h1, h2, h3], ?_⟩
        unfold utf8DecodeOne
        have hd : c.toNat / 262144 < 5 := by omega
        have hm1 : c.toNat / 4096 % 64 < 64 := Nat.mod_lt _ (by omega)
        have hm2 : c.toNat / 64 % 64 < 64 := Nat.mod_lt _ (by omega)
        have hm3 : c.toNat % 64 < 64 := Nat.mod_lt _ (by omega)
        have hval : (240 + c.toNat / 262144 - 240) * 262144
            + (128 + c.toNat / 4096 % 64 - 128) * 4096
            + (128 + c.toNat / 64 % 64 - 128) * 64
            + (128 + c.toNat % 64 - 128) = c.toNat := by
          have e1 := Nat.div_add_mod c.toNat 64
          have e2 := Nat.div_add_mod (c.toNat / 64) 64
          have e3 : c.toNat / 64 / 64 = c.toNat / 4096 := by rw [Nat.div_div_eq_div_mul]
          have e4 := Nat.div_add_mod (c.toNat / 4096) 64
          have e5 : c.toNat / 4096 / 64 = c.toNat / 262144 := by rw [Nat.div_div_eq_div_mul]
          omega
        rw [if_neg (by omega), if_neg (by omega), if_neg (by omega), if_pos (by omega :
          240 ≤ 240 + c.toNat / 262144 ∧ 240 + c.toNat / 262144 < 248)]
        simp only [List.cons_append, List.nil_append]
        rw [if_pos (by rw [hval]; exact ⟨⟨⟨by omega, by omega⟩, ⟨by omega, by omega⟩,
          by omega, by omega⟩, by omega, hlt⟩), hval, Char.ofNat_toNat c]

theorem utf8DecodeAux_nil (f : Nat) : utf8DecodeAux f [] = some [] := by
  cases f <;> rfl

theorem utf8DecodeAux_encode_append (cs : List Char) :
    ∀ (f : Nat) (rest : List Nat),
      utf8DecodeAux (cs.length + f) (utf8Encode cs ++ rest) =
        (utf8DecodeAux f rest).map (fun l => cs ++ l) := by
  induction cs with
  | nil =>
    intro f rest
    simp only [List.length_nil, Nat.zero_add, utf8Encode, List.map_nil, List.flatten_nil,
      List.nil_append]
    cases utf8DecodeAux f rest <;> simp
  | cons c cs ih =>
    intro f rest
    obtain ⟨b, t, henc, hdec⟩ := utf8DecodeOne_encodeChar c (utf8Encode cs ++ rest)
    have heq : utf8Encode (c :: cs) ++ rest = b :: (t ++ (utf8Encode cs ++ rest)) := by
      simp [utf8Encode, henc]
    have hlen : (c :: cs).length + f = (cs.length + f) + 1 := by simp; omega
    rw [heq, hlen]
    show (match utf8DecodeOne b (t ++ (utf8Encode cs ++ rest)) with
      | some (c, rest) => (utf8DecodeAux (cs.length + f) rest).map (fun l => c :: l)
      | none => none) = _
    rw [hdec]
    simp only [ih f rest]
    cases utf8DecodeAux f rest <;> simp

theorem utf8Encode_length_ge (cs : List Char) : cs.length ≤ (utf8Encode cs).length := by
  induction cs with
  | nil => simp [utf8Encode]
  | cons c cs ih =>
    have : utf8Encode (c :: cs) = utf8EncodeChar c ++ utf8Encode cs := by
      simp [utf8Encode]
    rw [this]
    have hne : utf8EncodeChar c ≠ [] := by
      unfold utf8EncodeChar
      split_ifs <;> simp
    have : 1 ≤ (utf8EncodeChar c).length := by
      cases h : utf8EncodeChar c with
      | nil => exact absurd h hne
      | cons x xs => simp
    simp only [List.length_append, List.length_cons]
    omega

theorem utf8Decode_encode (cs : List Char) : utf8Decode (utf8Encode cs) = some cs := by
  unfold utf8Decode
  have hlen : (utf8Encode cs).length = cs.length + ((utf8Encode cs).length - cs.length) := by
    have := utf8Encode_length_ge cs
    omega
  rw [hlen]
  have := utf8DecodeAux_encode_append cs ((utf8Encode cs).length - cs.length) []
  simpa [utf8DecodeAux_nil] using this

theorem utf8EncodeChar_lt_256 (c : Char) : ∀ b ∈ utf8EncodeChar c, b < 256 := by
  have hlt := char_toNat_lt c
  intro b hb
  unfold utf8EncodeChar at hb
  split_ifs at hb with h1 h2 h3
  · simp at hb; omega
  · have h64 : c.toNat % 64 < 64 := Nat.mod_lt _ (by omega)
    have : c.toNat / 64 < 32 := by omega
    simp at hb
    rcases hb with h | h <;> omega
  · have : c.toNat / 4096 < 16 := by omega
    have q1 : c.toNat / 64 % 64 < 64 := Nat.mod_lt _ (by omega)
    have q2 : c.toNat % 64 < 64 := Nat.mod_lt _ (by omega)
    simp at hb
    rcases hb with h | h | h <;> omega
  · have : c.toNat / 262144 < 5 := by omega
    have q1 : c.toNat / 4096 % 64 < 64 := Nat.mod_lt _ (by omega)
    have q2 : c.toNat / 64 % 64 < 64 := Nat.mod_lt _ (by omega)
    have q3 : c.toNat % 64 < 64 := Nat.mod_lt _ (by omega)
    simp at hb
    rcases hb with h | h | h | h <;> omega

theorem utf8Encode_lt_256 (cs : List Char) : ∀ b ∈ utf8Encode cs, b < 256 := by
  intro b hb
  unfold utf8Encode at hb
  rcases List.mem_flatten.mp hb with ⟨l, hl, hbl⟩
  rcases List.mem_map.mp hl with ⟨c, _, rfl⟩
  exact utf8EncodeChar_lt_256 c b hbl


/-! ## Base64 (the platform `atob`/`btoa` pair used by the codec helpers;
`atob` follows the WHATWG forgiving-base64 algorithm: ASCII whitespace is
removed, up to two trailing padding signs are stripped when the length is a
multiple of four, a remainder-one length or a character outside the alphabet
is an error, and leftover bits of a final partial chunk are discarded) -/

def b64Char (n : Nat) : Char :=
  if n < 26 then Char.ofNat (65 + n)
  else if n < 52 then Char.ofNat (71 + n)
  else if n < 62 then Char.ofNat (n - 4)
  else if n = 62 then Char.ofNat 43
  else Char.ofNat 47

def b64CharDecode (c : Char) : Option Nat :=
  if 65 ≤ c.toNat ∧ c.toNat ≤ 90 then some (c.toNat - 65)
  else if 97 ≤ c.toNat ∧ c.toNat ≤ 122 then some (c.toNat - 97 + 26)
  else if 48 ≤ c.toNat ∧ c.toNat ≤ 57 then some (c.toNat - 48 + 52)
  else if c.toNat = 43 then some 62
  else if c.toNat = 47 then some 63
  else none

def b64EncodeCore : List Nat → List Char
  | [] => []
  | [a] => [b64Char (a / 4), b64Char (a % 4 * 16)]
  | [a, b] => [b64Char (a / 4), b64Char (a % 4 * 16 + b / 16), b64Char (b % 16 * 4)]
  | a :: b :: c :: rest =>
    b64Char (a / 4) :: b64Char (a % 4 * 16 + b / 16) :: b64Char (b % 16 * 4 + c / 64)
      :: b64Char (c % 64) :: b64EncodeCore rest

def b64PadLen : List Nat → Nat
  | [] => 0
  | [_] => 2
  | [_, _] => 1
  | _ :: _ :: _ :: rest => b64PadLen rest

def eqCh : Char := Char.ofNat 61

def b64EncodeBytes (bs : List Nat) : List Char :=
  b64EncodeCore bs ++ List.replicate (b64PadLen bs) eqCh

def b64DecodeCore : List Char → Option (List Nat)
  | [] => some []
  | [c1, c2] => do
    let v1 ← b64CharDecode c1
    let v2 ← b64CharDecode c2
    some [v1 * 4 + v2 / 16]
  | [c1, c2, c3] => do
    let v1 ← b64CharDecode c1
    let v2 ← b64CharDecode c2
    let v3 ← b64CharDecode c3
    some [v1 * 4 + v2 / 16, v2 % 16 * 16 + v3 / 4]
  | c1 :: c2 :: c3 :: c4 :: rest => do
    let v1 ← b64CharDecode c1
    let v2 ← b64CharDecode c2
    let v3 ← b64CharDecode c3
    let v4 ← b64CharDecode c4
    let tail ← b64DecodeCore rest
    some ((v1 * 4 + v2 / 16) :: (v2 % 16 * 16 + v3 / 4) :: (v3 % 4 * 64 + v4) :: tail)
  | [_] => none

def isB64Ws (c : Char) : Bool :=
  c.toNat = 9 || c.toNat = 10 || c.toNat = 12 || c.toNat = 13 || c.toNat = 32

def dropTrailingEq (l : List Char) : List Char :=
  match l.reverse with
  | c1 :: c2 :: rest =>
    if c1 = eqCh then (if c2 = eqCh then rest.reverse else (c2 :: rest).reverse) else l
  | [c1] => if c1 = eqCh then [] else l
  | [] => l

/-- WHATWG forgiving-base64 decode (the semantics of the platform `atob`). -/
def atobBytes (l : List Char) : Option (List Nat) :=
  let l1 := l.filter (fun c => ¬ isB64Ws c)
  let l2 := if l1.length % 4 = 0 then dropTrailingEq l1 else l1
  b64DecodeCore l2

theorem b64Char_toNat_range (n : Nat) :
    43 ≤ (b64Char n).toNat ∧ (b64Char n).toNat ≤ 122 ∧ (b64Char n).toNat ≠ 61 := by
  unfold b64Char
  split_ifs with h1 h2 h3 h4
  · rw [char_toNat_ofNat_small _ (by omega)]; omega
  · rw [char_toNat_ofNat_small _ (by omega)]; omega
  · rw [char_toNat_ofNat_small _ (by omega)]; omega
  · rw [char_toNat_ofNat_small _ (by omega)]; omega
  · rw [char_toNat_ofNat_small _ (by omega)]; omega

theorem b64CharDecode_b64Char (n : Nat) (h : n < 64) :
    b64CharDecode (b64Char n) = some n := by
  unfold b64Char
  split_ifs with h1 h2 h3 h4
  · have ht : (Char.ofNat (65 + n)).toNat = 65 + n := char_toNat_ofNat_small _ (by omega)
    unfold b64CharDecode
    rw [ht, if_pos (by omega : 65 ≤ 65 + n ∧ 65 + n ≤ 90)]
    congr 1
    omega
  · have ht : (Char.ofNat (71 + n)).toNat = 71 + n := char_toNat_ofNat_small _ (by omega)
    unfold b64CharDecode
    rw [ht, if_neg (by omega), if_pos (by omega : 97 ≤ 71 + n ∧ 71 + n ≤ 122)]
    congr 1
    omega
  · have ht : (Char.ofNat (n - 4)).toNat = n - 4 := char_toNat_ofNat_small _ (by omega)
    unfold b64CharDecode
    rw [ht, if_neg (by omega), if_neg (by omega), if_pos (by omega : 48 ≤ n - 4 ∧ n - 4 ≤ 57)]
    congr 1
    omega
  · have ht : (Char.ofNat 43).toNat = 43 := char_toNat_ofNat_small _ (by omega)
    unfold b64CharDecode
    rw [ht, if_neg (by omega), if_neg (by omega), if_neg (by omega), if_pos (by omega : (43 : Nat) = 43)]
    congr 1
    omega
  · have ht : (Char.ofNat 47).toNat = 47 := char_toNat_ofNat_small _ (by omega)
    unfold b64CharDecode
    rw [ht, if_neg (by omega), if_neg (by omega), if_neg (by omega), if_neg (by omega),
      if_pos (by omega : (47 : Nat) = 47)]
    congr 1
    omega

theorem b64EncodeCore_mem : ∀ (bs : List Nat) (c : Char),
    c ∈ b64EncodeCore bs → ∃ n, c = b64Char n
  | [], c => by simp [b64EncodeCore]
  | [a], c => by
    simp only [b64EncodeCore, List.mem_cons, List.mem_singleton, List.not_mem_nil, or_false]
    rintro (rfl | rfl) <;> exact ⟨_, rfl⟩
  | [a, b], c => by
    simp only [b64EncodeCore, List.mem_cons, List.not_mem_nil, or_false]
    rintro (rfl | rfl | rfl) <;> exact ⟨_, rfl⟩
  | a :: b :: d :: rest, c => by
    simp only [b64EncodeCore, List.mem_cons]
    rintro (rfl | rfl | rfl | rfl | hmem)
    · exact ⟨_, rfl⟩
    · exact ⟨_, rfl⟩
    · exact ⟨_, rfl⟩
    · exact ⟨_, rfl⟩
    · exact b64EncodeCore_mem rest c hmem

theorem b64Char_ne_eqCh (n : Nat) : b64Char n ≠ eqCh := by
  intro h
  have h1 := b64Char_toNat_range n
  have h2 : (eqCh).toNat = 61 := char_toNat_ofNat_small _ (by omega)
  rw [h] at h1
  omega

theorem b64Char_not_ws (n : Nat) : isB64Ws (b64Char n) = false := by
  have h1 := b64Char_toNat_range n
  simp only [isB64Ws]
  simp only [Bool.or_eq_false_iff, decide_eq_false_iff_not]
  omega

theorem eqCh_not_ws : isB64Ws eqCh = false := by
  have h2 : (eqCh).toNat = 61 := char_toNat_ofNat_small _ (by omega)
  simp only [isB64Ws, h2]
  decide

theorem b64EncodeBytes_filter (bs : List Nat) :
    (b64EncodeBytes bs).filter (fun c => ¬ isB64Ws c) = b64EncodeBytes bs := by
  apply List.filter_eq_self.mpr
  intro c hc
  rcases List.mem_append.mp hc with hm | hm
  · obtain ⟨n, rfl⟩ := b64EncodeCore_mem bs c hm
    simp [b64Char_not_ws n]
  · have : c = eqCh := List.eq_of_mem_replicate hm
    subst this
    simp [eqCh_not_ws]

theorem b64EncodeBytes_len : ∀ bs : List Nat, (b64EncodeBytes bs).length % 4 = 0
  | [] => by simp [b64EncodeBytes, b64EncodeCore, b64PadLen]
  | [a] => by simp [b64EncodeBytes, b64EncodeCore, b64PadLen]
  | [a, b] => by simp [b64EncodeBytes, b64EncodeCore, b64PadLen]
  | a :: b :: c :: rest => by
    have ih := b64EncodeBytes_len rest
    simp only [b64EncodeBytes, b64EncodeCore, b64PadLen, List.length_append,
      List.length_cons, List.length_replicate] at ih ⊢
    omega

theorem dropTrailingEq_nil : dropTrailingEq [] = [] := rfl

theorem dropTrailingEq_core_pad (bs : List Nat) :
    dropTrailingEq (b64EncodeBytes bs) = b64EncodeCore bs := by
  have hmem := b64EncodeCore_mem bs
  rcases hp : b64PadLen bs with _ | _ | _ | k
  · unfold b64EncodeBytes
    rw [hp]
    simp only [List.replicate_zero, List.append_nil]
    unfold dropTrailingEq
    rcases hrev : (b64EncodeCore bs).reverse with _ | ⟨c1, rest⟩
    · simp at hrev
      simp [hrev]
    · have hc1 : c1 ∈ b64EncodeCore bs := by
        have : c1 ∈ (b64EncodeCore bs).reverse := by rw [hrev]; simp
        simpa using this
      obtain ⟨n, rfl⟩ := hmem c1 hc1
      rcases rest with _ | ⟨c2, rest2⟩
      · simp [b64Char_ne_eqCh n]
      · simp [b64Char_ne_eqCh n]
  · unfold b64EncodeBytes
    rw [hp]
    unfold dropTrailingEq
    have hrev : (b64EncodeCore bs ++ List.replicate 1 eqCh).reverse =
        eqCh :: (b64EncodeCore bs).reverse := by
      simp
    rw [hrev]
    rcases hrev2 : (b64EncodeCore bs).reverse with _ | ⟨c2, rest2⟩
    · -- a pad of one sign only arises for two-byte tails, whose core part is
      -- nonempty, so an empty core is impossible here
      simp at hrev2
      exfalso
      rcases bs with _ | ⟨a, bs1⟩
      · simp [b64PadLen] at hp
      · rcases bs1 with _ | ⟨b, bs2⟩
        · simp [b64EncodeCore] at hrev2
        · rcases bs2 with _ | ⟨d, rest⟩
          · simp [b64EncodeCore] at hrev2
          · simp [b64EncodeCore] at hrev2
    · have hc2 : c2 ∈ b64EncodeCore bs := by
        have : c2 ∈ (b64EncodeCore bs).reverse := by rw [hrev2]; simp
        simpa using this
      obtain ⟨n, rfl⟩ := hmem c2 hc2
      simp [b64Char_ne_eqCh n, ← hrev2]
  · unfold b64EncodeBytes
    rw [hp]
    unfold dropTrailingEq
    have hrev : (b64EncodeCore bs ++ List.replicate 2 eqCh).reverse =
        eqCh :: eqCh :: (b64EncodeCore bs).reverse := by
      simp
    rw [hrev]
    simp
  · exfalso
    clear hmem
    induction bs using b64PadLen.induct with
    | case1 => simp [b64PadLen] at hp
    | case2 => simp [b64PadLen] at hp
    | case3 => simp [b64PadLen] at hp
    | case4 a b c rest ih => exact ih (by simpa [b64PadLen] using hp)

theorem b64DecodeCore_cons4 (c1 c2 c3 c4 : Char) (t : List Char) :
    b64DecodeCore (c1 :: c2 :: c3 :: c4 :: t) =
      (b64CharDecode c1).bind (fun v1 =>
      (b64CharDecode c2).bind (fun v2 =>
      (b64CharDecode c3).bind (fun v3 =>
      (b64CharDecode c4).bind (fun v4 =>
      (b64DecodeCore t).bind (fun tail =>
        some ((v1 * 4 + v2 / 16) :: (v2 % 16 * 16 + v3 / 4) :: (v3 % 4 * 64 + v4) :: tail)))))) :=
  rfl

theorem b64DecodeCore_encodeCore : ∀ (bs : List Nat), (∀ x ∈ bs, x < 256) →
    b64DecodeCore (b64EncodeCore bs) = some bs
  | [], _ => rfl
  | [a], h => by
    have ha : a < 256 := h a (by simp)
    simp only [b64EncodeCore, b64DecodeCore]
    rw [b64CharDecode_b64Char (a / 4) (by omega), b64CharDecode_b64Char (a % 4 * 16) (by omega)]
    simp only [Option.bind_eq_bind, Option.some_bind, Option.some.injEq, List.cons.injEq,
      and_true]
    omega
  | [a, b], h => by
    have ha : a < 256 := h a (by simp)
    have hb : b < 256 := h b (by simp)
    simp only [b64EncodeCore, b64DecodeCore]
    rw [b64CharDecode_b64Char (a / 4) (by omega),
      b64CharDecode_b64Char (a % 4 * 16 + b / 16) (by omega),
      b64CharDecode_b64Char (b % 16 * 4) (by omega)]
    simp only [Option.bind_eq_bind, Option.some_bind, Option.some.injEq, List.cons.injEq,
      and_true]
    constructor
    · omega
    · omega
  | a :: b :: c :: rest, h => by
    have ha : a < 256 := h a (by simp)
    have hb : b < 256 := h b (by simp)
    have hc : c < 256 := h c (by simp)
    have ih := b64DecodeCore_encodeCore rest (fun x hx => h x (by simp [hx]))
    have hcore : b64EncodeCore (a :: b :: c :: rest) =
        b64Char (a / 4) :: b64Char (a % 4 * 16 + b / 16) :: b64Char (b % 16 * 4 + c / 64)
          :: b64Char (c % 64) :: b64EncodeCore rest := rfl
    rw [hcore, b64DecodeCore_cons4]
    rw [b64CharDecode_b64Char (a / 4) (by omega),
      b64CharDecode_b64Char (a % 4 * 16 + b / 16) (by omega),
      b64CharDecode_b64Char (b % 16 * 4 + c / 64) (by omega),
      b64CharDecode_b64Char (c % 64) (by omega)]
    simp only [Option.some_bind, ih, Option.some.injEq, List.cons.injEq]
    exact ⟨by omega, by omega, by omega, trivial⟩

/-- The platform `atob` inverts the platform `btoa` on any byte list. -/
theorem atobBytes_encode (bs : List Nat) (h : ∀ x ∈ bs, x < 256) :
    atobBytes (b64EncodeBytes bs) = some bs := by
  unfold atobBytes
  simp only [b64EncodeBytes_filter bs, b64EncodeBytes_len bs, if_pos,
    dropTrailingEq_core_pad bs]
  exact b64DecodeCore_encodeCore bs h

/-! ## The codec helpers of `v2rayService.ts` -/

/-- `decodeURIComponent(escape(atob(str)))` as an `Option`: `none` models the
thrown exception of either step. -/
def jsAtobUtf8 (cs : List Char) : Option (List Char) :=
  (atobBytes cs).bind utf8Decode

/-- The retry preprocessing: every dash becomes a plus and every underscore
becomes a slash (the global-replace calls in the catch branch). -/
def fixUrlChars (cs : List Char) : List Char :=
  cs.map (fun c => if c = '-' then '+' else if c = '_' then '/' else c)

/-- `safeB64Decode` (v2rayService.ts line 5): tolerant Base64 decode; returns
the empty string when both the standard decode and the URL-safe retry fail. -/
def safeB64Decode (s : String) : String :=
  match jsAtobUtf8 s.data with
  | some cs => String.mk cs
  | none =>
    match jsAtobUtf8 (fixUrlChars s.data) with
    | some cs => String.mk cs
    | none => ""

/-- `safeB64Encode` (v2rayService.ts line 19): `btoa(unescape(encodeURIComponent(str)))`.
For any well-formed string the encoding succeeds, so the model is total. -/
def safeB64Encode (s : String) : String :=
  String.mk (b64EncodeBytes (utf8Encode s.data))

/-- `safeBase64UrlDecode` (v2rayService.ts line 28): substitute the URL-safe
alphabet, pad to a multiple of four, then `safeB64Decode`. -/
def safeBase64UrlDecode (s : String) : String :=
  let base := fixUrlChars s.data
  let padded := base ++ List.replicate ((4 - base.length % 4) % 4) eqCh
  safeB64Decode (String.mk padded)

/-- `safeBase64UrlEncode` (v2rayService.ts line 36): encode, swap to the
URL-safe alphabet and strip trailing padding. -/
def safeBase64UrlEncode (s : String) : String :=
  let base := (safeB64Encode s).data
  let swapped := base.map (fun c => if c = '+' then '-' else if c = '/' then '_' else c)
  String.mk ((swapped.reverse.dropWhile (fun c => c = eqCh)).reverse)

theorem string_mk_data (s : String) : String.mk s.data = s := rfl

theorem safeB64Decode_encode (s : String) : safeB64Decode (safeB64Encode s) = s := by
  unfold safeB64Decode safeB64Encode jsAtobUtf8
  rw [show (String.mk (b64EncodeBytes (utf8Encode s.data))).data
      = b64EncodeBytes (utf8Encode s.data) from rfl]
  rw [atobBytes_encode _ (utf8Encode_lt_256 s.data)]
  simp only [Option.some_bind, utf8Decode_encode]

/-- JavaScript `String.prototype.trim`: strip leading and trailing
whitespace (modelled for the ASCII whitespace set). -/
def isJsWs (c : Char) : Bool :=
  c.toNat = 9 || c.toNat = 10 || c.toNat = 11 || c.toNat = 12 || c.toNat = 13 || c.toNat = 32

def jsTrim (s : String) : String :=
  String.mk (((s.data.dropWhile isJsWs).reverse.dropWhile isJsWs).reverse)

/-- `parseSubscription` (v2rayService.ts line 41): `decoded || content`. -/
def parseSubscription (content : String) : String :=
  let decoded := safeB64Decode (jsTrim content)
  if decoded = "" then content else decoded

/-- **C8** Subscription-import plaintext fallback: whenever the tolerant
Base64 decoder returns the empty string on the trimmed content (both the
standard decode and the URL-safe retry failed), `parseSubscription` returns
the original input text unchanged — it is a total function, so no exception
can escape. -/
theorem C8_parseSubscription_plaintext_fallback (content : String)
    (h : safeB64Decode (jsTrim content) = "") :
    parseSubscription content = content := by
  unfold parseSubscription
  simp [h]

/-- Witness for C8: a line of plain prose is not decodable Base64, and
`parseSubscription` hands it back verbatim. -/
theorem C8_witness :
    safeB64Decode (jsTrim "this is not base64!") = "" ∧
      parseSubscription "this is not base64!" = "this is not base64!" :=
  ⟨by decide, C8_parseSubscription_plaintext_fallback "this is not base64!" (by decide)⟩

/-! ## JSON values (the `JSON.parse` / `JSON.stringify` pair used by the
VMess handler). Numbers are integers; object fields keep insertion order. -/

inductive Json where
  | null : Json
  | bool : Bool → Json
  | num : Int → Json
  | str : String → Json
  | arr : List Json → Json
  | obj : List (String × Json) → Json

mutual

def jsonBEq : Json → Json → Bool
  | .null, .null => true
  | .bool a, .bool b => a == b
  | .num a, .num b => a == b
  | .str a, .str b => a == b
  | .arr xs, .arr ys => jsonListBEq xs ys
  | .obj fs, .obj gs => jsonFieldsBEq fs gs
  | _, _ => false

def jsonListBEq : List Json → List Json → Bool
  | [], [] => true
  | x :: xs, y :: ys => jsonBEq x y && jsonListBEq xs ys
  | _, _ => false

def jsonFieldsBEq : List (String × Json) → List (String × Json) → Bool
  | [], [] => true
  | (k1, v1) :: fs, (k2, v2) :: gs => k1 == k2 && jsonBEq v1 v2 && jsonFieldsBEq fs gs
  | _, _ => false

end

mutual

theorem jsonBEq_iff : ∀ a b : Json, jsonBEq a b = true ↔ a = b
  | .null, b => by cases b <;> simp [jsonBEq]
  | .bool a, b => by cases b <;> simp [jsonBEq]
  | .num a, b => by cases b <;> simp [jsonBEq]
  | .str a, b => by cases b <;> simp [jsonBEq]
  | .arr xs, b => by
    cases b <;> simp [jsonBEq]
    exact jsonListBEq_iff xs _
  | .obj fs, b => by
    cases b <;> simp [jsonBEq]
    exact jsonFieldsBEq_iff fs _

theorem jsonListBEq_iff : ∀ xs ys : List Json, jsonListBEq xs ys = true ↔ xs = ys
  | [], ys => by cases ys <;> simp [jsonListBEq]
  | x :: xs, ys => by
    cases ys with
    | nil => simp [jsonListBEq]
    | cons y ys =>
      simp [jsonListBEq, jsonBEq_iff x y, jsonListBEq_iff xs ys]

theorem jsonFieldsBEq_iff :
    ∀ fs gs : List (String × Json), jsonFieldsBEq fs gs = true ↔ fs = gs
  | [], gs => by cases gs <;> simp [jsonFieldsBEq]
  | (k1, v1) :: fs, gs => by
    cases gs with
    | nil => simp [jsonFieldsBEq]
    | cons g gs =>
      obtain ⟨k2, v2⟩ := g
      simp [jsonFieldsBEq, jsonBEq_iff v1 v2, jsonFieldsBEq_iff fs gs, and_assoc]

end

instance : DecidableEq Json := fun a b =>
  decidable_of_iff (jsonBEq a b = true) (jsonBEq_iff a b)

/-- JavaScript property read `config.key` on a parsed JSON value: only
objects have (own) data properties here. -/
def lookupField : List (String × Json) → String → Option Json
  | [], _ => none
  | (k, v) :: fs, key => if k = key then some v else lookupField fs key

def getField (j : Json) (key : String) : Option Json :=
  match j with
  | .obj fs => lookupField fs key
  | _ => none

/-- JavaScript property write on an object: overwrite in place if the key
exists, append otherwise. -/
def setKV : List (String × Json) → String → Json → List (String × Json)
  | [], key, v => [(key, v)]
  | (k, w) :: fs, key, v => if k = key then (k, v) :: fs else (k, w) :: setKV fs key v

/-- Property assignment `config.key = v`. On an array the assignment adds a
non-index property that `JSON.stringify` ignores, so for the purposes of the
engine (whose only observation of the value is `JSON.stringify`) it is a
no-op; primitives are screened off by the callers (in strict mode the
assignment would throw, which the source catches). -/
def setField (j : Json) (key : String) (v : Json) : Json :=
  match j with
  | .obj fs => .obj (setKV fs key v)
  | other => other

def removeKey : List (String × Json) → String → List (String × Json)
  | [], _ => []
  | (k, v) :: fs, key => if k = key then removeKey fs key else (k, v) :: removeKey fs key

/-- Property removal: models the assignment `config.key = undefined`
(`JSON.stringify` omits properties whose value is `undefined`). -/
def delField (j : Json) (key : String) : Json :=
  match j with
  | .obj fs => .obj (removeKey fs key)
  | other => other

/-- `config.key = x` where `x` itself was read from a possibly missing
property (an `undefined` right-hand side deletes from the stringified
output). -/
def setFieldOpt (j : Json) (key : String) : Option Json → Json
  | some v => setField j key v
  | none => delField j key

theorem lookupField_setKV_self (fs : List (String × Json)) (k : String) (v : Json) :
    lookupField (setKV fs k v) k = some v := by
  induction fs with
  | nil => simp [setKV, lookupField]
  | cons kv fs ih =>
    obtain ⟨k1, v1⟩ := kv
    by_cases h : k1 = k
    · simp [setKV, h, lookupField]
    · simp [setKV, h, lookupField, ih]

theorem lookupField_setKV_ne (fs : List (String × Json)) (k k2 : String) (v : Json)
    (h : k2 ≠ k) : lookupField (setKV fs k v) k2 = lookupField fs k2 := by
  induction fs with
  | nil => simp [setKV, lookupField, Ne.symm h]
  | cons kv fs ih =>
    obtain ⟨k1, v1⟩ := kv
    by_cases h1 : k1 = k
    · subst h1
      simp [setKV, lookupField, Ne.symm h]
    · simp [setKV, h1, lookupField, ih]

theorem getField_setField_self (j : Json) (k : String) (v : Json) (fs : List (String × Json))
    (hj : j = Json.obj fs) : getField (setField j k v) k = some v := by
  subst hj
  simp [getField, setField, lookupField_setKV_self]

theorem getField_setField_ne (j : Json) (k k2 : String) (v : Json) (h : k2 ≠ k) :
    getField (setField j k v) k2 = getField j k2 := by
  cases j <;> simp [getField, setField]
  exact lookupField_setKV_ne _ _ _ _ h

theorem lookupField_removeKey_ne (fs : List (String × Json)) (k k2 : String) (h : k2 ≠ k) :
    lookupField (removeKey fs k) k2 = lookupField fs k2 := by
  induction fs with
  | nil => simp [removeKey]
  | cons kv fs ih =>
    obtain ⟨k1, v1⟩ := kv
    by_cases h1 : k1 = k
    · subst h1
      simp [removeKey, lookupField, Ne.symm h, ih]
    · simp [removeKey, h1, lookupField, ih]

theorem getField_delField_ne (j : Json) (k k2 : String) (h : k2 ≠ k) :
    getField (delField j k) k2 = getField j k2 := by
  cases j <;> simp [getField, delField]
  exact lookupField_removeKey_ne _ _ _ h

theorem getField_setFieldOpt_ne (j : Json) (k k2 : String) (v : Option Json) (h : k2 ≠ k) :
    getField (setFieldOpt j k v) k2 = getField j k2 := by
  cases v with
  | some w => exact getField_setField_ne j k k2 w h
  | none => exact getField_delField_ne j k k2 h

/-! ## `JSON.stringify` -/

def quCh : Char := Char.ofNat 34

def bslCh : Char := Char.ofNat 92

def lcuCh : Char := Char.ofNat 123

def rcuCh : Char := Char.ofNat 125

def minusCh : Char := Char.ofNat 45

def hexLow (n : Nat) : Char :=
  if n < 10 then Char.ofNat (48 + n) else Char.ofNat (87 + n)

/-- The string escaping of `JSON.stringify`: quote, backslash, the five
short control escapes, and `u00xx` for the remaining control characters. -/
def escChar (c : Char) : List Char :=
  if c.toNat = 34 then [bslCh, quCh]
  else if c.toNat = 92 then [bslCh, bslCh]
  else if c.toNat = 8 then [bslCh, 'b']
  else if c.toNat = 9 then [bslCh, 't']
  else if c.toNat = 10 then [bslCh, 'n']
  else if c.toNat = 12 then [bslCh, 'f']
  else if c.toNat = 13 then [bslCh, 'r']
  else if c.toNat < 32 then [bslCh, 'u', '0', '0', hexLow (c.toNat / 16), hexLow (c.toNat % 16)]
  else [c]

def printStr (s : List Char) : List Char :=
  quCh :: (s.map escChar).flatten ++ [quCh]

def intToChars (i : Int) : List Char :=
  if i < 0 then minusCh :: natToChars i.natAbs else natToChars i.natAbs

mutual

def printJson : Json → List Char
  | .null => ['n', 'u', 'l', 'l']
  | .bool true => "true".data
  | .bool false => "false".data
  | .num i => intToChars i
  | .str s => printStr s.data
  | .arr xs => '[' :: printItems xs ++ [']']
  | .obj fs => lcuCh :: printFields fs ++ [rcuCh]

def printItems : List Json → List Char
  | [] => []
  | [x] => printJson x
  | x :: y :: xs => printJson x ++ ',' :: printItems (y :: xs)

def printFields : List (String × Json) → List Char
  | [] => []
  | [(k, v)] => printStr k.data ++ ':' :: printJson v
  | (k, v) :: m :: fs => printStr k.data ++ ':' :: printJson v ++ ',' :: printFields (m :: fs)

end

def jsonStringify (j : Json) : String := String.mk (printJson j)

/-! ## `JSON.parse` (integer numbers only; string escapes cover the printer
image plus the standard simple escapes, with surrogate escape pairs outside
the model) -/

def isJsonWs (c : Char) : Bool :=
  c.toNat = 32 || c.toNat = 9 || c.toNat = 10 || c.toNat = 13

def skipWs (cs : List Char) : List Char := cs.dropWhile isJsonWs

def hexVal (c : Char) : Option Nat :=
  if 48 ≤ c.toNat ∧ c.toNat ≤ 57 then some (c.toNat - 48)
  else if 65 ≤ c.toNat ∧ c.toNat ≤ 70 then some (c.toNat - 55)
  else if 97 ≤ c.toNat ∧ c.toNat ≤ 102 then some (c.toNat - 87)
  else none

mutual

def parseStrBody : List Char → Option (List Char × List Char)
  | [] => none
  | c :: cs =>
    if c = quCh then some ([], cs)
    else if c = bslCh then parseEsc cs
    else if c.toNat < 32 then none
    else (parseStrBody cs).map (fun p => (c :: p.1, p.2))

def parseEsc : List Char → Option (List Char × List Char)
  | [] => none
  | e :: cs2 =>
    if e = quCh then (parseStrBody cs2).map (fun p => (quCh :: p.1, p.2))
    else if e = bslCh then (parseStrBody cs2).map (fun p => (bslCh :: p.1, p.2))
    else if e = '/' then (parseStrBody cs2).map (fun p => ('/' :: p.1, p.2))
    else if e = 'b' then (parseStrBody cs2).map (fun p => (Char.ofNat 8 :: p.1, p.2))
    else if e = 't' then (parseStrBody cs2).map (fun p => (Char.ofNat 9 :: p.1, p.2))
    else if e = 'n' then (parseStrBody cs2).map (fun p => (Char.ofNat 10 :: p.1, p.2))
    else if e = 'f' then (parseStrBody cs2).map (fun p => (Char.ofNat 12 :: p.1, p.2))
    else if e = 'r' then (parseStrBody cs2).map (fun p => (Char.ofNat 13 :: p.1, p.2))
    else if e = 'u' then parseHex4 cs2
    else none

def parseHex4 : List Char → Option (List Char × List Char)
  | h1 :: h2 :: h3 :: h4 :: cs3 =>
    (hexVal h1).bind (fun v1 => (hexVal h2).bind (fun v2 => (hexVal h3).bind (fun v3 =>
      (hexVal h4).bind (fun v4 =>
        if 55296 ≤ v1 * 4096 + v2 * 256 + v3 * 16 + v4 ∧
            v1 * 4096 + v2 * 256 + v3 * 16 + v4 < 57344 then none
        else (parseStrBody cs3).map
          (fun p => (Char.ofNat (v1 * 4096 + v2 * 256 + v3 * 16 + v4) :: p.1, p.2))))))
  | _ => none

end

/-- Natural-number token: one or more digits, no redundant leading zero, and
not followed by a fraction or exponent marker (which are outside the model). -/
def numFollow : List Char → Bool
  | [] => false
  | r :: _ => r = Char.ofNat 46 || r = 'e' || r = 'E'

def parseNatPart (cs : List Char) : Option (Nat × List Char) :=
  let ds := cs.takeWhile isDigitChar
  let rest := cs.dropWhile isDigitChar
  if hne : ds = [] then none
  else if 1 < ds.length ∧ ds.head hne = Char.ofNat 48 then none
  else if numFollow rest then none
  else some (charsToNatAux 0 ds, rest)

def parseNumTok : List Char → Option (Int × List Char)
  | [] => none
  | c :: cs =>
    if c = minusCh then (parseNatPart cs).map (fun p => (-(p.1 : Int), p.2))
    else (parseNatPart (c :: cs)).map (fun p => ((p.1 : Int), p.2))

def expectChars : List Char → List Char → Option (List Char)
  | [], rest => some rest
  | e :: es, c :: rest => if c = e then expectChars es rest else none
  | _ :: _, [] => none

mutual

def parseVal : Nat → List Char → Option (Json × List Char)
  | 0, _ => none
  | f + 1, cs => parseValHead f (skipWs cs)

def parseValHead : Nat → List Char → Option (Json × List Char)
  | 0, _ => none
  | _ + 1, [] => none
  | f + 1, c :: rest =>
    if c = quCh then (parseStrBody rest).map (fun p => (Json.str (String.mk p.1), p.2))
    else if c = lcuCh then parseObjBody f (skipWs rest)
    else if c = '[' then parseArrBody f (skipWs rest)
    else if c = 't' then (expectChars ['r', 'u', 'e'] rest).map (fun r => (Json.bool true, r))
    else if c = 'f' then
      (expectChars ['a', 'l', 's', 'e'] rest).map (fun r => (Json.bool false, r))
    else if c = 'n' then (expectChars ['u', 'l', 'l'] rest).map (fun r => (Json.null, r))
    else (parseNumTok (c :: rest)).map (fun p => (Json.num p.1, p.2))

def parseObjBody : Nat → List Char → Option (Json × List Char)
  | 0, _ => none
  | _ + 1, [] => none
  | f + 1, c :: rest =>
    if c = rcuCh then some (Json.obj [], rest) else parseFields f [] (c :: rest)

def parseArrBody : Nat → List Char → Option (Json × List Char)
  | 0, _ => none
  | _ + 1, [] => none
  | f + 1, c :: rest =>
    if c = ']' then some (Json.arr [], rest)
    else (parseItems f (c :: rest)).map (fun p => (Json.arr p.1, p.2))

def parseItems : Nat → List Char → Option (List Json × List Char)
  | 0, _ => none
  | f + 1, cs => (parseVal f cs).bind (fun p => parseItemsSep f p.1 (skipWs p.2))

def parseItemsSep : Nat → Json → List Char → Option (List Json × List Char)
  | 0, _, _ => none
  | _ + 1, _, [] => none
  | f + 1, v, c :: r2 =>
    if c = ',' then (parseItems f r2).map (fun q => (v :: q.1, q.2))
    else if c = ']' then some ([v], r2)
    else none

def parseFields : Nat → List (String × Json) → List Char → Option (Json × List Char)
  | 0, _, _ => none
  | f + 1, acc, cs => parseFieldsKey f acc (skipWs cs)

def parseFieldsKey : Nat → List (String × Json) → List Char → Option (Json × List Char)
  | 0, _, _ => none
  | _ + 1, _, [] => none
  | f + 1, acc, c :: rest =>
    if c = quCh then
      (parseStrBody rest).bind (fun p => parseFieldsColon f acc (String.mk p.1) (skipWs p.2))
    else none

def parseFieldsColon : Nat → List (String × Json) → String → List Char →
    Option (Json × List Char)
  | 0, _, _, _ => none
  | _ + 1, _, _, [] => none
  | f + 1, acc, k, c :: r2 =>
    if c = ':' then
      (parseVal f r2).bind (fun p => parseFieldsSep f (setKV acc k p.1) (skipWs p.2))
    else none

def parseFieldsSep : Nat → List (String × Json) → List Char → Option (Json × List Char)
  | 0, _, _ => none
  | _ + 1, _, [] => none
  | f + 1, acc2, c :: r4 =>
    if c = ',' then parseFields f acc2 r4
    else if c = rcuCh then some (Json.obj acc2, r4)
    else none

end

/-- `JSON.parse`, with the whole-input requirement (trailing whitespace
allowed). The fuel bound is generous: one unit per parsing phase, at most a
constant number of phases per input character. -/
def jsonParse (s : String) : Option Json :=
  match parseVal (4 * s.data.length + 4) s.data with
  | some (j, rest) => if skipWs rest = [] then some j else none
  | none => none

/-! ## Wellformedness of parsed JSON (distinct object keys, recursively) -/

def keysDistinct : List (String × Json) → Bool
  | [] => true
  | (k, _) :: fs => fs.all (fun kv => kv.1 ≠ k) && keysDistinct fs

mutual

def wfJson : Json → Bool
  | .arr xs => wfList xs
  | .obj fs => keysDistinct fs && wfFields fs
  | _ => true

def wfList : List Json → Bool
  | [] => true
  | x :: xs => wfJson x && wfList xs

def wfFields : List (String × Json) → Bool
  | [] => true
  | (_, v) :: fs => wfJson v && wfFields fs

end

theorem setKV_mem (fs : List (String × Json)) (k : String) (v : Json) :
    ∀ kv ∈ setKV fs k v, kv.1 = k ∨ kv ∈ fs := by
  induction fs with
  | nil =>
    intro kv hkv
    simp [setKV] at hkv
    simp [hkv]
  | cons kv1 fs ih =>
    obtain ⟨k1, w⟩ := kv1
    intro kv hkv
    by_cases h1 : k1 = k
    · subst h1
      simp only [setKV, if_pos rfl] at hkv
      rcases List.mem_cons.mp hkv with rfl | hm
      · exact Or.inl rfl
      · exact Or.inr (by simp [hm])
    · simp only [setKV, if_neg h1] at hkv
      rcases List.mem_cons.mp hkv with rfl | hm
      · exact Or.inr (by simp)
      · rcases ih kv hm with h | h
        · exact Or.inl h
        · exact Or.inr (by simp [h])

theorem keysDistinct_setKV (fs : List (String × Json)) (k : String) (v : Json)
    (h : keysDistinct fs = true) : keysDistinct (setKV fs k v) = true := by
  induction fs with
  | nil => simp [setKV, keysDistinct]
  | cons kv fs ih =>
    obtain ⟨k1, v1⟩ := kv
    simp only [keysDistinct, Bool.and_eq_true, List.all_eq_true] at h
    by_cases h1 : k1 = k
    · subst h1
      simp only [setKV, if_pos rfl, keysDistinct, Bool.and_eq_true, List.all_eq_true]
      exact h
    · simp only [setKV, if_neg h1, keysDistinct, Bool.and_eq_true, List.all_eq_true]
      refine ⟨?_, ih h.2⟩
      intro kv hkv
      rcases setKV_mem fs k v kv hkv with he | hm
      · simp [he, Ne.symm h1]
      · exact h.1 kv hm

theorem wfFields_setKV (fs : List (String × Json)) (k : String) (v : Json)
    (hv : wfJson v = true) (h : wfFields fs = true) : wfFields (setKV fs k v) = true := by
  induction fs with
  | nil => simp [setKV, wfFields, hv]
  | cons kv fs ih =>
    obtain ⟨k1, v1⟩ := kv
    simp only [wfFields, Bool.and_eq_true] at h
    by_cases h1 : k1 = k
    · subst h1
      simp only [setKV, if_pos rfl, wfFields, Bool.and_eq_true]
      exact ⟨hv, h.2⟩
    · simp only [setKV, if_neg h1, wfFields, Bool.and_eq_true]
      exact ⟨h.1, ih h.2⟩

theorem removeKey_mem (fs : List (String × Json)) (k : String) :
    ∀ kv ∈ removeKey fs k, kv ∈ fs := by
  induction fs with
  | nil => simp [removeKey]
  | cons kv1 fs ih =>
    obtain ⟨k1, w⟩ := kv1
    intro kv hkv
    by_cases h1 : k1 = k
    · subst h1
      simp only [removeKey, if_pos rfl] at hkv
      exact List.mem_cons_of_mem _ (ih kv hkv)
    · simp only [removeKey, if_neg h1] at hkv
      rcases List.mem_cons.mp hkv with rfl | hm
      · simp
      · exact List.mem_cons_of_mem _ (ih kv hm)

theorem keysDistinct_removeKey (fs : List (String × Json)) (k : String)
    (h : keysDistinct fs = true) : keysDistinct (removeKey fs k) = true := by
  induction fs with
  | nil => simp [removeKey, keysDistinct]
  | cons kv fs ih =>
    obtain ⟨k1, v1⟩ := kv
    simp only [keysDistinct, Bool.and_eq_true, List.all_eq_true] at h
    by_cases h1 : k1 = k
    · subst h1
      simp only [removeKey, if_pos rfl]
      exact ih h.2
    · simp only [removeKey, if_neg h1, keysDistinct, Bool.and_eq_true, List.all_eq_true]
      exact ⟨fun kv hkv => h.1 kv (removeKey_mem fs k kv hkv), ih h.2⟩

theorem wfFields_removeKey (fs : List (String × Json)) (k : String)
    (h : wfFields fs = true) : wfFields (removeKey fs k) = true := by
  induction fs with
  | nil => simp [removeKey, wfFields]
  | cons kv fs ih =>
    obtain ⟨k1, v1⟩ := kv
    simp only [wfFields, Bool.and_eq_true] at h
    by_cases h1 : k1 = k
    · subst h1
      simp only [removeKey, if_pos rfl]
      exact ih h.2
    · simp only [removeKey, if_neg h1, wfFields, Bool.and_eq_true]
      exact ⟨h.1, ih h.2⟩

theorem wfJson_setField (j : Json) (k : String) (v : Json)
    (hv : wfJson v = true) (h : wfJson j = true) : wfJson (setField j k v) = true := by
  cases j <;> simp only [setField] <;> try exact h
  rename_i fs
  simp only [wfJson, Bool.and_eq_true] at h ⊢
  exact ⟨keysDistinct_setKV fs k v h.1, wfFields_setKV fs k v hv h.2⟩

theorem wfJson_delField (j : Json) (k : String) (h : wfJson j = true) :
    wfJson (delField j k) = true := by
  cases j <;> simp only [delField] <;> try exact h
  rename_i fs
  simp only [wfJson, Bool.and_eq_true] at h ⊢
  exact ⟨keysDistinct_removeKey fs k h.1, wfFields_removeKey fs k h.2⟩

theorem wfJson_setFieldOpt (j : Json) (k : String) (v : Option Json)
    (hv : ∀ w, v = some w → wfJson w = true) (h : wfJson j = true) :
    wfJson (setFieldOpt j k v) = true := by
  cases v with
  | some w => exact wfJson_setField j k w (hv w rfl) h
  | none => exact wfJson_delField j k h


mutual

theorem parseVal_wf : ∀ (f : Nat) (cs : List Char) (j : Json) (r : List Char),
    parseVal f cs = some (j, r) → wfJson j = true
  | 0, cs, j, r => by intro h; simp [parseVal] at h
  | f + 1, cs, j, r => by
    intro h
    rw [parseVal] at h
    exact parseValHead_wf f (skipWs cs) j r h

theorem parseValHead_wf : ∀ (f : Nat) (cs : List Char) (j : Json) (r : List Char),
    parseValHead f cs = some (j, r) → wfJson j = true
  | 0, cs, j, r => by intro h; simp [parseValHead] at h
  | f + 1, [], j, r => by intro h; simp [parseValHead] at h
  | f + 1, c :: rest, j, r => by
    intro h
    rw [parseValHead] at h
    split_ifs at h with h1 h2 h3 h4 h5 h6
    · rcases Option.map_eq_some'.mp h with ⟨p, hp, he⟩
      injection he with e1 e2
      subst e1
      simp [wfJson]
    · exact parseObjBody_wf f (skipWs rest) j r h
    · exact parseArrBody_wf f (skipWs rest) j r h
    · rcases Option.map_eq_some'.mp h with ⟨r2, hp, he⟩
      injection he with e1 e2
      subst e1
      simp [wfJson]
    · rcases Option.map_eq_some'.mp h with ⟨r2, hp, he⟩
      injection he with e1 e2
      subst e1
      simp [wfJson]
    · rcases Option.map_eq_some'.mp h with ⟨r2, hp, he⟩
      injection he with e1 e2
      subst e1
      simp [wfJson]
    · rcases Option.map_eq_some'.mp h with ⟨p, hp, he⟩
      injection he with e1 e2
      subst e1
      simp [wfJson]

theorem parseObjBody_wf : ∀ (f : Nat) (cs : List Char) (j : Json) (r : List Char),
    parseObjBody f cs = some (j, r) → wfJson j = true
  | 0, cs, j, r => by intro h; simp [parseObjBody] at h
  | f + 1, [], j, r => by intro h; simp [parseObjBody] at h
  | f + 1, c :: rest, j, r => by
    intro h
    rw [parseObjBody] at h
    split_ifs at h with h1
    · injection h with h2
      injection h2 with e1 e2
      subst e1
      simp [wfJson, keysDistinct, wfFields]
    · exact parseFields_wf f [] (c :: rest) j r rfl rfl h

theorem parseArrBody_wf : ∀ (f : Nat) (cs : List Char) (j : Json) (r : List Char),
    parseArrBody f cs = some (j, r) → wfJson j = true
  | 0, cs, j, r => by intro h; simp [parseArrBody] at h
  | f + 1, [], j, r => by intro h; simp [parseArrBody] at h
  | f + 1, c :: rest, j, r => by
    intro h
    rw [parseArrBody] at h
    split_ifs at h with h1
    · injection h with h2
      injection h2 with e1 e2
      subst e1
      simp [wfJson, wfList]
    · rcases Option.map_eq_some'.mp h with ⟨⟨xs, r2⟩, hp, he⟩
      injection he with e1 e2
      subst e1
      simpa [wfJson] using parseItems_wf f (c :: rest) xs r2 hp

theorem parseItems_wf : ∀ (f : Nat) (cs : List Char) (xs : List Json) (r : List Char),
    parseItems f cs = some (xs, r) → wfList xs = true
  | 0, cs, xs, r => by intro h; simp [parseItems] at h
  | f + 1, cs, xs, r => by
    intro h
    rw [parseItems] at h
    rcases Option.bind_eq_some.mp h with ⟨⟨v, r1⟩, hv, h2⟩
    have hwv := parseVal_wf f cs v r1 hv
    have := parseItemsSep_wf f v (skipWs r1) xs r hwv h2
    exact this

theorem parseItemsSep_wf : ∀ (f : Nat) (v : Json) (cs : List Char) (xs : List Json)
    (r : List Char), wfJson v = true → parseItemsSep f v cs = some (xs, r) →
    wfList xs = true
  | 0, v, cs, xs, r => by intro _ h; simp [parseItemsSep] at h
  | f + 1, v, [], xs, r => by intro _ h; simp [parseItemsSep] at h
  | f + 1, v, c :: r2, xs, r => by
    intro hwv h
    rw [parseItemsSep] at h
    split_ifs at h with h1 h2
    · rcases Option.map_eq_some'.mp h with ⟨⟨vs, r3⟩, hp, he⟩
      injection he with e1 e2
      subst e1
      simp only [wfList, Bool.and_eq_true]
      exact ⟨hwv, parseItems_wf f r2 vs r3 hp⟩
    · injection h with h2
      injection h2 with e1 e2
      subst e1
      simp [wfList, hwv]

theorem parseFields_wf : ∀ (f : Nat) (acc : List (String × Json)) (cs : List Char)
    (j : Json) (r : List Char), keysDistinct acc = true → wfFields acc = true →
    parseFields f acc cs = some (j, r) → wfJson j = true
  | 0, acc, cs, j, r => by intro _ _ h; simp [parseFields] at h
  | f + 1, acc, cs, j, r => by
    intro hd hw h
    rw [parseFields] at h
    exact parseFieldsKey_wf f acc (skipWs cs) j r hd hw h

theorem parseFieldsKey_wf : ∀ (f : Nat) (acc : List (String × Json)) (cs : List Char)
    (j : Json) (r : List Char), keysDistinct acc = true → wfFields acc = true →
    parseFieldsKey f acc cs = some (j, r) → wfJson j = true
  | 0, acc, cs, j, r => by intro _ _ h; simp [parseFieldsKey] at h
  | f + 1, acc, [], j, r => by intro _ _ h; simp [parseFieldsKey] at h
  | f + 1, acc, c :: rest, j, r => by
    intro hd hw h
    rw [parseFieldsKey] at h
    split_ifs at h with h1
    rcases Option.bind_eq_some.mp h with ⟨⟨k, r1⟩, hk, h2⟩
    exact parseFieldsColon_wf f acc (String.mk k) (skipWs r1) j r hd hw h2

theorem parseFieldsColon_wf : ∀ (f : Nat) (acc : List (String × Json)) (k : String)
    (cs : List Char) (j : Json) (r : List Char), keysDistinct acc = true →
    wfFields acc = true → parseFieldsColon f acc k cs = some (j, r) → wfJson j = true
  | 0, acc, k, cs, j, r => by intro _ _ h; simp [parseFieldsColon] at h
  | f + 1, acc, k, [], j, r => by intro _ _ h; simp [parseFieldsColon] at h
  | f + 1, acc, k, c :: r2, j, r => by
    intro hd hw h
    rw [parseFieldsColon] at h
    split_ifs at h with h1
    rcases Option.bind_eq_some.mp h with ⟨⟨v, r3⟩, hv, h2⟩
    have hwv := parseVal_wf f r2 v r3 hv
    exact parseFieldsSep_wf f (setKV acc k v) (skipWs r3) j r
      (keysDistinct_setKV acc k v hd) (wfFields_setKV acc k v hwv hw) h2

theorem parseFieldsSep_wf : ∀ (f : Nat) (acc2 : List (String × Json)) (cs : List Char)
    (j : Json) (r : List Char), keysDistinct acc2 = true → wfFields acc2 = true →
    parseFieldsSep f acc2 cs = some (j, r) → wfJson j = true
  | 0, acc2, cs, j, r => by intro _ _ h; simp [parseFieldsSep] at h
  | f + 1, acc2, [], j, r => by intro _ _ h; simp [parseFieldsSep] at h
  | f + 1, acc2, c :: r4, j, r => by
    intro hd hw h
    rw [parseFieldsSep] at h
    split_ifs at h with h1 h2
    · exact parseFields_wf f acc2 r4 j r hd hw h
    · injection h with h2
      injection h2 with e1 e2
      subst e1
      simp [wfJson, hd, hw]

end

theorem jsonParse_wf (s : String) (j : Json) (h : jsonParse s = some j) :
    wfJson j = true := by
  unfold jsonParse at h
  rcases hp : parseVal (4 * s.data.length + 4) s.data with _ | ⟨jj, rest⟩ <;> rw [hp] at h
  · exact absurd h (by simp)
  · simp only at h
    split_ifs at h
    simp only [Option.some.injEq] at h
    rw [← h]
    exact parseVal_wf _ _ _ _ hp

/-! ## Inversion of the printer: auxiliary character and token lemmas -/

theorem char_eq_of_toNat {c d : Char} (h : c.toNat = d.toNat) : c = d :=
  Char.ext (UInt32.ext h)

theorem char_ne_of_toNat {c d : Char} (h : c.toNat ≠ d.toNat) : c ≠ d :=
  fun hh => h (by rw [hh])

theorem skipWs_cons {c : Char} (cs : List Char) (h : isJsonWs c = false) :
    skipWs (c :: cs) = c :: cs := by
  simp [skipWs, List.dropWhile_cons, h]

theorem hexVal_hexLow (x : Nat) (h : x < 16) : hexVal (hexLow x) = some x := by
  unfold hexLow
  split_ifs with h1
  · have ht : (Char.ofNat (48 + x)).toNat = 48 + x := char_toNat_ofNat_small _ (by omega)
    unfold hexVal
    rw [ht, if_pos (by omega)]
    congr 1
    omega
  · have ht : (Char.ofNat (87 + x)).toNat = 87 + x := char_toNat_ofNat_small _ (by omega)
    unfold hexVal
    rw [ht, if_neg (by omega), if_neg (by omega), if_pos (by omega)]
    congr 1
    omega


theorem parseStrBody_print (s : List Char) (rest : List Char) :
    parseStrBody ((s.map escChar).flatten ++ quCh :: rest) = some (s, rest) := by
  induction s with
  | nil =>
    simp only [List.map_nil, List.flatten_nil, List.nil_append]
    rw [parseStrBody, if_pos rfl]
  | cons c s ih =>
    have hq : (quCh).toNat = 34 := char_toNat_ofNat_small _ (by omega)
    have hb : (bslCh).toNat = 92 := char_toNat_ofNat_small _ (by omega)
    have heq : (((c :: s).map escChar).flatten : List Char) ++ quCh :: rest =
        escChar c ++ ((s.map escChar).flatten ++ quCh :: rest) := by
      simp
    rw [heq]
    by_cases h1 : c.toNat = 34
    · have hc : c = quCh := char_eq_of_toNat (by omega)
      rw [show escChar c = [bslCh, quCh] from by unfold escChar; rw [if_pos h1]]
      simp only [List.cons_append, List.nil_append]
      rw [parseStrBody, if_neg (by decide), if_pos rfl, parseEsc, if_pos rfl, ih]
      simp [hc]
    · by_cases h2 : c.toNat = 92
      · have hc : c = bslCh := char_eq_of_toNat (by omega)
        rw [show escChar c = [bslCh, bslCh] from by
          unfold escChar; rw [if_neg h1, if_pos h2]]
        simp only [List.cons_append, List.nil_append]
        rw [parseStrBody, if_neg (by decide), if_pos rfl, parseEsc, if_neg (by decide),
          if_pos rfl, ih]
        simp [hc]
      · by_cases h3 : c.toNat = 8
        · have hc : c = Char.ofNat 8 := char_eq_of_toNat
            (by rw [char_toNat_ofNat_small _ (by omega)]; omega)
          rw [show escChar c = [bslCh, 'b'] from by
            unfold escChar; rw [if_neg h1, if_neg h2, if_pos h3]]
          simp only [List.cons_append, List.nil_append]
          rw [parseStrBody, if_neg (by decide), if_pos rfl, parseEsc, if_neg (by decide),
            if_neg (by decide), if_neg (by decide), if_pos rfl, ih]
          simp [hc]
        · by_cases h4 : c.toNat = 9
          · have hc : c = Char.ofNat 9 := char_eq_of_toNat
              (by rw [char_toNat_ofNat_small _ (by omega)]; omega)
            rw [show escChar c = [bslCh, 't'] from by
              unfold escChar; rw [if_neg h1, if_neg h2, if_neg h3, if_pos h4]]
            simp only [List.cons_append, List.nil_append]
            rw [parseStrBody, if_neg (by decide), if_pos rfl, parseEsc, if_neg (by decide),
              if_neg (by decide), if_neg (by decide), if_neg (by decide), if_pos rfl, ih]
            simp [hc]
          · by_cases h5 : c.toNat = 10
            · have hc : c = Char.ofNat 10 := char_eq_of_toNat
                (by rw [char_toNat_ofNat_small _ (by omega)]; omega)
              rw [show escChar c = [bslCh, 'n'] from by
                unfold escChar; rw [if_neg h1, if_neg h2, if_neg h3, if_neg h4, if_pos h5]]
              simp only [List.cons_append, List.nil_append]
              rw [parseStrBody, if_neg (by decide), if_pos rfl, parseEsc,
                if_neg (by decide), if_neg (by decide), if_neg (by decide),
                if_neg (by decide), if_neg (by decide), if_pos rfl, ih]
              simp [hc]
            · by_cases h6 : c.toNat = 12
              · have hc : c = Char.ofNat 12 := char_eq_of_toNat
                  (by rw [char_toNat_ofNat_small _ (by omega)]; omega)
                rw [show escChar c = [bslCh, 'f'] from by
                  unfold escChar
                  rw [if_neg h1, if_neg h2, if_neg h3, if_neg h4, if_neg h5, if_pos h6]]
                simp only [List.cons_append, List.nil_append]
                rw [parseStrBody, if_neg (by decide), if_pos rfl, parseEsc,
                  if_neg (by decide), if_neg (by decide), if_neg (by decide),
                  if_neg (by decide), if_neg (by decide), if_neg (by decide),
                  if_pos rfl, ih]
                simp [hc]
              · by_cases h7 : c.toNat = 13
                · have hc : c = Char.ofNat 13 := char_eq_of_toNat
                    (by rw [char_toNat_ofNat_small _ (by omega)]; omega)
                  rw [show escChar c = [bslCh, 'r'] from by
                    unfold escChar
                    rw [if_neg h1, if_neg h2, if_neg h3, if_neg h4, if_neg h5, if_neg h6,
                      if_pos h7]]
                  simp only [List.cons_append, List.nil_append]
                  rw [parseStrBody, if_neg (by decide), if_pos rfl, parseEsc,
                    if_neg (by decide), if_neg (by decide), if_neg (by decide),
                    if_neg (by decide), if_neg (by decide), if_neg (by decide),
                    if_neg (by decide), if_pos rfl, ih]
                  simp [hc]
                · by_cases h8 : c.toNat < 32
                  · rw [show escChar c =
                        [bslCh, 'u', '0', '0', hexLow (c.toNat / 16), hexLow (c.toNat % 16)]
                        from by
                      unfold escChar
                      rw [if_neg h1, if_neg h2, if_neg h3, if_neg h4, if_neg h5, if_neg h6,
                        if_neg h7, if_pos h8]]
                    simp only [List.cons_append, List.nil_append]
                    rw [parseStrBody, if_neg (by decide), if_pos rfl, parseEsc,
                      if_neg (by decide), if_neg (by decide), if_neg (by decide),
                      if_neg (by decide), if_neg (by decide), if_neg (by decide),
                      if_neg (by decide), if_neg (by decide), if_pos rfl, parseHex4]
                    rw [show hexVal '0' = some 0 from by decide]
                    rw [hexVal_hexLow (c.toNat / 16) (by omega),
                      hexVal_hexLow (c.toNat % 16) (by omega)]
                    simp only [Option.some_bind]
                    have hval : 0 * 4096 + 0 * 256 + c.toNat / 16 * 16 + c.toNat % 16
                        = c.toNat := by
                      have := Nat.div_add_mod c.toNat 16
                      omega
                    rw [if_neg (by omega), ih]
                    simp only [Option.map_some', Option.some.injEq, Prod.mk.injEq,
                      List.cons.injEq, and_true]
                    rw [hval, Char.ofNat_toNat]
                  · rw [show escChar c = [c] from by
                      unfold escChar
                      rw [if_neg h1, if_neg h2, if_neg h3, if_neg h4, if_neg h5, if_neg h6,
                        if_neg h7, if_neg h8]]
                    rw [List.cons_append, List.nil_append, parseStrBody,
                      if_neg (char_ne_of_toNat (by rw [hq]; omega)),
                      if_neg (char_ne_of_toNat (by rw [hb]; omega)), if_neg (by omega), ih]
                    simp

theorem takeWhile_append_all (p : Char → Bool) (l r : List Char)
    (h : ∀ c ∈ l, p c = true) : (l ++ r).takeWhile p = l ++ r.takeWhile p := by
  induction l with
  | nil => simp
  | cons c cs ih =>
    have hc := h c (by simp)
    have ht := ih (fun c2 hc2 => h c2 (by simp [hc2]))
    simp [List.takeWhile_cons, hc, ht]

theorem dropWhile_append_all (p : Char → Bool) (l r : List Char)
    (h : ∀ c ∈ l, p c = true) : (l ++ r).dropWhile p = r.dropWhile p := by
  induction l with
  | nil => simp
  | cons c cs ih =>
    have hc := h c (by simp)
    have ht := ih (fun c2 hc2 => h c2 (by simp [hc2]))
    simp [List.dropWhile_cons, hc, ht]

theorem natToChars_len_ge (n : Nat) (h : 10 ≤ n) : 1 < (natToChars n).length := by
  unfold natToChars
  rw [dif_neg (by omega)]
  have := natToChars_ne_nil (n / 10)
  have : 1 ≤ (natToChars (n / 10)).length := by
    cases hx : natToChars (n / 10) with
    | nil => exact absurd hx this
    | cons a t => simp
  simp only [List.length_append, List.length_singleton]
  omega

theorem natToChars_len_le (n : Nat) (h : n < 10) : (natToChars n).length = 1 := by
  unfold natToChars
  rw [dif_pos h]
  rfl

theorem natToChars_head_ne48 (n : Nat) (h : 10 ≤ n) :
    ∀ c, (natToChars n).head? = some c → c.toNat ≠ 48 := by
  induction n using Nat.strong_induction_on with
  | _ n ih =>
    intro c hc
    unfold natToChars at hc
    rw [dif_neg (by omega)] at hc
    rcases hx : natToChars (n / 10) with _ | ⟨a, t⟩
    · exact absurd hx (natToChars_ne_nil (n / 10))
    · rw [hx] at hc
      simp only [List.cons_append, List.head?_cons, Option.some.injEq] at hc
      rw [← hc]
      by_cases h10 : 10 ≤ n / 10
      · exact ih (n / 10) (Nat.div_lt_self (by omega) (by omega)) h10 a (by rw [hx]; rfl)
      · have h1 : 1 ≤ n / 10 := Nat.le_div_iff_mul_le (by omega) |>.mpr (by omega)
        have hx2 : natToChars (n / 10) = [digitChar (n / 10)] := by
          unfold natToChars
          rw [dif_pos (by omega)]
        rw [hx2] at hx
        have ha : a = digitChar (n / 10) := by
          injection hx with e1 e2
          exact e1.symm
        rw [ha, digitChar_toNat]
        omega

/-- Separators that may legally follow a printed value inside a document:
comma, closing bracket, closing brace, or end of input. -/
def sepHead : List Char → Bool
  | [] => true
  | c :: _ => c.toNat = 44 || c.toNat = 93 || c.toNat = 125

theorem parseNatPart_print (n : Nat) (rest : List Char) (hrest : sepHead rest = true) :
    parseNatPart (natToChars n ++ rest) = some (n, rest) := by
  have hdig := natToChars_digits n
  have hrestDig : ∀ c t, rest = c :: t → isDigitChar c = false := by
    rintro c t rfl
    simp only [sepHead, Bool.or_eq_true, decide_eq_true_eq] at hrest
    simp only [isDigitChar, Bool.and_eq_false_iff, decide_eq_false_iff_not]
    omega
  have htake : (natToChars n ++ rest).takeWhile isDigitChar = natToChars n := by
    rw [takeWhile_append_all _ _ _ hdig]
    rcases rest with _ | ⟨c, t⟩
    · simp
    · simp [List.takeWhile_cons, hrestDig c t rfl]
  have hdrop : (natToChars n ++ rest).dropWhile isDigitChar = rest := by
    rw [dropWhile_append_all _ _ _ hdig]
    rcases rest with _ | ⟨c, t⟩
    · simp
    · simp [List.dropWhile_cons, hrestDig c t rfl]
  unfold parseNatPart
  simp only [htake, hdrop]
  rw [dif_neg (natToChars_ne_nil n)]
  rw [if_neg ?hzero]
  case hzero =>
    rintro ⟨hlen, hhead⟩
    have h10 : 10 ≤ n := by
      by_contra hlt
      rw [natToChars_len_le n (by omega)] at hlen
      omega
    have := natToChars_head_ne48 n h10 (Char.ofNat 48)
      (by rw [List.head?_eq_head (natToChars_ne_nil n), hhead])
    rw [char_toNat_ofNat_small _ (by omega)] at this
    exact this rfl
  rw [if_neg ?hfollow]
  case hfollow =>
    rcases rest with _ | ⟨c, t⟩
    · simp [numFollow]
    · simp only [sepHead, Bool.or_eq_true, decide_eq_true_eq] at hrest
      simp only [numFollow, Bool.or_eq_true, decide_eq_true_eq, Bool.not_eq_true]
      have h46 : (Char.ofNat 46).toNat = 46 := char_toNat_ofNat_small _ (by omega)
      intro hcon
      rcases hcon with (h | h) | h
      · have h2 := congrArg Char.toNat h
        rw [h46] at h2
        omega
      · have h2 := congrArg Char.toNat h
        rw [show Char.toNat 'e' = 101 from by decide] at h2
        omega
      · have h2 := congrArg Char.toNat h
        rw [show Char.toNat 'E' = 69 from by decide] at h2
        omega
  rw [charsToNat_natToChars n]

theorem parseNumTok_print (i : Int) (rest : List Char) (hrest : sepHead rest = true) :
    parseNumTok (intToChars i ++ rest) = some (i, rest) := by
  unfold intToChars
  split_ifs with hneg
  · simp only [List.cons_append]
    rw [parseNumTok, if_pos rfl, parseNatPart_print _ _ hrest]
    simp only [Option.map_some', Option.some.injEq, Prod.mk.injEq, and_true]
    omega
  · obtain ⟨c, t, hx⟩ : ∃ c t, natToChars i.natAbs = c :: t := by
      rcases hq : natToChars i.natAbs with _ | ⟨c, t⟩
      · exact absurd hq (natToChars_ne_nil i.natAbs)
      · exact ⟨c, t, rfl⟩
    have hcd : isDigitChar c = true := natToChars_digits i.natAbs c (by rw [hx]; simp)
    simp only [isDigitChar, Bool.and_eq_true, decide_eq_true_eq] at hcd
    have hm : (minusCh).toNat = 45 := char_toNat_ofNat_small _ (by omega)
    rw [hx, List.cons_append, parseNumTok,
      if_neg (char_ne_of_toNat (by rw [hm]; omega)),
      ← List.cons_append, ← hx, parseNatPart_print _ _ hrest]
    simp only [Option.map_some', Option.some.injEq, Prod.mk.injEq, and_true]
    omega

theorem expectChars_self (es rest : List Char) : expectChars es (es ++ rest) = some rest := by
  induction es with
  | nil => rfl
  | cons e es ih =>
    simp only [List.cons_append]
    rw [expectChars, if_pos rfl, ih]

/-- Every printed JSON value begins with one of the token lead characters:
quote, brace, bracket, a keyword letter, a minus sign or a digit. -/
theorem printJson_head (j : Json) :
    ∃ c t, printJson j = c :: t ∧ (c.toNat = 34 ∨ c.toNat = 123 ∨ c.toNat = 91 ∨
      c.toNat = 110 ∨ c.toNat = 116 ∨ c.toNat = 102 ∨ c.toNat = 45 ∨
      (48 ≤ c.toNat ∧ c.toNat ≤ 57)) := by
  cases j with
  | null => exact ⟨'n', _, rfl, by decide⟩
  | bool b =>
    cases b with
    | true => exact ⟨'t', _, rfl, by decide⟩
    | false => exact ⟨'f', _, rfl, by decide⟩
  | num i =>
    show ∃ c t, intToChars i = c :: t ∧ _
    unfold intToChars
    split_ifs with hneg
    · exact ⟨minusCh, _, rfl, by
        have : (minusCh).toNat = 45 := char_toNat_ofNat_small _ (by omega)
        omega⟩
    · rcases hx : natToChars i.natAbs with _ | ⟨c, t⟩
      · exact absurd hx (natToChars_ne_nil i.natAbs)
      · have hcd : isDigitChar c = true := natToChars_digits i.natAbs c (by rw [hx]; simp)
        simp only [isDigitChar, Bool.and_eq_true, decide_eq_true_eq] at hcd
        exact ⟨c, t, rfl, by omega⟩
  | str s =>
    refine ⟨quCh, _, rfl, ?_⟩
    have : (quCh).toNat = 34 := char_toNat_ofNat_small _ (by omega)
    omega
  | arr xs => exact ⟨'[', _, rfl, by decide⟩
  | obj fs =>
    refine ⟨lcuCh, _, rfl, ?_⟩
    have : (lcuCh).toNat = 123 := char_toNat_ofNat_small _ (by omega)
    omega

theorem printJson_head_not_ws {j : Json} {c : Char} {t : List Char}
    (h : printJson j = c :: t) : isJsonWs c = false := by
  obtain ⟨c2, t2, he, hfacts⟩ := printJson_head j
  rw [h] at he
  injection he with e1 e2
  subst e1
  simp only [isJsonWs, Bool.or_eq_false_iff, decide_eq_false_iff_not]
  omega

/-! ## One-step fuel unfolding lemmas for the parser -/

theorem parseVal_step (f : Nat) (cs : List Char) (h : 1 ≤ f) :
    parseVal f cs = parseValHead (f - 1) (skipWs cs) := by
  cases f with
  | zero => omega
  | succ g => rfl

theorem parseValHead_cons (f : Nat) (c : Char) (rest : List Char) (h : 1 ≤ f) :
    parseValHead f (c :: rest) =
      (if c = quCh then (parseStrBody rest).map (fun p => (Json.str (String.mk p.1), p.2))
      else if c = lcuCh then parseObjBody (f - 1) (skipWs rest)
      else if c = '[' then parseArrBody (f - 1) (skipWs rest)
      else if c = 't' then (expectChars ['r', 'u', 'e'] rest).map (fun r => (Json.bool true, r))
      else if c = 'f' then
        (expectChars ['a', 'l', 's', 'e'] rest).map (fun r => (Json.bool false, r))
      else if c = 'n' then (expectChars ['u', 'l', 'l'] rest).map (fun r => (Json.null, r))
      else (parseNumTok (c :: rest)).map (fun p => (Json.num p.1, p.2))) := by
  cases f with
  | zero => omega
  | succ g => rfl

theorem parseObjBody_cons (f : Nat) (c : Char) (rest : List Char) (h : 1 ≤ f) :
    parseObjBody f (c :: rest) =
      (if c = rcuCh then some (Json.obj [], rest) else parseFields (f - 1) [] (c :: rest)) := by
  cases f with
  | zero => omega
  | succ g => rfl

theorem parseArrBody_cons (f : Nat) (c : Char) (rest : List Char) (h : 1 ≤ f) :
    parseArrBody f (c :: rest) =
      (if c = ']' then some (Json.arr [], rest)
      else (parseItems (f - 1) (c :: rest)).map (fun p => (Json.arr p.1, p.2))) := by
  cases f with
  | zero => omega
  | succ g => rfl

theorem parseItems_step (f : Nat) (cs : List Char) (h : 1 ≤ f) :
    parseItems f cs =
      (parseVal (f - 1) cs).bind (fun p => parseItemsSep (f - 1) p.1 (skipWs p.2)) := by
  cases f with
  | zero => omega
  | succ g => rfl

theorem parseItemsSep_cons (f : Nat) (v : Json) (c : Char) (r2 : List Char) (h : 1 ≤ f) :
    parseItemsSep f v (c :: r2) =
      (if c = ',' then (parseItems (f - 1) r2).map (fun q => (v :: q.1, q.2))
      else if c = ']' then some ([v], r2)
      else none) := by
  cases f with
  | zero => omega
  | succ g => rfl

theorem parseFields_step (f : Nat) (acc : List (String × Json)) (cs : List Char) (h : 1 ≤ f) :
    parseFields f acc cs = parseFieldsKey (f - 1) acc (skipWs cs) := by
  cases f with
  | zero => omega
  | succ g => rfl

theorem parseFieldsKey_cons (f : Nat) (acc : List (String × Json)) (c : Char)
    (rest : List Char) (h : 1 ≤ f) :
    parseFieldsKey f acc (c :: rest) =
      (if c = quCh then
        (parseStrBody rest).bind
          (fun p => parseFieldsColon (f - 1) acc (String.mk p.1) (skipWs p.2))
      else none) := by
  cases f with
  | zero => omega
  | succ g => rfl

theorem parseFieldsColon_cons (f : Nat) (acc : List (String × Json)) (k : String) (c : Char)
    (r2 : List Char) (h : 1 ≤ f) :
    parseFieldsColon f acc k (c :: r2) =
      (if c = ':' then
        (parseVal (f - 1) r2).bind (fun p => parseFieldsSep (f - 1) (setKV acc k p.1) (skipWs p.2))
      else none) := by
  cases f with
  | zero => omega
  | succ g => rfl

theorem parseFieldsSep_cons (f : Nat) (acc2 : List (String × Json)) (c : Char)
    (r4 : List Char) (h : 1 ≤ f) :
    parseFieldsSep f acc2 (c :: r4) =
      (if c = ',' then parseFields (f - 1) acc2 r4
      else if c = rcuCh then some (Json.obj acc2, r4)
      else none) := by
  cases f with
  | zero => omega
  | succ g => rfl

/-! ## Fuel requirements for parsing a printed value -/

mutual

def needH : Json → Nat
  | .arr [] => 2
  | .arr (x :: xs) => 2 + needItems (x :: xs)
  | .obj [] => 2
  | .obj (kv :: fs) => 2 + needFields (kv :: fs)
  | _ => 1

def needItems : List Json → Nat
  | [] => 1
  | x :: xs => 1 + max (needH x + 1) (1 + needItemsTail xs)

def needItemsTail : List Json → Nat
  | [] => 0
  | x :: xs => needItems (x :: xs)

def needFields : List (String × Json) → Nat
  | [] => 1
  | (_, v) :: fs => 3 + max (needH v + 1) (1 + needFieldsTail fs)

def needFieldsTail : List (String × Json) → Nat
  | [] => 0
  | kv :: fs => needFields (kv :: fs)

end

theorem printJson_ne_nil (j : Json) : printJson j ≠ [] := by
  obtain ⟨c, t, he, -⟩ := printJson_head j
  rw [he]
  simp

theorem printJson_len_pos (j : Json) : 1 ≤ (printJson j).length := by
  cases hx : printJson j with
  | nil => exact absurd hx (printJson_ne_nil j)
  | cons c t => simp

mutual

theorem needH_le : ∀ (j : Json), needH j ≤ 4 * (printJson j).length
  | .null => by simp [needH, printJson]
  | .bool b => by cases b <;> simp [needH, printJson]
  | .num i => by
    have := printJson_len_pos (Json.num i)
    simp only [needH]
    omega
  | .str s => by
    have := printJson_len_pos (Json.str s)
    simp only [needH]
    omega
  | .arr [] => by simp [needH, printJson, printItems]
  | .arr (x :: xs) => by
    have h1 := needItems_le x xs
    rw [show needH (Json.arr (x :: xs)) = 2 + needItems (x :: xs) from by rw [needH]]
    rw [show printJson (Json.arr (x :: xs)) = '[' :: printItems (x :: xs) ++ [']'] from by
      rw [printJson]]
    simp only [List.length_cons, List.length_append, List.length_singleton]
    omega
  | .obj ((k, v) :: fs) => by
    have h1 := needFields_le k v fs
    rw [show needH (Json.obj ((k, v) :: fs)) = 2 + needFields ((k, v) :: fs) from by
      rw [needH]]
    rw [show printJson (Json.obj ((k, v) :: fs))
        = lcuCh :: printFields ((k, v) :: fs) ++ [rcuCh] from by rw [printJson]]
    simp only [List.length_cons, List.length_append, List.length_singleton]
    omega
  | .obj [] => by simp [needH, printJson, printFields]
termination_by j => sizeOf j

theorem needItems_le : ∀ (x : Json) (xs : List Json),
    needItems (x :: xs) ≤ 4 * (printItems (x :: xs)).length + 2
  | x, [] => by
    have h1 := needH_le x
    have h2 := printJson_len_pos x
    rw [show needItems [x] = 1 + max (needH x + 1) (1 + needItemsTail []) from by
      rw [needItems]]
    rw [show needItemsTail ([] : List Json) = 0 from by rw [needItemsTail]]
    rw [show printItems [x] = printJson x from by rw [printItems]]
    omega
  | x, y :: ys => by
    have h1 := needH_le x
    have h2 := needItems_le y ys
    rw [show needItems (x :: y :: ys) = 1 + max (needH x + 1) (1 + needItemsTail (y :: ys))
      from by rw [needItems]]
    rw [show needItemsTail (y :: ys) = needItems (y :: ys) from by rw [needItemsTail]]
    rw [show printItems (x :: y :: ys) = printJson x ++ ',' :: printItems (y :: ys) from by
      rw [printItems]]
    simp only [List.length_append, List.length_cons]
    omega
termination_by x xs => 1 + sizeOf x + sizeOf xs

theorem needFields_le : ∀ (k : String) (v : Json) (fs : List (String × Json)),
    needFields ((k, v) :: fs) ≤ 4 * (printFields ((k, v) :: fs)).length
  | k, v, [] => by
    have h1 := needH_le v
    have h2 := printJson_len_pos v
    have h3 : 2 ≤ (printStr k.data).length := by
      simp only [printStr, List.length_cons, List.length_append, List.length_singleton]
      omega
    rw [show needFields [(k, v)] = 3 + max (needH v + 1) (1 + needFieldsTail []) from by
      rw [needFields]]
    rw [show needFieldsTail ([] : List (String × Json)) = 0 from by rw [needFieldsTail]]
    rw [show printFields [(k, v)] = printStr k.data ++ ':' :: printJson v from by
      rw [printFields]]
    simp only [List.length_append, List.length_cons]
    omega
  | k, v, (k2, v2) :: fs2 => by
    have h1 := needH_le v
    have h2 := needFields_le k2 v2 fs2
    have h3 : 2 ≤ (printStr k.data).length := by
      simp only [printStr, List.length_cons, List.length_append, List.length_singleton]
      omega
    rw [show needFields ((k, v) :: (k2, v2) :: fs2)
        = 3 + max (needH v + 1) (1 + needFieldsTail ((k2, v2) :: fs2)) from by rw [needFields]]
    rw [show needFieldsTail ((k2, v2) :: fs2) = needFields ((k2, v2) :: fs2) from by
      rw [needFieldsTail]]
    rw [show printFields ((k, v) :: (k2, v2) :: fs2)
        = printStr k.data ++ ':' :: printJson v ++ ',' :: printFields ((k2, v2) :: fs2) from by
      rw [printFields]]
    simp only [List.length_append, List.length_cons]
    omega
termination_by _ v fs => 1 + sizeOf v + sizeOf fs

end

theorem needItems_cons (x : Json) (xs : List Json) :
    needItems (x :: xs) = 1 + max (needH x + 1) (1 + needItemsTail xs) := by
  rw [needItems]

theorem needItemsTail_nil : needItemsTail [] = 0 := by rw [needItemsTail]

theorem needItemsTail_cons (y : Json) (ys : List Json) :
    needItemsTail (y :: ys) = needItems (y :: ys) := by rw [needItemsTail]

theorem needFields_cons (k : String) (v : Json) (fs : List (String × Json)) :
    needFields ((k, v) :: fs) = 3 + max (needH v + 1) (1 + needFieldsTail fs) := by
  rw [needFields]

theorem needFieldsTail_nil : needFieldsTail [] = 0 := by rw [needFieldsTail]

theorem needFieldsTail_cons (kv : String × Json) (fs : List (String × Json)) :
    needFieldsTail (kv :: fs) = needFields (kv :: fs) := by rw [needFieldsTail]

theorem skipWs_print (j : Json) (r : List Char) :
    skipWs (printJson j ++ r) = printJson j ++ r := by
  obtain ⟨c, t, he, -⟩ := printJson_head j
  rw [he, List.cons_append, skipWs_cons _ (printJson_head_not_ws he), ← List.cons_append, ← he]

theorem setKV_append (acc : List (String × Json)) (k : String) (v : Json)
    (h : ∀ q ∈ acc, q.1 ≠ k) : setKV acc k v = acc ++ [(k, v)] := by
  induction acc with
  | nil => rfl
  | cons q acc ih =>
    obtain ⟨k1, v1⟩ := q
    have h1 : k1 ≠ k := h (k1, v1) (by simp)
    simp only [setKV, if_neg h1, List.cons_append, List.cons.injEq, true_and]
    exact ih (fun q hq => h q (by simp [hq]))

theorem intToChars_head (i : Int) :
    ∃ c t, intToChars i = c :: t ∧ (c.toNat = 45 ∨ (48 ≤ c.toNat ∧ c.toNat ≤ 57)) := by
  unfold intToChars
  split_ifs with hneg
  · exact ⟨minusCh, _, rfl, Or.inl (by decide)⟩
  · rcases hx : natToChars i.natAbs with _ | ⟨c, t⟩
    · exact absurd hx (natToChars_ne_nil i.natAbs)
    · have hcd : isDigitChar c = true := natToChars_digits i.natAbs c (by rw [hx]; simp)
      simp only [isDigitChar, Bool.and_eq_true, decide_eq_true_eq] at hcd
      exact ⟨c, t, rfl, Or.inr hcd⟩

/-! ## The print-then-parse roundtrip -/

mutual

theorem rtHead : ∀ (j : Json) (f : Nat) (rest : List Char), wfJson j = true →
    needH j ≤ f → sepHead rest = true →
    parseValHead f (printJson j ++ rest) = some (j, rest)
  | .null, f, rest => fun _ hf _ => by
    have hn : needH Json.null = 1 := by rw [needH] <;> simp
    rw [show printJson Json.null ++ rest = 'n' :: (['u', 'l', 'l'] ++ rest) from by
      rw [printJson]; rfl]
    rw [parseValHead_cons f _ _ (by omega)]
    rw [if_neg (by decide), if_neg (by decide), if_neg (by decide), if_neg (by decide),
      if_neg (by decide), if_pos rfl, expectChars_self]
    rfl
  | .bool true, f, rest => fun _ hf _ => by
    have hn : needH (Json.bool true) = 1 := by rw [needH] <;> simp
    rw [show printJson (Json.bool true) ++ rest = 't' :: (['r', 'u', 'e'] ++ rest) from by
      rw [printJson]; rfl]
    rw [parseValHead_cons f _ _ (by omega)]
    rw [if_neg (by decide), if_neg (by decide), if_neg (by decide), if_pos rfl,
      expectChars_self]
    rfl
  | .bool false, f, rest => fun _ hf _ => by
    have hn : needH (Json.bool false) = 1 := by rw [needH] <;> simp
    rw [show printJson (Json.bool false) ++ rest = 'f' :: (['a', 'l', 's', 'e'] ++ rest) from by
      rw [printJson]; rfl]
    rw [parseValHead_cons f _ _ (by omega)]
    rw [if_neg (by decide), if_neg (by decide), if_neg (by decide), if_neg (by decide),
      if_pos rfl, expectChars_self]
    rfl
  | .num i, f, rest => fun _ hf hsep => by
    have hn : needH (Json.num i) = 1 := by rw [needH] <;> simp
    obtain ⟨c, t, hx, hfacts⟩ := intToChars_head i
    have h34 : quCh.toNat = 34 := by decide
    have h123 : lcuCh.toNat = 123 := by decide
    have h91 : ('[').toNat = 91 := by decide
    have h116 : ('t').toNat = 116 := by decide
    have h102 : ('f').toNat = 102 := by decide
    have h110 : ('n').toNat = 110 := by decide
    rw [show printJson (Json.num i) = intToChars i from by rw [printJson]]
    rw [hx, List.cons_append, parseValHead_cons f _ _ (by omega)]
    rw [if_neg (char_ne_of_toNat (by omega)), if_neg (char_ne_of_toNat (by omega)),
      if_neg (char_ne_of_toNat (by omega)), if_neg (char_ne_of_toNat (by omega)),
      if_neg (char_ne_of_toNat (by omega)), if_neg (char_ne_of_toNat (by omega))]
    rw [← List.cons_append, ← hx, parseNumTok_print i rest hsep]
    rfl
  | .str s, f, rest => fun _ hf _ => by
    have hn : needH (Json.str s) = 1 := by rw [needH] <;> simp
    rw [show printJson (Json.str s) ++ rest =
      quCh :: ((s.data.map escChar).flatten ++ (quCh :: rest)) from by
        simp [printJson, printStr]]
    rw [parseValHead_cons f _ _ (by omega), if_pos rfl, parseStrBody_print]
    simp [string_mk_data]
  | .arr [], f, rest => fun _ hf _ => by
    have hn : needH (Json.arr []) = 2 := by rw [needH]
    rw [show printJson (Json.arr []) ++ rest = '[' :: (']' :: rest) from by
      rw [printJson, printItems]; rfl]
    rw [parseValHead_cons f _ _ (by omega), if_neg (by decide), if_neg (by decide),
      if_pos rfl]
    rw [skipWs_cons _ (by decide), parseArrBody_cons (f - 1) _ _ (by omega), if_pos rfl]
  | .arr (x :: xs), f, rest => fun hwf hf _ => by
    have hn : needH (Json.arr (x :: xs)) = 2 + needItems (x :: xs) := by rw [needH]
    rw [hn] at hf
    simp only [wfJson, wfList, Bool.and_eq_true] at hwf
    rw [show printJson (Json.arr (x :: xs)) ++ rest =
      '[' :: (printItems (x :: xs) ++ (']' :: rest)) from by simp [printJson]]
    rw [parseValHead_cons f _ _ (by omega), if_neg (by decide), if_neg (by decide),
      if_pos rfl]
    obtain ⟨c, t, hx, hfacts⟩ := printJson_head x
    have hu : ∃ u, printItems (x :: xs) ++ (']' :: rest) = c :: u := by
      cases xs with
      | nil =>
        exact ⟨t ++ (']' :: rest), by
          rw [show printItems [x] = printJson x from by rw [printItems], hx]; rfl⟩
      | cons y ys =>
        exact ⟨t ++ (',' :: printItems (y :: ys)) ++ (']' :: rest), by
          rw [show printItems (x :: y :: ys) = printJson x ++ ',' :: printItems (y :: ys) from by
            rw [printItems], hx]; simp⟩
    obtain ⟨u, hu⟩ := hu
    have h93 : (']').toNat = 93 := by decide
    rw [hu, skipWs_cons _ (printJson_head_not_ws hx),
      parseArrBody_cons (f - 1) _ _ (by omega), if_neg (char_ne_of_toNat (by omega))]
    rw [← hu, rtItems x xs (f - 1 - 1) rest hwf.1 hwf.2 (by omega)]
    rfl
  | .obj [], f, rest => fun _ hf _ => by
    have hn : needH (Json.obj []) = 2 := by rw [needH]
    rw [show printJson (Json.obj []) ++ rest = lcuCh :: (rcuCh :: rest) from by
      rw [printJson, printFields]; rfl]
    rw [parseValHead_cons f _ _ (by omega), if_neg (by decide), if_pos rfl]
    rw [skipWs_cons _ (by decide), parseObjBody_cons (f - 1) _ _ (by omega), if_pos rfl]
  | .obj ((k, v) :: fs), f, rest => fun hwf hf _ => by
    have hn : needH (Json.obj ((k, v) :: fs)) = 2 + needFields ((k, v) :: fs) := by rw [needH]
    rw [hn] at hf
    simp only [wfJson, wfFields, Bool.and_eq_true] at hwf
    rw [show printJson (Json.obj ((k, v) :: fs)) ++ rest =
      lcuCh :: (printFields ((k, v) :: fs) ++ (rcuCh :: rest)) from by simp [printJson]]
    rw [parseValHead_cons f _ _ (by omega), if_neg (by decide), if_pos rfl]
    have hpf : ∃ w, printFields ((k, v) :: fs) = quCh :: w := by
      cases fs with
      | nil =>
        exact ⟨(k.data.map escChar).flatten ++ [quCh] ++ ':' :: printJson v, by
          simp [printFields, printStr]⟩
      | cons m fs2 =>
        exact ⟨(k.data.map escChar).flatten ++ [quCh] ++ ':' :: printJson v ++
          ',' :: printFields (m :: fs2), by simp [printFields, printStr]⟩
    obtain ⟨w, hpf⟩ := hpf
    rw [hpf, List.cons_append, skipWs_cons _ (by decide),
      parseObjBody_cons (f - 1) _ _ (by omega), if_neg (by decide), ← List.cons_append, ← hpf]
    rw [rtFields k v fs (f - 1 - 1) rest [] hwf.2.1 hwf.2.2 hwf.1
      (fun q hq => by simp at hq) (by omega)]
    simp
  termination_by j _ _ => sizeOf j

theorem rtItems : ∀ (x : Json) (xs : List Json) (f : Nat) (rest : List Char),
    wfJson x = true → wfList xs = true → needItems (x :: xs) ≤ f →
    parseItems f (printItems (x :: xs) ++ ']' :: rest) = some (x :: xs, rest)
  | x, xs, f, rest => fun hwx hwxs hf => by
    rw [needItems_cons] at hf
    rw [parseItems_step f _ (by omega)]
    cases xs with
    | nil =>
      rw [needItemsTail_nil] at hf
      rw [show printItems [x] = printJson x from by rw [printItems]]
      rw [parseVal_step (f - 1) _ (by omega), skipWs_print,
        rtHead x (f - 1 - 1) (']' :: rest) hwx (by omega) rfl]
      simp only [Option.some_bind]
      rw [skipWs_cons _ (by decide), parseItemsSep_cons (f - 1) _ _ _ (by omega),
        if_neg (by decide), if_pos rfl]
    | cons y ys =>
      rw [needItemsTail_cons] at hf
      rw [show printItems (x :: y :: ys) ++ (']' :: rest) =
        printJson x ++ (',' :: (printItems (y :: ys) ++ (']' :: rest))) from by
          simp [printItems]]
      rw [parseVal_step (f - 1) _ (by omega), skipWs_print,
        rtHead x (f - 1 - 1) (',' :: (printItems (y :: ys) ++ (']' :: rest))) hwx (by omega)
          (by rfl)]
      simp only [Option.some_bind]
      rw [skipWs_cons _ (by decide), parseItemsSep_cons (f - 1) _ _ _ (by omega), if_pos rfl]
      simp only [wfList, Bool.and_eq_true] at hwxs
      rw [rtItems y ys (f - 1 - 1) rest hwxs.1 hwxs.2 (by omega)]
      rfl
  termination_by x xs _ _ => 1 + sizeOf x + sizeOf xs

theorem rtFields : ∀ (k : String) (v : Json) (fs : List (String × Json)) (f : Nat)
    (rest : List Char) (acc : List (String × Json)),
    wfJson v = true → wfFields fs = true → keysDistinct ((k, v) :: fs) = true →
    (∀ q ∈ acc, ∀ p ∈ (k, v) :: fs, q.1 ≠ p.1) →
    needFields ((k, v) :: fs) ≤ f →
    parseFields f acc (printFields ((k, v) :: fs) ++ rcuCh :: rest) =
      some (Json.obj (acc ++ (k, v) :: fs), rest)
  | k, v, fs, f, rest, acc => fun hwv hwfs hd hfresh hf => by
    rw [needFields_cons] at hf
    rw [parseFields_step f _ _ (by omega)]
    cases fs with
    | nil =>
      rw [needFieldsTail_nil] at hf
      rw [show printFields [(k, v)] ++ (rcuCh :: rest) =
        quCh :: ((k.data.map escChar).flatten ++
          (quCh :: (':' :: (printJson v ++ (rcuCh :: rest))))) from by
        simp [printFields, printStr]]
      rw [skipWs_cons _ (by decide), parseFieldsKey_cons (f - 1) _ _ _ (by omega), if_pos rfl,
        parseStrBody_print]
      simp only [Option.some_bind, string_mk_data]
      rw [skipWs_cons _ (by decide), parseFieldsColon_cons (f - 1 - 1) _ _ _ _ (by omega),
        if_pos rfl]
      rw [parseVal_step (f - 1 - 1 - 1) _ (by omega), skipWs_print,
        rtHead v (f - 1 - 1 - 1 - 1) (rcuCh :: rest) hwv (by omega) (by rfl)]
      simp only [Option.some_bind]
      rw [skipWs_cons _ (by decide), parseFieldsSep_cons (f - 1 - 1 - 1) _ _ _ (by omega),
        if_neg (by decide), if_pos rfl]
      rw [setKV_append acc k v (fun q hq => hfresh q hq (k, v) (by simp))]
    | cons m fs2 =>
      obtain ⟨k2, v2⟩ := m
      rw [needFieldsTail_cons] at hf
      simp only [wfFields, Bool.and_eq_true] at hwfs
      simp only [keysDistinct, Bool.and_eq_true, List.all_eq_true, decide_eq_true_eq] at hd
      rw [show printFields ((k, v) :: (k2, v2) :: fs2) ++ (rcuCh :: rest) =
        quCh :: ((k.data.map escChar).flatten ++ (quCh :: (':' :: (printJson v ++
          (',' :: (printFields ((k2, v2) :: fs2) ++ (rcuCh :: rest))))))) from by
        simp [printFields, printStr]]
      rw [skipWs_cons _ (by decide), parseFieldsKey_cons (f - 1) _ _ _ (by omega), if_pos rfl,
        parseStrBody_print]
      simp only [Option.some_bind, string_mk_data]
      rw [skipWs_cons _ (by decide), parseFieldsColon_cons (f - 1 - 1) _ _ _ _ (by omega),
        if_pos rfl]
      rw [parseVal_step (f - 1 - 1 - 1) _ (by omega), skipWs_print,
        rtHead v (f - 1 - 1 - 1 - 1)
          (',' :: (printFields ((k2, v2) :: fs2) ++ (rcuCh :: rest))) hwv (by omega) (by rfl)]
      simp only [Option.some_bind]
      rw [skipWs_cons _ (by decide), parseFieldsSep_cons (f - 1 - 1 - 1) _ _ _ (by omega),
        if_pos rfl]
      rw [setKV_append acc k v (fun q hq => hfresh q hq (k, v) (by simp))]
      have hkd2 : keysDistinct ((k2, v2) :: fs2) = true := by
        simp only [keysDistinct, Bool.and_eq_true, List.all_eq_true, decide_eq_true_eq]
        exact ⟨hd.2.1, hd.2.2⟩
      have hfresh2 : ∀ q ∈ acc ++ [(k, v)], ∀ p ∈ (k2, v2) :: fs2, q.1 ≠ p.1 := by
        intro q hq p hp
        rcases List.mem_append.mp hq with hq1 | hq2
        · exact hfresh q hq1 p (List.mem_cons_of_mem _ hp)
        · have hqe : q = (k, v) := by simpa using hq2
          subst hqe
          exact fun he => hd.1 p hp he.symm
      rw [rtFields k2 v2 fs2 (f - 1 - 1 - 1 - 1) rest (acc ++ [(k, v)]) hwfs.1 hwfs.2 hkd2
        hfresh2 (by omega)]
      simp
  termination_by _ v fs _ _ _ => 1 + sizeOf v + sizeOf fs

end

theorem rtVal (j : Json) (f : Nat) (rest : List Char) (hwf : wfJson j = true)
    (hf : needH j + 1 ≤ f) (hsep : sepHead rest = true) :
    parseVal f (printJson j ++ rest) = some (j, rest) := by
  rw [parseVal_step f _ (by omega), skipWs_print, rtHead j (f - 1) rest hwf (by omega) hsep]

theorem jsonParse_print (j : Json) (hwf : wfJson j = true) :
    jsonParse (jsonStringify j) = some j := by
  unfold jsonParse jsonStringify
  rw [show (String.mk (printJson j)).data = printJson j from rfl]
  have h1 : needH j + 1 ≤ 4 * (printJson j).length + 4 := by
    have := needH_le j
    omega
  have h2 : parseVal (4 * (printJson j).length + 4) (printJson j ++ []) = some (j, []) :=
    rtVal j _ [] hwf h1 rfl
  rw [List.append_nil] at h2
  rw [h2]
  rfl

/-! ## Percent / form-urlencoding codec (the `URLSearchParams` and
`encodeURIComponent` machinery used by the URL-based handlers). The
serializers are modelled exactly; the form decoder is the byte-level decode
followed by lossy UTF-8 decoding (undecodable bytes become U+FFFD). -/

def asciiLower (c : Char) : Char :=
  if 65 ≤ c.toNat ∧ c.toNat ≤ 90 then Char.ofNat (c.toNat + 32) else c

def isAlnumCh (c : Char) : Bool :=
  (48 ≤ c.toNat && c.toNat ≤ 57) || (65 ≤ c.toNat && c.toNat ≤ 90) ||
    (97 ≤ c.toNat && c.toNat ≤ 122)

/-- Characters serialized verbatim by `application/x-www-form-urlencoded`:
alphanumerics and asterisk, minus, period, underscore. -/
def isFormSafe (c : Char) : Bool :=
  isAlnumCh c || c.toNat = 42 || c.toNat = 45 || c.toNat = 46 || c.toNat = 95

/-- Characters kept verbatim by `encodeURIComponent`. -/
def isUriSafe (c : Char) : Bool :=
  isAlnumCh c || c.toNat = 45 || c.toNat = 95 || c.toNat = 46 || c.toNat = 33 ||
    c.toNat = 126 || c.toNat = 42 || c.toNat = 39 || c.toNat = 40 || c.toNat = 41

def hexUp (n : Nat) : Char :=
  if n < 10 then Char.ofNat (48 + n) else Char.ofNat (55 + n)

def pctByte (b : Nat) : List Char := ['%', hexUp (b / 16), hexUp (b % 16)]

def formEncodeChar (c : Char) : List Char :=
  if isFormSafe c then [c]
  else if c = ' ' then ['+']
  else ((utf8EncodeChar c).map pctByte).flatten

def formEncode (s : String) : String := String.mk ((s.data.map formEncodeChar).flatten)

def uriEncodeChar (c : Char) : List Char :=
  if isUriSafe c then [c] else ((utf8EncodeChar c).map pctByte).flatten

/-- `encodeURIComponent`. -/
def encodeURIComponent (s : String) : String :=
  String.mk ((s.data.map uriEncodeChar).flatten)

/-- Two leading hex digits, as a byte. -/
def hex2 : List Char → Option (Nat × List Char)
  | c1 :: c2 :: r2 =>
    (hexVal c1).bind (fun v1 => (hexVal c2).map (fun v2 => (v1 * 16 + v2, r2)))
  | _ => none

/-- Byte phase of form-urldecoding: a plus is a space, a percent sign with
two hex digits is a byte, anything else contributes its own UTF-8 bytes. -/
def formDecodeBytesF : Nat → List Char → List Nat
  | 0, _ => []
  | _ + 1, [] => []
  | f + 1, c :: r =>
    if c = '+' then 32 :: formDecodeBytesF f r
    else if c = '%' then
      match hex2 r with
      | some br => br.1 :: formDecodeBytesF f br.2
      | none => utf8EncodeChar '%' ++ formDecodeBytesF f r
    else utf8EncodeChar c ++ formDecodeBytesF f r

def formDecodeBytes (l : List Char) : List Nat := formDecodeBytesF l.length l

/-- Lossy UTF-8 decoding: an undecodable lead byte becomes U+FFFD. -/
def utf8LossyAux : Nat → List Nat → List Char
  | 0, _ => []
  | _ + 1, [] => []
  | f + 1, b :: bs =>
    match utf8DecodeOne b bs with
    | some (c, rest) => c :: utf8LossyAux f rest
    | none => Char.ofNat 65533 :: utf8LossyAux f bs

def utf8DecodeLossy (l : List Nat) : List Char := utf8LossyAux l.length l

def formDecode (s : String) : String :=
  String.mk (utf8DecodeLossy (formDecodeBytes s.data))

/-! ### Query-pair lists (`URLSearchParams`) -/

def splitOnCh (sep : Char) : List Char → List (List Char)
  | [] => [[]]
  | c :: cs =>
    if c = sep then [] :: splitOnCh sep cs
    else
      match splitOnCh sep cs with
      | [] => [[c]]
      | p :: ps => (c :: p) :: ps

def splitOnceCh : List Char → Char → Option (List Char × List Char)
  | [], _ => none
  | c :: cs, sep =>
    if c = sep then some ([], cs)
    else (splitOnceCh cs sep).map (fun p => (c :: p.1, p.2))

/-- Strip one leading question mark (the `URLSearchParams` constructor
does this on string input). -/
def stripQm (l : List Char) : List Char :=
  match l with
  | [] => []
  | c :: r => if c = '?' then r else c :: r

/-- `new URLSearchParams(string)`: strip one leading question mark, split on
ampersands, drop empty pieces, split each piece at its first equals sign,
form-urldecode both sides. -/
def parseQuery (s : String) : List (String × String) :=
  ((splitOnCh '&' (stripQm s.data)).filter (fun p => p ≠ [])).map (fun p =>
    match splitOnceCh p '=' with
    | some kv => (formDecode (String.mk kv.1), formDecode (String.mk kv.2))
    | none => (formDecode (String.mk p), ""))

/-- Ampersand-join of the serialized pairs. -/
def joinAmp : List (List Char) → List Char
  | [] => []
  | [p] => p
  | p :: q :: rest => p ++ '&' :: joinAmp (q :: rest)

/-- `URLSearchParams.toString`. -/
def serializeQuery (ps : List (String × String)) : String :=
  String.mk (joinAmp (ps.map (fun kv => (formEncode kv.1).data ++ '=' :: (formEncode kv.2).data)))

/-- `params.get`: value of the first pair with the given key, if any. -/
def getParam : List (String × String) → String → Option String
  | [], _ => none
  | (k1, v1) :: t, k => if k1 = k then some v1 else getParam t k

def hasParam (ps : List (String × String)) (k : String) : Bool := (getParam ps k).isSome

def removeParam : List (String × String) → String → List (String × String)
  | [], _ => []
  | (k1, v1) :: t, k => if k1 = k then removeParam t k else (k1, v1) :: removeParam t k

/-- `params.set`: overwrite the first pair with the key in place, delete the
other pairs with that key, or append when absent. -/
def setParam : List (String × String) → String → String → List (String × String)
  | [], k, v => [(k, v)]
  | (k1, v1) :: t, k, v =>
    if k1 = k then (k, v) :: removeParam t k else (k1, v1) :: setParam t k v

/-! ### Codec roundtrip -/

theorem formSafe_facts (c : Char) (h : isFormSafe c = true) :
    c.toNat < 128 ∧ c.toNat ≠ 43 ∧ c.toNat ≠ 37 ∧ c.toNat ≠ 38 ∧ c.toNat ≠ 61 ∧
      c.toNat ≠ 35 := by
  simp only [isFormSafe, isAlnumCh, Bool.or_eq_true, decide_eq_true_eq,
    Bool.and_eq_true] at h
  omega

theorem uriSafe_facts (c : Char) (h : isUriSafe c = true) :
    c.toNat < 128 ∧ c.toNat ≠ 35 ∧ c.toNat ≠ 38 ∧ c.toNat ≠ 63 ∧ c.toNat ≠ 47 := by
  simp only [isUriSafe, isAlnumCh, Bool.or_eq_true, decide_eq_true_eq,
    Bool.and_eq_true] at h
  omega

theorem hexVal_hexUp (x : Nat) (h : x < 16) : hexVal (hexUp x) = some x := by
  unfold hexUp
  split_ifs with h1
  · have ht : (Char.ofNat (48 + x)).toNat = 48 + x := char_toNat_ofNat_small _ (by omega)
    unfold hexVal
    rw [ht, if_pos (by omega)]
    congr 1
    omega
  · have ht : (Char.ofNat (55 + x)).toNat = 55 + x := char_toNat_ofNat_small _ (by omega)
    unfold hexVal
    rw [ht, if_neg (by omega), if_pos (by omega)]
    congr 1
    omega

theorem formDecodeBytesF_pcts (bs : List Nat) :
    ∀ f r, r.length + 3 * bs.length ≤ f → (∀ b ∈ bs, b < 256) →
    formDecodeBytesF f ((bs.map pctByte).flatten ++ r) = bs ++ formDecodeBytesF (f - bs.length) r := by
  induction bs with
  | nil =>
    intro f r hf hb
    simp
  | cons b bs ih =>
    intro f r hf hb
    simp only [List.length_cons] at hf ⊢
    cases f with
    | zero => omega
    | succ g =>
      rw [show ((b :: bs).map pctByte).flatten ++ r
          = '%' :: hexUp (b / 16) :: hexUp (b % 16) :: ((bs.map pctByte).flatten ++ r) from by
        simp [pctByte]]
      have hb0 : b < 256 := hb b (by simp)
      rw [formDecodeBytesF, if_neg (by decide), if_pos rfl]
      rw [show hex2 (hexUp (b / 16) :: hexUp (b % 16) :: ((bs.map pctByte).flatten ++ r))
          = some (b, (bs.map pctByte).flatten ++ r) from by
        rw [hex2, hexVal_hexUp _ (by omega), hexVal_hexUp _ (by omega)]
        simp only [Option.some_bind, Option.map_some']
        rw [show b / 16 * 16 + b % 16 = b from by omega]]
      simp only
      rw [ih g r (by omega) (fun x hx => hb x (by simp [hx]))]
      rw [show g + 1 - (bs.length + 1) = g - bs.length from by omega]
      rfl

theorem formDecodeBytesF_encode (s : List Char) :
    ∀ f, ((s.map formEncodeChar).flatten).length ≤ f →
    formDecodeBytesF f ((s.map formEncodeChar).flatten) = utf8Encode s := by
  induction s with
  | nil =>
    intro f hf
    cases f <;> rfl
  | cons c cs ih =>
    intro f hf
    rw [show ((c :: cs).map formEncodeChar).flatten
        = formEncodeChar c ++ (cs.map formEncodeChar).flatten from by simp]
    rw [show ((c :: cs).map formEncodeChar).flatten
        = formEncodeChar c ++ (cs.map formEncodeChar).flatten from by simp,
      List.length_append] at hf
    rw [show utf8Encode (c :: cs) = utf8EncodeChar c ++ utf8Encode cs from by simp [utf8Encode]]
    by_cases h1 : isFormSafe c = true
    · obtain ⟨hlt, hne43, hne37, -, -, -⟩ := formSafe_facts c h1
      rw [show formEncodeChar c = [c] from by unfold formEncodeChar; rw [if_pos h1]]
      rw [show formEncodeChar c = [c] from by unfold formEncodeChar; rw [if_pos h1]] at hf
      simp only [List.length_cons, List.length_nil, List.cons_append, List.nil_append] at hf ⊢
      cases f with
      | zero => omega
      | succ g =>
        rw [formDecodeBytesF,
          if_neg (char_ne_of_toNat (by rw [show Char.toNat '+' = 43 from by decide]; omega)),
          if_neg (char_ne_of_toNat (by rw [show Char.toNat '%' = 37 from by decide]; omega))]
        rw [ih g (by omega)]
    · by_cases h2 : c = ' '
      · subst h2
        rw [show formEncodeChar ' ' = ['+'] from by unfold formEncodeChar; rw [if_neg (by decide), if_pos rfl]]
        rw [show formEncodeChar ' ' = ['+'] from by unfold formEncodeChar; rw [if_neg (by decide), if_pos rfl]] at hf
        simp only [List.length_cons, List.length_nil, List.cons_append, List.nil_append] at hf ⊢
        cases f with
        | zero => omega
        | succ g =>
          rw [formDecodeBytesF, if_pos rfl, ih g (by omega)]
          rfl
      · have he : formEncodeChar c = ((utf8EncodeChar c).map pctByte).flatten := by
          unfold formEncodeChar
          rw [if_neg h1, if_neg h2]
        rw [he]
        rw [he, List.length_flatten] at hf
        have hlen : (((utf8EncodeChar c).map pctByte).map List.length).sum
            = 3 * (utf8EncodeChar c).length := by
          rw [List.map_map]
          rw [show List.length ∘ pctByte = fun _ => 3 from by funext b; rfl]
          simp [List.map_const, Nat.mul_comm]
        rw [List.map_map] at hf
        rw [formDecodeBytesF_pcts _ f _ (by
            rw [List.map_map] at hlen
            omega)
          (utf8EncodeChar_lt_256 c)]
        rw [ih (f - (utf8EncodeChar c).length) (by
          rw [List.map_map] at hlen
          omega)]

theorem formDecodeBytes_encode (s : List Char) :
    formDecodeBytes ((s.map formEncodeChar).flatten) = utf8Encode s :=
  formDecodeBytesF_encode s _ (Nat.le_refl _)

theorem utf8LossyAux_encode (cs : List Char) :
    ∀ f, cs.length ≤ f → utf8LossyAux f (utf8Encode cs) = cs := by
  induction cs with
  | nil =>
    intro f hf
    cases f <;> rfl
  | cons c cs ih =>
    intro f hf
    obtain ⟨b, t, hbt, hdec⟩ := utf8DecodeOne_encodeChar c (utf8Encode cs)
    rw [show utf8Encode (c :: cs) = utf8EncodeChar c ++ utf8Encode cs from by
      simp [utf8Encode]]
    rw [hbt, List.cons_append]
    simp only [List.length_cons] at hf
    cases f with
    | zero => omega
    | succ g =>
      rw [utf8LossyAux, hdec]
      simp only
      rw [ih g (by omega)]

theorem utf8DecodeLossy_encode (cs : List Char) : utf8DecodeLossy (utf8Encode cs) = cs := by
  have h1 : (utf8Encode cs).length ≥ cs.length := utf8Encode_length_ge cs
  exact utf8LossyAux_encode cs _ h1

theorem formDecode_formEncode (s : String) : formDecode (formEncode s) = s := by
  unfold formDecode formEncode
  rw [show (String.mk ((s.data.map formEncodeChar).flatten)).data
      = (s.data.map formEncodeChar).flatten from rfl]
  rw [formDecodeBytes_encode, utf8DecodeLossy_encode, string_mk_data]

theorem hexUp_toNat (x : Nat) (h : x < 16) :
    (hexUp x).toNat = (if x < 10 then 48 + x else 55 + x) := by
  unfold hexUp
  split_ifs with h1
  · exact char_toNat_ofNat_small _ (by omega)
  · exact char_toNat_ofNat_small _ (by omega)

/-- Characters of a form-urlencoded string avoid the URL delimiters. -/
theorem formEncodeChar_chars (c : Char) :
    ∀ x ∈ formEncodeChar c, x.toNat ≠ 38 ∧ x.toNat ≠ 61 ∧ x.toNat ≠ 35 ∧ x.toNat ≠ 63 := by
  unfold formEncodeChar
  split_ifs with h1 h2
  · intro x hx
    obtain ⟨-, -, -, h38, h61, h35⟩ := formSafe_facts c h1
    simp only [isFormSafe, isAlnumCh, Bool.or_eq_true, decide_eq_true_eq,
      Bool.and_eq_true] at h1
    simp only [List.mem_singleton] at hx
    subst hx
    omega
  · intro x hx
    simp only [List.mem_singleton] at hx
    subst hx
    decide
  · intro x hx
    simp only [List.mem_flatten, List.mem_map] at hx
    obtain ⟨l, ⟨b, hb, hl⟩, hxl⟩ := hx
    subst hl
    have hblt : b < 256 := utf8EncodeChar_lt_256 c b hb
    have h16a : b / 16 < 16 := by omega
    have h16b : b % 16 < 16 := by omega
    simp only [pctByte, List.mem_cons, List.mem_singleton] at hxl
    rcases hxl with h | h | h
    · subst h; decide
    · subst h
      rw [hexUp_toNat _ h16a]
      split_ifs <;> omega
    · rcases h with h | h
      · subst h
        rw [hexUp_toNat _ h16b]
        split_ifs <;> omega
      · simp at h

theorem formEncode_chars (s : String) :
    ∀ x ∈ (formEncode s).data, x.toNat ≠ 38 ∧ x.toNat ≠ 61 ∧ x.toNat ≠ 35 ∧ x.toNat ≠ 63 := by
  intro x hx
  unfold formEncode at hx
  rw [show (String.mk ((s.data.map formEncodeChar).flatten)).data
      = (s.data.map formEncodeChar).flatten from rfl] at hx
  simp only [List.mem_flatten, List.mem_map] at hx
  obtain ⟨l, ⟨c, hc, hl⟩, hxl⟩ := hx
  subst hl
  exact formEncodeChar_chars c x hxl

theorem splitOnCh_no_sep (sep : Char) (p : List Char) (h : ∀ c ∈ p, c ≠ sep) :
    splitOnCh sep p = [p] := by
  induction p with
  | nil => rfl
  | cons c cs ih =>
    rw [splitOnCh, if_neg (h c (by simp)), ih (fun x hx => h x (by simp [hx]))]

theorem splitOnCh_append (sep : Char) (p r : List Char) (h : ∀ c ∈ p, c ≠ sep) :
    splitOnCh sep (p ++ sep :: r) = p :: splitOnCh sep r := by
  induction p with
  | nil =>
    rw [List.nil_append, splitOnCh, if_pos rfl]
  | cons c cs ih =>
    rw [List.cons_append, splitOnCh, if_neg (h c (by simp)),
      ih (fun x hx => h x (by simp [hx]))]

theorem splitOnceCh_append (sep : Char) (p r : List Char) (h : ∀ c ∈ p, c ≠ sep) :
    splitOnceCh (p ++ sep :: r) sep = some (p, r) := by
  induction p with
  | nil =>
    rw [List.nil_append, splitOnceCh, if_pos rfl]
  | cons c cs ih =>
    rw [List.cons_append, splitOnceCh, if_neg (h c (by simp)),
      ih (fun x hx => h x (by simp [hx]))]
    rfl

theorem joinAmp_cons (p : List Char) (ls : List (List Char)) :
    ∃ u, joinAmp (p :: ls) = p ++ u := by
  cases ls with
  | nil => exact ⟨[], by rw [joinAmp]; simp⟩
  | cons q rest => exact ⟨'&' :: joinAmp (q :: rest), by rw [joinAmp]⟩

theorem splitOnCh_joinAmp (ls : List (List Char))
    (h : ∀ l ∈ ls, ∀ c ∈ l, c ≠ '&') (hne : ls ≠ []) :
    splitOnCh '&' (joinAmp ls) = ls := by
  induction ls with
  | nil => exact absurd rfl hne
  | cons p rest ih =>
    cases rest with
    | nil =>
      rw [joinAmp, splitOnCh_no_sep '&' p (h p (by simp))]
    | cons q rest2 =>
      rw [joinAmp, splitOnCh_append '&' p _ (h p (by simp)),
        ih (fun l hl => h l (by simp [hl])) (by simp)]

theorem formEncode_ne_amp (s : String) : ∀ x ∈ (formEncode s).data, x ≠ '&' := by
  intro x hx
  exact char_ne_of_toNat (by
    have := (formEncode_chars s x hx).1
    rw [show ('&').toNat = 38 from by decide]
    omega)

theorem formEncode_ne_eq (s : String) : ∀ x ∈ (formEncode s).data, x ≠ '=' := by
  intro x hx
  exact char_ne_of_toNat (by
    have := (formEncode_chars s x hx).2.1
    rw [show ('=').toNat = 61 from by decide]
    omega)

/-- Parsing a serialized pair list recovers it exactly. -/
theorem parseQuery_serializeQuery (ps : List (String × String)) :
    parseQuery (serializeQuery ps) = ps := by
  cases ps with
  | nil => rfl
  | cons kv0 rest0 =>
    unfold parseQuery serializeQuery
    rw [show (String.mk (joinAmp ((kv0 :: rest0).map
        (fun kv => (formEncode kv.1).data ++ '=' :: (formEncode kv.2).data)))).data
        = joinAmp ((kv0 :: rest0).map
          (fun kv => (formEncode kv.1).data ++ '=' :: (formEncode kv.2).data)) from rfl]
    have hamp : ∀ l ∈ (kv0 :: rest0).map
        (fun kv => (formEncode kv.1).data ++ '=' :: (formEncode kv.2).data),
        ∀ c ∈ l, c ≠ '&' := by
      intro l hl c hc
      simp only [List.mem_map] at hl
      obtain ⟨kv, hkv, hlv⟩ := hl
      subst hlv
      rcases List.mem_append.mp hc with h | h
      · exact formEncode_ne_amp _ c h
      · rcases List.mem_cons.mp h with h | h
        · subst h; decide
        · exact formEncode_ne_amp _ c h
    have hstrip : stripQm (joinAmp ((kv0 :: rest0).map
        (fun kv => (formEncode kv.1).data ++ '=' :: (formEncode kv.2).data)))
        = joinAmp ((kv0 :: rest0).map
          (fun kv => (formEncode kv.1).data ++ '=' :: (formEncode kv.2).data)) := by
      obtain ⟨u, hu⟩ := joinAmp_cons ((formEncode kv0.1).data ++ '=' :: (formEncode kv0.2).data)
        ((rest0).map (fun kv => (formEncode kv.1).data ++ '=' :: (formEncode kv.2).data))
      rw [List.map_cons, hu]
      rcases hk : (formEncode kv0.1).data with _ | ⟨c, t⟩
      · rw [List.nil_append, List.cons_append, stripQm]
        rw [if_neg (by decide)]
      · rw [List.cons_append, List.cons_append, stripQm]
        rw [if_neg (char_ne_of_toNat (by
          have := (formEncode_chars kv0.1 c (by rw [hk]; simp)).2.2.2
          rw [show ('?').toNat = 63 from by decide]
          omega))]
    rw [hstrip]
    rw [splitOnCh_joinAmp _ hamp (by simp)]
    rw [List.filter_eq_self.mpr (by
      intro p hp
      simp only [List.mem_map] at hp
      obtain ⟨kv, hkv, hlv⟩ := hp
      subst hlv
      simp)]
    rw [List.map_map]
    have hpt : ∀ kv : String × String,
        ((fun p =>
          match splitOnceCh p '=' with
          | some kv2 => (formDecode (String.mk kv2.1), formDecode (String.mk kv2.2))
          | none => (formDecode (String.mk p), "")) ∘
         (fun kv => (formEncode kv.1).data ++ '=' :: (formEncode kv.2).data)) kv = kv := by
      intro kv
      simp only [Function.comp_apply]
      rw [splitOnceCh_append '=' _ _ (formEncode_ne_eq kv.1)]
      simp only
      rw [show String.mk (formEncode kv.1).data = formEncode kv.1 from rfl,
        show String.mk (formEncode kv.2).data = formEncode kv.2 from rfl,
        formDecode_formEncode, formDecode_formEncode]
    rw [List.map_congr_left (fun a _ => hpt a)]
    simp

theorem getParam_setParam_self (ps : List (String × String)) (k v : String) :
    getParam (setParam ps k v) k = some v := by
  induction ps with
  | nil => simp [setParam, getParam]
  | cons kv t ih =>
    obtain ⟨k1, v1⟩ := kv
    by_cases h : k1 = k
    · rw [setParam, if_pos h, getParam, if_pos rfl]
    · rw [setParam, if_neg h, getParam, if_neg h, ih]

theorem getParam_removeParam (ps : List (String × String)) (k k2 : String) (h : k2 ≠ k) :
    getParam (removeParam ps k) k2 = getParam ps k2 := by
  induction ps with
  | nil => rfl
  | cons kv t ih =>
    obtain ⟨k1, v1⟩ := kv
    by_cases h1 : k1 = k
    · rw [removeParam, if_pos h1, ih, getParam, if_neg (by rw [h1]; exact fun e => h e.symm)]
    · rw [removeParam, if_neg h1, getParam, getParam, ih]

theorem getParam_setParam_other (ps : List (String × String)) (k v k2 : String)
    (h : k2 ≠ k) :
    getParam (setParam ps k v) k2 = getParam ps k2 := by
  induction ps with
  | nil =>
    have hne : ¬ k = k2 := fun e => h e.symm
    simp [setParam, getParam, hne]
  | cons kv t ih =>
    obtain ⟨k1, v1⟩ := kv
    by_cases h1 : k1 = k
    · rw [setParam, if_pos h1, getParam, if_neg (fun e => h e.symm),
        getParam_removeParam t k k2 h, getParam, if_neg (by rw [h1]; exact fun e => h e.symm)]
    · rw [setParam, if_neg h1, getParam, getParam, ih]

/-! ## A model of the WHATWG `URL` object for the non-special proxy schemes
(`vless:`, `trojan:`, `ss:`). The model parses
`scheme://userinfo@host:port/path?search#hash` shapes: hierarchical links
with an optional authority. Normalisations other than scheme lowercasing
(percent-encoding of stray code points, IPv6 compression, port-number
canonicalisation) are outside the model, as are scheme-relative and
path-only URLs, which do not occur in proxy subscriptions. -/

structure UrlObj where
  scheme : String
  userinfo : String
  host : String
  port : String
  path : String
  search : String
  hash : String
deriving DecidableEq

def isSchemeChar (c : Char) : Bool :=
  isAlnumCh c || c.toNat = 43 || c.toNat = 45 || c.toNat = 46

def splitOnceStr : List Char → List Char → Option (List Char × List Char)
  | [], pat => if pat.isPrefixOf [] then some ([], []) else none
  | c :: cs, pat =>
    if pat.isPrefixOf (c :: cs) then some ([], (c :: cs).drop pat.length)
    else (splitOnceStr cs pat).map (fun p => (c :: p.1, p.2))

def splitLastCh (s : List Char) (sep : Char) : Option (List Char × List Char) :=
  match splitOnceCh s.reverse sep with
  | some p => some (p.2.reverse, p.1.reverse)
  | none => none

def splitHash (rest : List Char) : List Char × List Char :=
  match splitOnceCh rest '#' with
  | some p => p
  | none => (rest, [])

def splitSearch (rest : List Char) : List Char × List Char :=
  match splitOnceCh rest '?' with
  | some p => p
  | none => (rest, [])

def splitAuthPath (s : List Char) : List Char × List Char :=
  (s.takeWhile (fun c => c ≠ '/'), s.dropWhile (fun c => c ≠ '/'))

def splitUserinfo (auth : List Char) : List Char × List Char :=
  match splitLastCh auth '@' with
  | some p => p
  | none => ([], auth)

def parseHostPort (hostport : List Char) : Option (List Char × List Char) :=
  if hostport.head? = some '[' then
    match hostport with
    | '[' :: hrest =>
      match splitOnceCh hrest ']' with
      | some p =>
        match p.2 with
        | [] => some ('[' :: p.1 ++ [']'], [])
        | ':' :: pp => if pp.all isDigitChar then some ('[' :: p.1 ++ [']'], pp) else none
        | _ => none
      | none => none
    | _ => none
  else if hostport.contains '[' || hostport.contains ']' then none
  else
    match splitOnceCh hostport ':' with
    | some p => if p.2.all isDigitChar then some (p.1, p.2) else none
    | none => some (hostport, [])

def parseUrlCore (schemeRaw rest : List Char) : Option UrlObj :=
  if schemeRaw = [] || !(schemeRaw.all isSchemeChar) then none
  else
    match parseHostPort (splitUserinfo (splitAuthPath (splitSearch (splitHash rest).1).1).1).2 with
    | none => none
    | some hp =>
      some ⟨String.mk (schemeRaw.map asciiLower),
        String.mk (splitUserinfo (splitAuthPath (splitSearch (splitHash rest).1).1).1).1,
        String.mk hp.1, String.mk hp.2,
        String.mk (splitAuthPath (splitSearch (splitHash rest).1).1).2,
        String.mk (splitSearch (splitHash rest).1).2,
        String.mk (splitHash rest).2⟩

def parseUrl (link : String) : Option UrlObj :=
  match splitOnceStr link.data [':', '/', '/'] with
  | none => none
  | some sr => parseUrlCore sr.1 sr.2

/-- `url.toString()` for the modelled shape. -/
def serializeUrl (u : UrlObj) : String :=
  u.scheme ++ "://" ++ (if u.userinfo = "" then "" else u.userinfo ++ "@") ++ u.host ++
    (if u.port = "" then "" else ":" ++ u.port) ++ u.path ++
    (if u.search = "" then "" else "?" ++ u.search) ++
    (if u.hash = "" then "" else "#" ++ u.hash)

/-- Structural well-formedness of a URL record: under these conditions
serialisation followed by parsing is the identity. -/
def wfUrl (u : UrlObj) : Bool :=
  u.scheme ≠ "" &&
  u.scheme.data.all (fun c => isSchemeChar c && !(65 ≤ c.toNat && c.toNat ≤ 90)) &&
  u.userinfo.data.all (fun c => c ≠ '/' && c ≠ '?' && c ≠ '#') &&
  u.host.data.all (fun c =>
    c ≠ ':' && c ≠ '/' && c ≠ '?' && c ≠ '#' && c ≠ '@' && c ≠ '[' && c ≠ ']') &&
  u.port.data.all isDigitChar &&
  (u.path = "" || (u.path.data.head? = some '/' && u.path.data.all (fun c => c ≠ '?' && c ≠ '#'))) &&
  u.search.data.all (fun c => c ≠ '#')

theorem splitOnceCh_none (sep : Char) (s : List Char) (h : ∀ c ∈ s, c ≠ sep) :
    splitOnceCh s sep = none := by
  induction s with
  | nil => rfl
  | cons c cs ih =>
    rw [splitOnceCh, if_neg (h c (by simp)), ih (fun x hx => h x (by simp [hx]))]
    rfl

theorem splitLastCh_append (sep : Char) (a b : List Char) (h : ∀ c ∈ b, c ≠ sep) :
    splitLastCh (a ++ sep :: b) sep = some (a, b) := by
  unfold splitLastCh
  rw [show (a ++ sep :: b).reverse = b.reverse ++ sep :: a.reverse from by simp]
  rw [splitOnceCh_append sep _ _ (fun c hc => h c (by simpa using hc))]
  simp

theorem splitLastCh_none (sep : Char) (s : List Char) (h : ∀ c ∈ s, c ≠ sep) :
    splitLastCh s sep = none := by
  unfold splitLastCh
  rw [splitOnceCh_none sep _ (fun c hc => h c (by simpa using hc))]

theorem splitOnceStr_scheme (a b : List Char) (h : ∀ c ∈ a, c ≠ ':') :
    splitOnceStr (a ++ ':' :: '/' :: '/' :: b) [':', '/', '/'] = some (a, b) := by
  induction a with
  | nil =>
    rw [List.nil_append, splitOnceStr, if_pos (by
      rw [List.isPrefixOf_iff_prefix]
      exact ⟨b, rfl⟩)]
    rfl
  | cons c cs ih =>
    rw [List.cons_append, splitOnceStr, if_neg (by
      rw [List.isPrefixOf_iff_prefix]
      intro hpre
      obtain ⟨t, ht⟩ := hpre
      rw [List.cons_append] at ht
      injection ht with h1 h2
      exact h c (by simp) h1.symm), ih (fun x hx => h x (by simp [hx]))]
    rfl

theorem digitChar_facts (c : Char) (h : isDigitChar c = true) :
    c.toNat ≠ 35 ∧ c.toNat ≠ 63 ∧ c.toNat ≠ 47 ∧ c.toNat ≠ 64 ∧ c.toNat ≠ 58 ∧
      c.toNat ≠ 91 ∧ c.toNat ≠ 93 := by
  simp only [isDigitChar, Bool.and_eq_true, decide_eq_true_eq] at h
  omega

theorem schemeChar_facts (c : Char) (h : isSchemeChar c = true) : c.toNat ≠ 58 := by
  simp only [isSchemeChar, isAlnumCh, Bool.or_eq_true, Bool.and_eq_true,
    decide_eq_true_eq] at h
  omega

theorem asciiLower_id (s : List Char) (h : ∀ c ∈ s, ¬(65 ≤ c.toNat ∧ c.toNat ≤ 90)) :
    s.map asciiLower = s := by
  have : ∀ c ∈ s, asciiLower c = c := by
    intro c hc
    unfold asciiLower
    rw [if_neg (h c hc)]
  rw [List.map_congr_left (fun a ha => this a ha)]
  simp

theorem splitHash_append (X h : List Char) (hX : ∀ c ∈ X, c ≠ '#') :
    splitHash (X ++ (if h = [] then [] else '#' :: h)) = (X, h) := by
  by_cases hh : h = []
  · subst hh
    rw [if_pos rfl, List.append_nil]
    unfold splitHash
    rw [splitOnceCh_none '#' X hX]
  · rw [if_neg hh]
    unfold splitHash
    rw [splitOnceCh_append '#' X h hX]

theorem splitSearch_append (Y q : List Char) (hY : ∀ c ∈ Y, c ≠ '?') :
    splitSearch (Y ++ (if q = [] then [] else '?' :: q)) = (Y, q) := by
  by_cases hq : q = []
  · subst hq
    rw [if_pos rfl, List.append_nil]
    unfold splitSearch
    rw [splitOnceCh_none '?' Y hY]
  · rw [if_neg hq]
    unfold splitSearch
    rw [splitOnceCh_append '?' Y q hY]

theorem splitAuthPath_append (A p : List Char) (hA : ∀ c ∈ A, c ≠ '/')
    (hp : p = [] ∨ p.head? = some '/') :
    splitAuthPath (A ++ p) = (A, p) := by
  unfold splitAuthPath
  have hA2 : ∀ c ∈ A, (fun c => decide (c ≠ '/')) c = true := by
    intro c hc
    simp [hA c hc]
  rcases hp with hp | hp
  · subst hp
    rw [takeWhile_append_all _ A [] hA2, dropWhile_append_all _ A [] hA2]
    simp
  · rcases p with _ | ⟨c, t⟩
    · simp at hp
    · simp only [List.head?_cons, Option.some.injEq] at hp
      subst hp
      rw [takeWhile_append_all _ A _ hA2, dropWhile_append_all _ A _ hA2]
      rw [show (('/' : Char) :: t).takeWhile (fun c => decide (c ≠ '/')) = [] from by
        simp [List.takeWhile_cons]]
      rw [show (('/' : Char) :: t).dropWhile (fun c => decide (c ≠ '/')) = '/' :: t from by
        simp [List.dropWhile_cons]]
      simp

theorem splitUserinfo_append (ui HP : List Char) (hHP : ∀ c ∈ HP, c ≠ '@') :
    splitUserinfo ((if ui = [] then [] else ui ++ ['@']) ++ HP) = (ui, HP) := by
  by_cases hu : ui = []
  · subst hu
    rw [if_pos rfl, List.nil_append]
    unfold splitUserinfo
    rw [splitLastCh_none '@' HP hHP]
  · rw [if_neg hu]
    unfold splitUserinfo
    rw [show ui ++ ['@'] ++ HP = ui ++ '@' :: HP from by simp]
    rw [splitLastCh_append '@' ui HP hHP]

theorem parseHostPort_wf (host port : List Char)
    (hhost : ∀ c ∈ host, c ≠ ':' ∧ c ≠ '[' ∧ c ≠ ']')
    (hport : ∀ c ∈ port, isDigitChar c = true) :
    parseHostPort (host ++ (if port = [] then [] else ':' :: port)) = some (host, port) := by
  have hnb : ∀ c ∈ host ++ (if port = [] then [] else ':' :: port),
      c ≠ '[' ∧ c ≠ ']' := by
    intro c hc
    rcases List.mem_append.mp hc with h | h
    · exact ⟨(hhost c h).2.1, (hhost c h).2.2⟩
    · by_cases hp : port = []
      · rw [if_pos hp] at h
        simp at h
      · rw [if_neg hp] at h
        rcases List.mem_cons.mp h with h | h
        · subst h
          exact ⟨by decide, by decide⟩
        · have hd := digitChar_facts c (hport c h)
          exact ⟨char_ne_of_toNat (by rw [show ('[').toNat = 91 from by decide]; omega),
            char_ne_of_toNat (by rw [show (']').toNat = 93 from by decide]; omega)⟩
  unfold parseHostPort
  rw [if_neg (by
    intro hhead
    rcases hx : host ++ (if port = [] then [] else ':' :: port) with _ | ⟨c, t⟩
    · rw [hx] at hhead
      simp at hhead
    · rw [hx] at hhead
      simp only [List.head?_cons, Option.some.injEq] at hhead
      exact (hnb c (by rw [hx]; simp)).1 hhead)]
  rw [if_neg (by
    simp only [Bool.or_eq_true, List.elem_iff]
    push_neg
    exact ⟨fun hmem => (hnb _ hmem).1 rfl, fun hmem => (hnb _ hmem).2 rfl⟩)]
  by_cases hp : port = []
  · subst hp
    rw [if_pos rfl, List.append_nil]
    rw [splitOnceCh_none ':' host (fun c hc => (hhost c hc).1)]
  · rw [if_neg hp]
    rw [splitOnceCh_append ':' host port (fun c hc => (hhost c hc).1)]
    simp only
    rw [if_pos (by rw [List.all_eq_true]; exact fun c hc => hport c hc)]

theorem string_eq_empty_iff (s : String) : s = "" ↔ s.data = [] := by
  constructor
  · intro h
    rw [h]
  · intro h
    rw [← string_mk_data s, h]

theorem parseUrl_serializeUrl (u : UrlObj) (h : wfUrl u = true) :
    parseUrl (serializeUrl u) = some u := by
  obtain ⟨scheme, userinfo, host, port, path, search, hash⟩ := u
  simp only [wfUrl, Bool.and_eq_true] at h
  obtain ⟨⟨⟨⟨⟨⟨h1, h2⟩, h3⟩, h4⟩, h5⟩, h6⟩, h7⟩ := h
  rw [decide_eq_true_eq] at h1
  have h3' : ∀ c ∈ userinfo.data, c ≠ '/' ∧ c ≠ '?' ∧ c ≠ '#' := by
    intro c hc
    have hx := List.all_eq_true.mp h3 c hc
    simp only [Bool.and_eq_true, decide_eq_true_eq] at hx
    exact ⟨hx.1.1, hx.1.2, hx.2⟩
  have h4' : ∀ c ∈ host.data,
      c ≠ ':' ∧ c ≠ '/' ∧ c ≠ '?' ∧ c ≠ '#' ∧ c ≠ '@' ∧ c ≠ '[' ∧ c ≠ ']' := by
    intro c hc
    have hx := List.all_eq_true.mp h4 c hc
    simp only [Bool.and_eq_true, decide_eq_true_eq] at hx
    exact ⟨hx.1.1.1.1.1.1, hx.1.1.1.1.1.2, hx.1.1.1.1.2, hx.1.1.1.2, hx.1.1.2, hx.1.2, hx.2⟩
  have h5' : ∀ c ∈ port.data, isDigitChar c = true := List.all_eq_true.mp h5
  have h7' : ∀ c ∈ search.data, c ≠ '#' := by
    intro c hc
    have hx := List.all_eq_true.mp h7 c hc
    simp only [decide_eq_true_eq] at hx
    exact hx
  have h6' : path.data = [] ∨ (path.data.head? = some '/' ∧
      ∀ c ∈ path.data, c ≠ '?' ∧ c ≠ '#') := by
    rw [Bool.or_eq_true] at h6
    rcases h6 with h6 | h6
    · rw [decide_eq_true_eq, string_eq_empty_iff] at h6
      exact Or.inl h6
    · rw [Bool.and_eq_true] at h6
      refine Or.inr ⟨by
        have := h6.1
        rw [decide_eq_true_eq] at this
        exact this, ?_⟩
      intro c hc
      have hx := List.all_eq_true.mp h6.2 c hc
      simp only [Bool.and_eq_true, decide_eq_true_eq] at hx
      exact hx
  have hdigit : ∀ c ∈ port.data, c ≠ '@' ∧ c ≠ '/' ∧ c ≠ '?' ∧ c ≠ '#' := by
    intro c hc
    obtain ⟨d35, d63, d47, d64, -, -, -⟩ := digitChar_facts c (h5' c hc)
    exact ⟨char_ne_of_toNat (by rw [show ('@').toNat = 64 from by decide]; omega),
      char_ne_of_toNat (by rw [show ('/').toNat = 47 from by decide]; omega),
      char_ne_of_toNat (by rw [show ('?').toNat = 63 from by decide]; omega),
      char_ne_of_toNat (by rw [show ('#').toNat = 35 from by decide]; omega)⟩
  have hHP : ∀ c ∈ host.data ++ (if port.data = [] then [] else ':' :: port.data),
      c ≠ '@' ∧ c ≠ '/' ∧ c ≠ '?' ∧ c ≠ '#' := by
    intro c hc
    rcases List.mem_append.mp hc with hm | hm
    · obtain ⟨-, q47, q63, q35, q64, -, -⟩ := h4' c hm
      exact ⟨q64, q47, q63, q35⟩
    · by_cases hp : port.data = []
      · rw [if_pos hp] at hm
        simp at hm
      · rw [if_neg hp] at hm
        rcases List.mem_cons.mp hm with hm | hm
        · subst hm
          exact ⟨by decide, by decide, by decide, by decide⟩
        · exact hdigit c hm
  have hA : ∀ c ∈ (if userinfo.data = [] then [] else userinfo.data ++ ['@']) ++
      (host.data ++ (if port.data = [] then [] else ':' :: port.data)),
      c ≠ '/' ∧ c ≠ '?' ∧ c ≠ '#' := by
    intro c hc
    rcases List.mem_append.mp hc with hm | hm
    · by_cases hu : userinfo.data = []
      · rw [if_pos hu] at hm
        simp at hm
      · rw [if_neg hu] at hm
        rcases List.mem_append.mp hm with hm | hm
        · exact h3' c hm
        · rcases List.mem_singleton.mp hm with rfl
          exact ⟨by decide, by decide, by decide⟩
    · obtain ⟨-, q47, q63, q35⟩ := hHP c hm
      exact ⟨q47, q63, q35⟩
  have hY : ∀ c ∈ ((if userinfo.data = [] then [] else userinfo.data ++ ['@']) ++
      (host.data ++ (if port.data = [] then [] else ':' :: port.data)) ++ path.data),
      c ≠ '?' ∧ c ≠ '#' := by
    intro c hc
    rcases List.mem_append.mp hc with hm | hm
    · obtain ⟨-, q63, q35⟩ := hA c hm
      exact ⟨q63, q35⟩
    · rcases h6' with hp | hp
      · rw [hp] at hm
        simp at hm
      · exact hp.2 c hm
  have hX : ∀ c ∈ (((if userinfo.data = [] then [] else userinfo.data ++ ['@']) ++
      (host.data ++ (if port.data = [] then [] else ':' :: port.data)) ++ path.data) ++
      (if search.data = [] then [] else '?' :: search.data)), c ≠ '#' := by
    intro c hc
    rcases List.mem_append.mp hc with hm | hm
    · exact (hY c hm).2
    · by_cases hs : search.data = []
      · rw [if_pos hs] at hm
        simp at hm
      · rw [if_neg hs] at hm
        rcases List.mem_cons.mp hm with hm | hm
        · subst hm
          decide
        · exact h7' c hm
  have hsch : ∀ c ∈ scheme.data, c ≠ ':' := by
    intro c hc
    have hx := List.all_eq_true.mp h2 c hc
    rw [Bool.and_eq_true] at hx
    exact char_ne_of_toNat (by
      have := schemeChar_facts c hx.1
      rw [show (':').toNat = 58 from by decide]
      omega)
  have hlow : ∀ c ∈ scheme.data, ¬(65 ≤ c.toNat ∧ c.toNat ≤ 90) := by
    intro c hc
    have hx := List.all_eq_true.mp h2 c hc
    rw [Bool.and_eq_true] at hx
    have := hx.2
    simp only [Bool.not_eq_true', Bool.and_eq_false_iff, decide_eq_false_iff_not] at this
    omega
  have hdata : (serializeUrl ⟨scheme, userinfo, host, port, path, search, hash⟩).data
      = scheme.data ++ ':' :: '/' :: '/' ::
        ((((if userinfo.data = [] then [] else userinfo.data ++ ['@']) ++
           (host.data ++ (if port.data = [] then [] else ':' :: port.data)) ++ path.data) ++
          (if search.data = [] then [] else '?' :: search.data)) ++
         (if hash.data = [] then [] else '#' :: hash.data)) := by
    by_cases hu : userinfo = "" <;> by_cases hp : port = "" <;>
      by_cases hs : search = "" <;> by_cases hh : hash = "" <;>
      simp [serializeUrl, String.data_append, hu, hp, hs, hh,
        (string_eq_empty_iff userinfo).symm, (string_eq_empty_iff port).symm,
        (string_eq_empty_iff search).symm, (string_eq_empty_iff hash).symm,
        string_eq_empty_iff]
  unfold parseUrl
  rw [hdata, splitOnceStr_scheme scheme.data _ hsch]
  simp only
  unfold parseUrlCore
  rw [if_neg (by
    intro hcond
    rw [Bool.or_eq_true] at hcond
    rcases hcond with hc | hc
    · rw [decide_eq_true_eq] at hc
      exact h1 ((string_eq_empty_iff scheme).mpr hc)
    · rw [Bool.not_eq_true'] at hc
      have hall : scheme.data.all isSchemeChar = true := by
        rw [List.all_eq_true]
        intro c hc2
        have hx := List.all_eq_true.mp h2 c hc2
        rw [Bool.and_eq_true] at hx
        exact hx.1
      rw [hall] at hc
      exact absurd hc (by decide))]
  rw [splitHash_append _ hash.data hX]
  simp only
  rw [splitSearch_append _ search.data (fun c hc => (hY c hc).1)]
  simp only
  rw [splitAuthPath_append _ path.data (fun c hc => (hA c hc).1) (by
    rcases h6' with hp | hp
    · exact Or.inl hp
    · exact Or.inr hp.1)]
  simp only
  rw [splitUserinfo_append userinfo.data _ (fun c hc => (hHP c hc).1)]
  simp only
  rw [parseHostPort_wf host.data port.data
    (fun c hc => ⟨(h4' c hc).1, (h4' c hc).2.2.2.2.2.1, (h4' c hc).2.2.2.2.2.2⟩) h5']
  simp only
  rw [asciiLower_id scheme.data hlow]

/-! ## The v2ray service layer (src/services/v2rayService.ts) -/

structure LocationData where
  flag : String
  country : String
  city : String
  isp : String
deriving DecidableEq

/-- `ProcessingOptions` (src/types.ts line 16).  `muxConcurrency` is an
integer; `customBaseName` is read by `generateNewAlias` although the
interface revision shown does not declare it, so the model carries it with
the empty string standing for `undefined`. -/
structure ProcessingOptions where
  enableMux : Bool
  muxConcurrency : Int
  enableFragment : Bool
  fragmentLength : String
  fragmentInterval : String
  allowInsecure : Bool
  enableALPN : Bool
  addRandomAlias : Bool
  addLocationFlag : Bool
  enableDNS : Bool
  customDNS : String
  enableCDNIP : Bool
  customCDN : String
  customBaseName : String
deriving DecidableEq

def strStarts (s pat : String) : Bool := pat.data.isPrefixOf s.data

/-- `Array.prototype.join` with a separator. -/
def joinWith (sep : String) : List String → String
  | [] => ""
  | [x] => x
  | x :: y :: r => x ++ sep ++ joinWith sep (y :: r)

def strEnds (s pat : String) : Bool := pat.data.isSuffixOf s.data

/-- `String.prototype.replace` with a plain-string pattern: replace the
first occurrence only. -/
def replaceOnceAux : List Char → List Char → List Char → List Char
  | [], _, _ => []
  | c :: cs, pat, rep =>
    if pat.isPrefixOf (c :: cs) then rep ++ (c :: cs).drop pat.length
    else c :: replaceOnceAux cs pat rep

def jsReplace (s pat rep : String) : String :=
  String.mk (replaceOnceAux s.data pat.data rep.data)

/-- `String.prototype.replace` with an anchored regex such as
`/^ssr:\x2f\x2f/`: strip the prefix when present. -/
def stripPre (s pat : String) : String :=
  if pat.data.isPrefixOf s.data then String.mk (s.data.drop pat.data.length) else s

def idxOfChAux : List Char → Char → Nat → Option Nat
  | [], _, _ => none
  | c :: cs, t, i => if c = t then some i else idxOfChAux cs t (i + 1)

/-- `String.prototype.indexOf` for a single character. -/
def idxOfCh (s : List Char) (t : Char) : Option Nat := idxOfChAux s t 0

def splitOnStrF : Nat → List Char → List Char → List (List Char)
  | 0, s, _ => [s]
  | f + 1, s, pat =>
    match splitOnceStr s pat with
    | some p => p.1 :: splitOnStrF f p.2 pat
    | none => [s]

/-- `String.prototype.split` with a plain multi-character separator. -/
def splitOnStr (s pat : List Char) : List (List Char) := splitOnStrF (s.length + 1) s pat

/-- JavaScript number-to-string for the integers the service handles. -/
def intToString (i : Int) : String := String.mk (intToChars i)

/-- `generateNewAlias` (v2rayService.ts line 121). The `originalAlias`
argument is accepted and never read, exactly as in the source. -/
def generateNewAlias (originalAlias : String) (index : Nat)
    (location : Option LocationData) (options : ProcessingOptions) : String :=
  let locParts : List String :=
    match location with
    | some l => if l.country ≠ "" then [l.flag, l.country] else []
    | none => []
  let baseName :=
    if options.customBaseName ≠ "" ∧ jsTrim options.customBaseName ≠ "" then
      jsTrim options.customBaseName
    else "VS"
  joinWith " " (locParts ++ [baseName, String.mk (natToChars (index + 1))])

/-- JavaScript falsiness of a JSON value. -/
def jsFalsy : Json → Bool
  | Json.null => true
  | Json.bool b => !b
  | Json.num i => i = 0
  | Json.str s => s = ""
  | Json.arr _ => false
  | Json.obj _ => false

/-- `x.length === 0` for a truthy JSON value (strings and arrays have a
length; other values compare `undefined === 0`, which is false). -/
def jsLenZero : Json → Bool
  | Json.str s => s = ""
  | Json.arr xs => xs.isEmpty
  | _ => false

/-- `(!config.f || config.f.length === 0)` where the field may be absent. -/
def jsEmptyField : Option Json → Bool
  | none => true
  | some x => jsFalsy x || jsLenZero x

/-- The string carried by a `ps` field, used only as the ignored
`originalAlias` argument. -/
def psString : Option Json → String
  | some (Json.str s) => s
  | _ => ""

/-- `processVmess` (v2rayService.ts line 148). A Base64 payload that does
not decode, or decodes to invalid JSON, reproduces the input link (the
catch branch); a primitive JSON payload throws on the strict-mode property
assignment `config.ps = …`, which the catch also maps to the input link; an
array payload accepts the property writes but `JSON.stringify` serializes
only its elements. -/
def vmessWsGrpc (j : Json) : Bool :=
  getField j "net" = some (Json.str "ws") ∨ getField j "net" = some (Json.str "grpc")

/-- The CDN substitution block of `processVmess` (lines 156-161). -/
def vmessCdn (config0 : Json) (options : ProcessingOptions) : Json :=
  if options.enableCDNIP ∧ options.customCDN ≠ "" ∧ vmessWsGrpc config0 then
    let originalAddress := getField config0 "add"
    let cA := setField config0 "add" (Json.str options.customCDN)
    let cB :=
      if jsEmptyField (getField cA "host") then setFieldOpt cA "host" originalAddress
      else cA
    if getField cB "tls" = some (Json.str "tls") ∧ jsEmptyField (getField cB "sni") then
      setFieldOpt cB "sni" originalAddress
    else cB
  else config0

/-- The field rewrite applied by `processVmess` to a decoded object
configuration (lines 156-174): the CDN substitution, the mux block, the
ALPN override and the alias assignment, in source order. -/
def vmessTransform (config0 : Json) (options : ProcessingOptions) (index : Nat)
    (loc : Option LocationData) : Json :=
  let config1 := vmessCdn config0 options
  let config2 :=
    if options.enableMux then
      setField config1 "mux" (Json.obj [("enabled", Json.bool true),
        ("concurrency",
          Json.num (if options.muxConcurrency = 0 then 8 else options.muxConcurrency))])
    else config1
  let config3 :=
    if options.enableALPN ∧ getField config2 "tls" = some (Json.str "tls") then
      setField config2 "alpn" (Json.str "h2,http/1.1")
    else config2
  setField config3 "ps"
    (Json.str (generateNewAlias (psString (getField config3 "ps")) index loc options))

/-- `processVmess` (v2rayService.ts line 148). A Base64 payload that does
not decode, or decodes to invalid JSON, reproduces the input link (the
catch branch); a primitive JSON payload throws on the strict-mode property
assignment `config.ps = …`, which the catch also maps to the input link; an
array payload accepts the property writes but `JSON.stringify` serializes
only its elements. -/
def processVmess (link : String) (options : ProcessingOptions) (index : Nat)
    (loc : Option LocationData) : String :=
  let b64Part := jsReplace link "vmess://" ""
  let jsonStr := safeB64Decode b64Part
  if jsonStr = "" then link
  else
    match jsonParse jsonStr with
    | none => link
    | some config =>
      match config with
      | Json.obj fs =>
        "vmess://" ++ safeB64Encode (jsonStringify (vmessTransform (Json.obj fs) options index loc))
      | Json.arr xs => "vmess://" ++ safeB64Encode (jsonStringify (Json.arr xs))
      | _ => link

/-- `processSSR` (v2rayService.ts line 183). Note there is no guard against
a failed Base64 decode: an empty `decoded` still flows into the rebuild. -/
def processSSR (link : String) (options : ProcessingOptions) (index : Nat)
    (loc : Option LocationData) : String :=
  let b64 := stripPre link "ssr://"
  let decoded := safeBase64UrlDecode b64
  let splitUrl := splitOnStr decoded.data ['/', '?']
  if splitUrl.length < 1 then link
  else
    let mainPart := String.mk (splitUrl.headD [])
    let paramsStr := String.mk ((splitUrl.drop 1).headD [])
    let params := parseQuery paramsStr
    let newAlias := generateNewAlias "SSR" index loc options
    let params2 := setParam params "remarks" (safeBase64UrlEncode newAlias)
    let newDecoded := mainPart ++ "/?" ++ serializeQuery params2
    "ssr://" ++ safeBase64UrlEncode newDecoded

def jsTruthyOptStr : Option String → Bool
  | none => false
  | some s => s ≠ ""

/-- The legacy-SS rewrite attempt shared by `processUrlBased` and
`getHostFromStandardUrl` (the `substring(5, hashIndex)` Base64 slice). -/
def legacySsParts (link : String) : String × String :=
  match idxOfCh link.data '#' with
  | some i => (String.mk ((link.data.drop 5).take (i - 5)), String.mk (link.data.drop i))
  | none => (String.mk (link.data.drop 5), "")

/-- The transport test of `processUrlBased` (line 236). -/
def urlIsWsOrGrpc (ps0 : List (String × String)) : Bool :=
  getParam ps0 "type" = some "ws" ∨ getParam ps0 "type" = some "grpc" ∨
    getParam ps0 "mode" = some "grpc" ∨ jsTruthyOptStr (getParam ps0 "serviceName")

/-- The guard of the CDN branch of `processUrlBased` (line 238). -/
def urlCdnOn (ps0 : List (String × String)) (options : ProcessingOptions) : Bool :=
  options.enableCDNIP ∧ options.customCDN ≠ "" ∧ urlIsWsOrGrpc ps0

/-- CDN branch, line 241: write the original host into `host` unless the
parameter is already present. -/
def stageHost (cdnOn : Bool) (origHost : String)
    (st : List (String × String) × Bool) : List (String × String) × Bool :=
  if cdnOn ∧ ¬(hasParam st.1 "host" = true) then (setParam st.1 "host" origHost, true)
  else st

/-- CDN branch, lines 242-245: write the original host into `sni` for the
TLS-like security types unless the parameter is already present. -/
def stageSni (cdnOn : Bool) (origHost : String)
    (st : List (String × String) × Bool) : List (String × String) × Bool :=
  if cdnOn ∧ ¬(hasParam st.1 "sni" = true) ∧ (getParam st.1 "security" = some "tls" ∨
      getParam st.1 "security" = some "reality" ∨ getParam st.1 "security" = some "xtls") then
    (setParam st.1 "sni" origHost, true)
  else st

/-- Lines 248-251. -/
def stageMux (options : ProcessingOptions)
    (st : List (String × String) × Bool) : List (String × String) × Bool :=
  if options.enableMux then
    (setParam (setParam st.1 "mux" "true") "concurrency"
      (intToString options.muxConcurrency), true)
  else st

/-- Lines 253-255. -/
def stageFrag (options : ProcessingOptions)
    (st : List (String × String) × Bool) : List (String × String) × Bool :=
  if options.enableFragment then
    (setParam st.1 "fragment"
      (options.fragmentLength ++ "," ++ options.fragmentInterval ++ ",random"), true)
  else st

/-- Lines 257-259. -/
def stageAllowIns (options : ProcessingOptions)
    (st : List (String × String) × Bool) : List (String × String) × Bool :=
  if options.allowInsecure then (setParam st.1 "allowInsecure" "1", true) else st

/-- Lines 261-266: the security type is re-read from the live params. -/
def stageAlpn (options : ProcessingOptions)
    (st : List (String × String) × Bool) : List (String × String) × Bool :=
  if options.enableALPN ∧ (getParam st.1 "security" = some "tls" ∨
      getParam st.1 "security" = some "reality" ∨ getParam st.1 "security" = some "xtls") then
    (setParam st.1 "alpn" "h2,http/1.1", true)
  else st

/-- The searchParams mutations of `processUrlBased` (lines 238-266), as a
pair of the final decoded pair list and a dirty flag recording whether any
`params.set` ran. Each stage reads the pair list left by the previous one,
matching the live `URLSearchParams` view. -/
def urlStages (u : UrlObj) (options : ProcessingOptions) :
    List (String × String) × Bool :=
  let cdnOn := urlCdnOn (parseQuery u.search) options
  stageAlpn options (stageAllowIns options (stageFrag options (stageMux options
    (stageSni cdnOn u.host (stageHost cdnOn u.host (parseQuery u.search, false))))))

/-- `processUrlBased` (v2rayService.ts line 207). The searchParams view is
modelled as the decoded pair list plus a dirty flag: `url.toString()`
re-serializes the pairs only when some `params.set` ran, otherwise the raw
query survives verbatim. -/
def processUrlBased (link : String) (options : ProcessingOptions) (index : Nat)
    (loc : Option LocationData) : String :=
  let originalLink :=
    if strStarts link "ss://" ∧ ¬(link.data.contains '@') then
      let parts := legacySsParts link
      let decoded := safeBase64UrlDecode parts.1
      if decoded.data.contains '@' then "ss://" ++ decoded ++ parts.2 else link
    else link
  match parseUrl originalLink with
  | none => link
  | some u =>
    let u1 := if urlCdnOn (parseQuery u.search) options then { u with host := options.customCDN }
      else u
    let stF := urlStages u options
    serializeUrl { u1 with
      search := if stF.2 then serializeQuery stF.1 else u1.search,
      hash := encodeURIComponent (generateNewAlias "Config" index loc options) }

/-- `getHostFromVmess` (v2rayService.ts line 48). -/
def getHostFromVmess (link : String) : Option String :=
  let b64Part := jsReplace link "vmess://" ""
  let jsonStr := safeB64Decode b64Part
  match jsonParse jsonStr with
  | none => none
  | some config =>
    match getField config "add" with
    | some (Json.str s) => if s ≠ "" ∧ jsTrim s ≠ "" then some s else none
    | _ => none

/-- `getHostFromSSR` (v2rayService.ts line 58). -/
def getHostFromSSR (link : String) : Option String :=
  let b64 := (splitOnCh '/' (stripPre link "ssr://").data).headD []
  let decoded := safeBase64UrlDecode (String.mk b64)
  some (String.mk ((splitOnCh ':' decoded.data).headD []))

/-- `getHostFromStandardUrl` (v2rayService.ts line 67). -/
def getHostFromStandardUrl (link : String) : Option String :=
  let viaLegacy : Option String :=
    if strStarts link "ss://" ∧ ¬(link.data.contains '@') then
      let parts := legacySsParts link
      let decoded := safeBase64UrlDecode parts.1
      if decoded.data.contains '@' then
        let addressPart := (splitOnCh '@' decoded.data).getLastD []
        some (String.mk ((splitOnCh ':' addressPart).headD []))
      else none
    else none
  match viaLegacy with
  | some h => some h
  | none =>
    match parseUrl link with
    | none => none
    | some u =>
      if u.host = "" then none
      else if strStarts u.host "[" ∧ strEnds u.host "]" then
        some (String.mk ((u.host.data.drop 1).dropLast))
      else some u.host

/-- `extractHost` (v2rayService.ts line 110). -/
def extractHost (link : String) : Option String :=
  let l := jsTrim link
  if strStarts l "vmess://" then getHostFromVmess l
  else if strStarts l "ssr://" then getHostFromSSR l
  else if strStarts l "vless://" ∨ strStarts l "trojan://" ∨ strStarts l "ss://" then
    getHostFromStandardUrl l
  else none

def lookupLoc : List (String × LocationData) → String → Option LocationData
  | [], _ => none
  | (k, v) :: t, h => if k = h then some v else lookupLoc t h

/-- One line of the `processConfigs` map (v2rayService.ts line 290). -/
def processLine (line : String) (options : ProcessingOptions) (index : Nat)
    (loc : Option LocationData) : String :=
  if strStarts line "vmess://" then processVmess line options index loc
  else if strStarts line "ssr://" then processSSR line options index loc
  else if strStarts line "vless://" ∨ strStarts line "trojan://" ∨ strStarts line "ss://" then
    processUrlBased line options index loc
  else line

/-- The per-line pass of `processConfigs` (v2rayService.ts line 277). The
`batchResolve` network step is abstracted by the `resolved` map, consulted
only when `addLocationFlag` is on, exactly as the empty-object default
does in the source. -/
def processedLines (input : String) (options : ProcessingOptions)
    (resolved : List (String × LocationData)) : List String :=
  let hostLocationMap := if options.addLocationFlag then resolved else []
  let lines := ((splitOnCh '\n' input.data).map (fun l => jsTrim (String.mk l))).filter
    (fun l => l ≠ "")
  lines.mapIdx (fun index line =>
    let loc := match extractHost line with
      | some h => if h = "" then none else lookupLoc hostLocationMap h
      | none => none
    processLine line options index loc)

def processConfigs (input : String) (options : ProcessingOptions)
    (resolved : List (String × LocationData)) : String :=
  safeB64Encode (joinWith "\n" (processedLines input options resolved))

/-! ## The geo-IP resolver (src/types.ts lines 175-217, the guarded
revision). Network effects are supplied by oracles: `dnsAnswer` is the
outcome of the DoH lookup chain in `resolveDns`, and the two provider
functions give each provider's reply for a queried target. `resolveLocation`
returns the result paired with the list of targets submitted to
geolocation providers, so "never queried" is a statement about that log. -/

/-- The IPv4 regex of `isIP`: four 1-3 digit groups separated by dots. -/
def isIPv4 (s : List Char) : Bool :=
  let parts := splitOnCh '.' s
  parts.length = 4 &&
    parts.all (fun p => p ≠ [] && p.length ≤ 3 && p.all isDigitChar)

/-- `isIP` (types.ts line 88). -/
def isIP (s : String) : Bool := isIPv4 s.data || s.data.contains ':'

/-- The 172.16.0.0/12 alternative of the private-range regex:
`^172\.(1[6-9]|2\d|3[0-1])\.`. -/
def starts172Range : List Char → Bool
  | '1' :: '7' :: '2' :: '.' :: c1 :: c2 :: '.' :: _ =>
    (c1 = '1' && '6' ≤ c2 && c2 ≤ '9') || (c1 = '2' && isDigitChar c2) ||
      (c1 = '3' && ('0' ≤ c2 && c2 ≤ '1'))
  | _ => false

/-- The private-range regex test of `isPrivateIP` (types.ts line 98). The
second alternative of the source pattern is a bare, unanchored dot, so any
target containing a dot matches. -/
def privateRegexTest (s : List Char) : Bool :=
  ("10.".data.isPrefixOf s || "::ffff:10.".data.isPrefixOf s) ||
    s.contains '.' ||
    "127.".data.isPrefixOf s || "169.254.".data.isPrefixOf s ||
    "192.168.".data.isPrefixOf s || starts172Range s

/-- `isPrivateIP` (types.ts line 93). -/
def isPrivateIP (ip : String) : Bool :=
  if !(isIP ip) then ip = "localhost" else privateRegexTest ip.data

structure GeoEnv where
  dnsAnswer : String → Option String
  ipwhois : String → Option LocationData
  v2fly : String → Option LocationData

/-- `resolveDns` (types.ts line 104): an IP is returned unresolved, a
domain goes through the DoH oracle. -/
def resolveDns (env : GeoEnv) (domain : String) : Option String :=
  if isIP domain then some domain else env.dnsAnswer domain

/-- The target a lookup will use: the DNS resolution when it produced a
truthy answer, the host itself otherwise (types.ts lines 184-189). -/
def geoTarget (env : GeoEnv) (host : String) : String :=
  let t0 := match resolveDns env host with
    | some t => t
    | none => ""
  if t0 = "" then host else t0

/-- `resolveLocation` (types.ts line 175). The second component is the
log of targets submitted to the geolocation providers. -/
def resolveLocation (env : GeoEnv) (cache : List (String × LocationData))
    (host : String) : Option LocationData × List String :=
  if host = "" ∨ host.data.length < 3 then (none, [])
  else
    match lookupLoc cache host with
    | some d => (some d, [])
    | none =>
      let target := geoTarget env host
      if isPrivateIP target then (none, [])
      else if target ≠ host ∧ (lookupLoc cache target).isSome then
        (lookupLoc cache target, [])
      else
        match env.ipwhois target with
        | some r => (some r, [target])
        | none =>
          match env.v2fly target with
          | some r => (some r, [target, target])
          | none => (none, [target, target])


theorem mem_joinAmp (c : Char) (ls : List (List Char)) (h : c ∈ joinAmp ls) :
    (∃ l ∈ ls, c ∈ l) ∨ c = '&' := by
  induction ls with
  | nil => simp [joinAmp] at h
  | cons p rest ih =>
    cases rest with
    | nil =>
      rw [joinAmp] at h
      exact Or.inl ⟨p, by simp, h⟩
    | cons q rest2 =>
      rw [joinAmp] at h
      rcases List.mem_append.mp h with hm | hm
      · exact Or.inl ⟨p, by simp, hm⟩
      · rcases List.mem_cons.mp hm with hm | hm
        · exact Or.inr hm
        · rcases ih hm with ⟨l, hl, hcl⟩ | hm2
          · exact Or.inl ⟨l, by simp [hl], hcl⟩
          · exact Or.inr hm2

theorem serializeQuery_no_hash (ps : List (String × String)) :
    ∀ c ∈ (serializeQuery ps).data, c ≠ '#' := by
  intro c hc
  unfold serializeQuery at hc
  rw [show (String.mk (joinAmp (ps.map (fun kv => (formEncode kv.1).data ++ '=' :: (formEncode kv.2).data)))).data
      = joinAmp (ps.map (fun kv => (formEncode kv.1).data ++ '=' :: (formEncode kv.2).data)) from rfl] at hc
  rcases mem_joinAmp c _ hc with ⟨l, hl, hcl⟩ | hm
  · simp only [List.mem_map] at hl
    obtain ⟨kv, hkv, hlv⟩ := hl
    subst hlv
    rcases List.mem_append.mp hcl with hm | hm
    · exact char_ne_of_toNat (by
        have := (formEncode_chars kv.1 c hm).2.2.1
        rw [show ('#').toNat = 35 from by decide]
        omega)
    · rcases List.mem_cons.mp hm with hm | hm
      · subst hm; decide
      · exact char_ne_of_toNat (by
          have := (formEncode_chars kv.2 c hm).2.2.1
          rw [show ('#').toNat = 35 from by decide]
          omega)
  · subst hm; decide

theorem wfUrl_parts (u : UrlObj) (h2 h3 h4 : String) (hw : wfUrl u = true)
    (hhost : h2.data.all (fun c =>
      c ≠ ':' && c ≠ '/' && c ≠ '?' && c ≠ '#' && c ≠ '@' && c ≠ '[' && c ≠ ']') = true)
    (hsearch : ∀ c ∈ h3.data, c ≠ '#') :
    wfUrl { u with host := h2, search := h3, hash := h4 } = true := by
  obtain ⟨scheme, userinfo, host, port, path, search, hash⟩ := u
  simp only [wfUrl, Bool.and_eq_true] at hw ⊢
  obtain ⟨⟨⟨⟨⟨⟨g1, g2⟩, g3⟩, g4⟩, g5⟩, g6⟩, g7⟩ := hw
  refine ⟨⟨⟨⟨⟨⟨g1, g2⟩, g3⟩, hhost⟩, g5⟩, g6⟩, ?_⟩
  rw [List.all_eq_true]
  intro c hc
  simp [hsearch c hc]

theorem stageHost_flag (c : Bool) (oh : String) (st : List (String × String) × Bool)
    (h : (stageHost c oh st).2 = false) : stageHost c oh st = st := by
  unfold stageHost at h ⊢
  split_ifs at h ⊢ <;> simp_all

theorem stageSni_flag (c : Bool) (oh : String) (st : List (String × String) × Bool)
    (h : (stageSni c oh st).2 = false) : stageSni c oh st = st := by
  unfold stageSni at h ⊢
  split_ifs at h ⊢ <;> simp_all

theorem stageMux_flag (o : ProcessingOptions) (st : List (String × String) × Bool)
    (h : (stageMux o st).2 = false) : stageMux o st = st := by
  unfold stageMux at h ⊢
  split_ifs at h ⊢ <;> simp_all

theorem stageFrag_flag (o : ProcessingOptions) (st : List (String × String) × Bool)
    (h : (stageFrag o st).2 = false) : stageFrag o st = st := by
  unfold stageFrag at h ⊢
  split_ifs at h ⊢ <;> simp_all

theorem stageAllowIns_flag (o : ProcessingOptions) (st : List (String × String) × Bool)
    (h : (stageAllowIns o st).2 = false) : stageAllowIns o st = st := by
  unfold stageAllowIns at h ⊢
  split_ifs at h ⊢ <;> simp_all

theorem stageAlpn_flag (o : ProcessingOptions) (st : List (String × String) × Bool)
    (h : (stageAlpn o st).2 = false) : stageAlpn o st = st := by
  unfold stageAlpn at h ⊢
  split_ifs at h ⊢ <;> simp_all

theorem urlStages_untouched (u : UrlObj) (opts : ProcessingOptions)
    (h : (urlStages u opts).2 = false) : (urlStages u opts).1 = parseQuery u.search := by
  unfold urlStages at h ⊢
  have e1 := stageAlpn_flag _ _ h
  rw [e1] at h ⊢
  have e2 := stageAllowIns_flag _ _ h
  rw [e2] at h ⊢
  have e3 := stageFrag_flag _ _ h
  rw [e3] at h ⊢
  have e4 := stageMux_flag _ _ h
  rw [e4] at h ⊢
  have e5 := stageSni_flag _ _ _ h
  rw [e5] at h ⊢
  have e6 := stageHost_flag _ _ _ h
  rw [e6]

theorem urlStages_search (u : UrlObj) (opts : ProcessingOptions) :
    parseQuery (if (urlStages u opts).2 then serializeQuery (urlStages u opts).1
      else u.search) = (urlStages u opts).1 := by
  by_cases h : (urlStages u opts).2 = true
  · rw [if_pos h, parseQuery_serializeQuery]
  · rw [Bool.not_eq_true] at h
    rw [h, if_neg (by simp), urlStages_untouched u opts h]

/-- Master output description for `processUrlBased` on a link that parses:
the result re-parses, the untouched components survive, the host is the
CDN exactly under the CDN guard, the query is the staged pair list, and
the fragment is the percent-encoded fresh alias. -/
theorem processUrlBased_out (L : String) (u : UrlObj) (opts : ProcessingOptions)
    (i : Nat) (loc : Option LocationData)
    (hparse : parseUrl L = some u) (hwu : wfUrl u = true)
    (hss : strStarts L "ss://" = true → L.data.contains '@' = true)
    (hcdn : urlCdnOn (parseQuery u.search) opts = true →
      opts.customCDN.data.all (fun c =>
        c ≠ ':' && c ≠ '/' && c ≠ '?' && c ≠ '#' && c ≠ '@' && c ≠ '[' && c ≠ ']') = true) :
    parseUrl (processUrlBased L opts i loc) = some
      { scheme := u.scheme
        userinfo := u.userinfo
        host := (if urlCdnOn (parseQuery u.search) opts then opts.customCDN else u.host)
        port := u.port
        path := u.path
        search := (if (urlStages u opts).2 then serializeQuery (urlStages u opts).1
          else u.search)
        hash := encodeURIComponent (generateNewAlias "Config" i loc opts) } := by
  have hhostwf : (if urlCdnOn (parseQuery u.search) opts then opts.customCDN else u.host).data.all
      (fun c => c ≠ ':' && c ≠ '/' && c ≠ '?' && c ≠ '#' && c ≠ '@' && c ≠ '[' && c ≠ ']')
      = true := by
    by_cases hc : urlCdnOn (parseQuery u.search) opts = true
    · rw [if_pos hc]
      exact hcdn hc
    · rw [Bool.not_eq_true] at hc
      rw [hc, if_neg (by simp)]
      obtain ⟨scheme, userinfo, host, port, path, search, hash⟩ := u
      simp only [wfUrl, Bool.and_eq_true] at hwu
      exact hwu.1.1.1.2
  have hsearchwf : ∀ c ∈ (if (urlStages u opts).2 then serializeQuery (urlStages u opts).1
      else u.search).data, c ≠ '#' := by
    by_cases hs : (urlStages u opts).2 = true
    · rw [if_pos hs]
      exact serializeQuery_no_hash _
    · rw [Bool.not_eq_true] at hs
      rw [hs, if_neg (by simp)]
      obtain ⟨scheme, userinfo, host, port, path, search, hash⟩ := u
      simp only [wfUrl, Bool.and_eq_true] at hwu
      intro c hc
      have := List.all_eq_true.mp hwu.2 c hc
      simpa using this
  unfold processUrlBased
  rw [if_neg (by
    rintro ⟨ha, hb⟩
    exact hb (hss ha))]
  simp only [hparse]
  by_cases hc : urlCdnOn (parseQuery u.search) opts = true
  · rw [if_pos hc]
    have := parseUrl_serializeUrl
      { u with
          host := opts.customCDN
          search := (if (urlStages u opts).2 then serializeQuery (urlStages u opts).1
            else u.search)
          hash := encodeURIComponent (generateNewAlias "Config" i loc opts) }
      (by
        apply wfUrl_parts u _ _ _ hwu
        · rw [if_pos hc] at hhostwf
          exact hhostwf
        · exact hsearchwf)
    rw [show ({ u with host := opts.customCDN } : UrlObj).search = u.search from rfl]
    rw [this]
    rw [if_pos hc]
  · rw [Bool.not_eq_true] at hc
    rw [hc]
    simp only [if_neg (by simp : ¬(false = true))]
    have := parseUrl_serializeUrl
      { u with
        search := (if (urlStages u opts).2 then serializeQuery (urlStages u opts).1
          else u.search),
        hash := encodeURIComponent (generateNewAlias "Config" i loc opts) }
      (by
        apply wfUrl_parts u _ _ _ hwu
        · rw [hc, if_neg (by simp)] at hhostwf
          exact hhostwf
        · exact hsearchwf)
    rw [this]

/-! ### VMess decode machinery -/

theorem replaceOnceAux_pre (pat s : List Char) :
    replaceOnceAux (pat ++ s) pat [] = s := by
  cases pat with
  | nil =>
    rw [List.nil_append]
    cases s with
    | nil => rfl
    | cons c cs =>
      rw [replaceOnceAux, if_pos (by rw [List.isPrefixOf_iff_prefix]; exact List.nil_prefix)]
      rfl
  | cons p ps =>
    rw [List.cons_append, replaceOnceAux, if_pos (by
      rw [List.isPrefixOf_iff_prefix, ← List.cons_append]
      exact List.prefix_append _ _)]
    rw [List.nil_append, ← List.cons_append, List.drop_left]

theorem jsReplace_pre (pre s : String) : jsReplace (pre ++ s) pre "" = s := by
  unfold jsReplace
  rw [String.data_append, show ("" : String).data = [] from rfl, replaceOnceAux_pre,
    string_mk_data]

theorem jsonStringify_ne_empty (j : Json) : jsonStringify j ≠ "" := by
  unfold jsonStringify
  intro h
  have h2 : printJson j = [] := congrArg String.data h
  exact printJson_ne_nil j h2

/-- Feeding `processVmess` a link whose payload is a well-formed object
reduces it to the `vmessTransform` pipeline. -/
theorem processVmess_obj (fs : List (String × Json)) (opts : ProcessingOptions)
    (i : Nat) (loc : Option LocationData) (hwf : wfJson (Json.obj fs) = true) :
    processVmess ("vmess://" ++ safeB64Encode (jsonStringify (Json.obj fs))) opts i loc
      = "vmess://" ++ safeB64Encode (jsonStringify (vmessTransform (Json.obj fs) opts i loc)) := by
  unfold processVmess
  rw [jsReplace_pre]
  simp [safeB64Decode_encode, jsonParse_print _ hwf, jsonStringify_ne_empty (Json.obj fs)]

/-- Decoding a rebuilt VMess link recovers the transformed configuration. -/
theorem vmess_decode (j2 : Json) (hwf2 : wfJson j2 = true) :
    jsonParse (safeB64Decode (jsReplace ("vmess://" ++ safeB64Encode (jsonStringify j2))
      "vmess://" "")) = some j2 := by
  rw [jsReplace_pre, safeB64Decode_encode, jsonParse_print _ hwf2]

theorem wfJson_str (s : String) : wfJson (Json.str s) = true := by
  rw [wfJson] <;> simp

theorem lookupField_wf (fs : List (String × Json)) (k : String) (w : Json)
    (hwf : wfFields fs = true) (h : lookupField fs k = some w) : wfJson w = true := by
  induction fs with
  | nil => simp [lookupField] at h
  | cons kv fs ih =>
    obtain ⟨k1, v1⟩ := kv
    rw [show wfFields ((k1, v1) :: fs) = (wfJson v1 && wfFields fs) from by
      rw [wfFields]] at hwf
    rw [Bool.and_eq_true] at hwf
    rw [lookupField] at h
    split_ifs at h with h1
    · injection h with h2
      subst h2
      exact hwf.1
    · exact ih hwf.2 h

theorem getField_wf (j : Json) (k : String) (w : Json)
    (hwf : wfJson j = true) (h : getField j k = some w) : wfJson w = true := by
  cases j <;> simp [getField] at h
  rename_i fs
  rw [show wfJson (Json.obj fs) = (keysDistinct fs && wfFields fs) from by rw [wfJson]] at hwf
  rw [Bool.and_eq_true] at hwf
  exact lookupField_wf fs k w hwf.2 h

theorem wfJson_vmessCdn (j : Json) (opts : ProcessingOptions)
    (h : wfJson j = true) : wfJson (vmessCdn j opts) = true := by
  unfold vmessCdn
  split_ifs with h1
  · simp only []
    have hA : wfJson (setField j "add" (Json.str opts.customCDN)) = true :=
      wfJson_setField _ _ _ (wfJson_str _) h
    have hB : wfJson (if jsEmptyField (getField (setField j "add" (Json.str opts.customCDN))
        "host") then
        setFieldOpt (setField j "add" (Json.str opts.customCDN)) "host" (getField j "add")
      else setField j "add" (Json.str opts.customCDN)) = true := by
      split_ifs with h2
      · exact wfJson_setFieldOpt _ _ _ (fun w hw => getField_wf j "add" w h hw) hA
      · exact hA
    split_ifs with h2 h3 h4
    · exact wfJson_setFieldOpt _ _ _ (fun w hw => getField_wf j "add" w h hw)
        (by rw [if_pos h2] at hB; exact hB)
    · rw [if_pos h2] at hB
      exact hB
    · exact wfJson_setFieldOpt _ _ _ (fun w hw => getField_wf j "add" w h hw)
        (by rw [if_neg h2] at hB; exact hB)
    · rw [if_neg h2] at hB
      exact hB
  · exact h

theorem wfJson_ite (b : Prop) [Decidable b] (x y : Json) (hx : wfJson x = true)
    (hy : wfJson y = true) : wfJson (if b then x else y) = true := by
  split_ifs <;> assumption

theorem wfJson_vmessTransform (j : Json) (opts : ProcessingOptions) (i : Nat)
    (loc : Option LocationData) (h : wfJson j = true) :
    wfJson (vmessTransform j opts i loc) = true := by
  have h1 : wfJson (vmessCdn j opts) = true := wfJson_vmessCdn j opts h
  have hmuxwf : wfJson (Json.obj [("enabled", Json.bool true),
      ("concurrency", Json.num (if opts.muxConcurrency = 0 then 8
        else opts.muxConcurrency))]) = true := by
    rw [show wfJson (Json.obj [("enabled", Json.bool true),
        ("concurrency", Json.num (if opts.muxConcurrency = 0 then 8 else opts.muxConcurrency))])
        = (keysDistinct [("enabled", Json.bool true),
            ("concurrency", Json.num (if opts.muxConcurrency = 0 then 8
              else opts.muxConcurrency))] &&
           wfFields [("enabled", Json.bool true),
            ("concurrency", Json.num (if opts.muxConcurrency = 0 then 8
              else opts.muxConcurrency))]) from by rw [wfJson]]
    rw [Bool.and_eq_true]
    constructor
    · simp [keysDistinct]
    · rw [wfFields, Bool.and_eq_true]
      refine ⟨by rw [wfJson] <;> simp, ?_⟩
      rw [wfFields, Bool.and_eq_true]
      refine ⟨by rw [wfJson] <;> simp, by rw [wfFields]⟩
  unfold vmessTransform
  simp only []
  apply wfJson_setField _ _ _ (wfJson_str _)
  apply wfJson_ite
  · apply wfJson_setField _ _ _ (wfJson_str _)
    apply wfJson_ite
    · exact wfJson_setField _ _ _ hmuxwf h1
    · exact h1
  · apply wfJson_ite
    · exact wfJson_setField _ _ _ hmuxwf h1
    · exact h1

/-! ### Option-off reductions -/

theorem urlCdnOn_off (ps : List (String × String)) (opts : ProcessingOptions)
    (h : opts.enableCDNIP = false) : urlCdnOn ps opts = false := by
  unfold urlCdnOn
  simp [h]

theorem stageHost_off (c : Bool) (oh : String) (st : List (String × String) × Bool)
    (h : c = false) : stageHost c oh st = st := by
  unfold stageHost
  rw [if_neg (fun hc => by rw [h] at hc; exact absurd hc.1 (by simp))]

theorem stageSni_off (c : Bool) (oh : String) (st : List (String × String) × Bool)
    (h : c = false) : stageSni c oh st = st := by
  unfold stageSni
  rw [if_neg (fun hc => by rw [h] at hc; exact absurd hc.1 (by simp))]

theorem stageMux_off (o : ProcessingOptions) (st : List (String × String) × Bool)
    (h : o.enableMux = false) : stageMux o st = st := by
  unfold stageMux
  rw [if_neg (fun hc => by rw [h] at hc; exact absurd hc (by simp))]

theorem stageFrag_off (o : ProcessingOptions) (st : List (String × String) × Bool)
    (h : o.enableFragment = false) : stageFrag o st = st := by
  unfold stageFrag
  rw [if_neg (fun hc => by rw [h] at hc; exact absurd hc (by simp))]

theorem stageAllowIns_off (o : ProcessingOptions) (st : List (String × String) × Bool)
    (h : o.allowInsecure = false) : stageAllowIns o st = st := by
  unfold stageAllowIns
  rw [if_neg (fun hc => by rw [h] at hc; exact absurd hc (by simp))]

theorem stageAlpn_off (o : ProcessingOptions) (st : List (String × String) × Bool)
    (h : o.enableALPN = false) : stageAlpn o st = st := by
  unfold stageAlpn
  rw [if_neg (fun hc => by rw [h] at hc; exact absurd hc.1 (by simp))]

theorem urlStages_off (u : UrlObj) (opts : ProcessingOptions)
    (h1 : opts.enableCDNIP = false) (h2 : opts.enableMux = false)
    (h3 : opts.enableFragment = false) (h4 : opts.allowInsecure = false)
    (h5 : opts.enableALPN = false) :
    urlStages u opts = (parseQuery u.search, false) := by
  unfold urlStages
  simp only []
  rw [stageHost_off _ _ _ (urlCdnOn_off _ _ h1), stageSni_off _ _ _ (urlCdnOn_off _ _ h1),
    stageMux_off _ _ h2, stageFrag_off _ _ h3, stageAllowIns_off _ _ h4,
    stageAlpn_off _ _ h5]

theorem vmessCdn_off (j : Json) (opts : ProcessingOptions)
    (h : opts.enableCDNIP = false) : vmessCdn j opts = j := by
  unfold vmessCdn
  rw [if_neg (fun hc => by rw [h] at hc; exact absurd hc.1 (by simp))]

theorem vmessTransform_off (j : Json) (opts : ProcessingOptions) (i : Nat)
    (loc : Option LocationData) (h1 : opts.enableCDNIP = false)
    (h2 : opts.enableMux = false) (h3 : opts.enableALPN = false) :
    vmessTransform j opts i loc = setField j "ps"
      (Json.str (generateNewAlias (psString (getField j "ps")) i loc opts)) := by
  unfold vmessTransform
  simp only []
  rw [vmessCdn_off j opts h1]
  rw [if_neg (show ¬(opts.enableMux = true) from fun hc => by
    rw [h2] at hc; exact absurd hc (by simp))]
  rw [if_neg (show ¬(opts.enableALPN = true ∧ getField j "tls" = some (Json.str "tls")) from
    fun hc => by rw [h3] at hc; exact absurd hc.1 (by simp))]

theorem b64PadLen_le : ∀ bs : List Nat, b64PadLen bs ≤ 2
  | [] => by simp [b64PadLen]
  | [_] => by simp [b64PadLen]
  | [_, _] => by simp [b64PadLen]
  | _ :: _ :: _ :: rest => by
    rw [show b64PadLen (_ :: _ :: _ :: rest) = b64PadLen rest from rfl]
    exact b64PadLen_le rest

theorem b64Char_toNat_vals (n : Nat) :
    (b64Char n).toNat = 43 ∨ (b64Char n).toNat = 47 ∨
    (48 ≤ (b64Char n).toNat ∧ (b64Char n).toNat ≤ 57) ∨
    (65 ≤ (b64Char n).toNat ∧ (b64Char n).toNat ≤ 90) ∨
    (97 ≤ (b64Char n).toNat ∧ (b64Char n).toNat ≤ 122) := by
  unfold b64Char
  split_ifs with h1 h2 h3 h4
  · rw [char_toNat_ofNat_small _ (by omega)]; omega
  · rw [char_toNat_ofNat_small _ (by omega)]; omega
  · rw [char_toNat_ofNat_small _ (by omega)]; omega
  · rw [char_toNat_ofNat_small _ (by omega)]; omega
  · rw [char_toNat_ofNat_small _ (by omega)]; omega

/-- The URL-safe alphabet swap of a Base64 digit: its code point set. -/
theorem swap_b64_toNat (n : Nat) :
    (if b64Char n = '+' then '-' else if b64Char n = '/' then '_' else b64Char n).toNat = 45 ∨
    (if b64Char n = '+' then '-' else if b64Char n = '/' then '_' else b64Char n).toNat = 95 ∨
    (48 ≤ (if b64Char n = '+' then '-' else if b64Char n = '/' then '_' else b64Char n).toNat ∧
      (if b64Char n = '+' then '-' else if b64Char n = '/' then '_' else b64Char n).toNat ≤ 57) ∨
    (65 ≤ (if b64Char n = '+' then '-' else if b64Char n = '/' then '_' else b64Char n).toNat ∧
      (if b64Char n = '+' then '-' else if b64Char n = '/' then '_' else b64Char n).toNat ≤ 90) ∨
    (97 ≤ (if b64Char n = '+' then '-' else if b64Char n = '/' then '_' else b64Char n).toNat ∧
      (if b64Char n = '+' then '-' else if b64Char n = '/' then '_' else b64Char n).toNat ≤ 122) := by
  have hv := b64Char_toNat_vals n
  split_ifs with h1 h2
  · left; decide
  · right; left; decide
  · have h1n : (b64Char n).toNat ≠ 43 := fun hc => h1 (char_eq_of_toNat (by rw [hc]; decide))
    have h2n : (b64Char n).toNat ≠ 47 := fun hc => h2 (char_eq_of_toNat (by rw [hc]; decide))
    omega

/-- Swapping to the URL-safe alphabet and back is the identity on a Base64
digit. -/
theorem fix_swap_b64 (n : Nat) :
    (fun c => if c = '-' then '+' else if c = '_' then '/' else c)
      ((fun c => if c = '+' then '-' else if c = '/' then '_' else c) (b64Char n))
      = b64Char n := by
  have hv := b64Char_toNat_vals n
  simp only []
  by_cases h1 : b64Char n = '+'
  · rw [if_pos h1, if_pos rfl, h1]
  · rw [if_neg h1]
    by_cases h2 : b64Char n = '/'
    · rw [if_pos h2, if_neg (by decide), if_pos rfl, h2]
    · rw [if_neg h2]
      have h1n : (b64Char n).toNat ≠ 43 := fun hc => h1 (char_eq_of_toNat (by rw [hc]; decide))
      have h2n : (b64Char n).toNat ≠ 47 := fun hc => h2 (char_eq_of_toNat (by rw [hc]; decide))
      rw [if_neg (show ¬(b64Char n = '-') from fun hc => by
        have h45 : (b64Char n).toNat = 45 := by rw [hc]; decide
        omega)]
      rw [if_neg (show ¬(b64Char n = '_') from fun hc => by
        have h95 : (b64Char n).toNat = 95 := by rw [hc]; decide
        omega)]

theorem eqCh_swap :
    (if eqCh = '+' then '-' else if eqCh = '/' then '_' else eqCh) = eqCh := by
  rw [show eqCh = '=' from rfl]
  decide

/-- The URL-safe encoder's output is the swapped padding-free core of the
standard encoding. -/
theorem safeBase64UrlEncode_data (s : String) :
    (safeBase64UrlEncode s).data = (b64EncodeCore (utf8Encode s.data)).map
      (fun c => if c = '+' then '-' else if c = '/' then '_' else c) := by
  unfold safeBase64UrlEncode safeB64Encode
  simp only []
  unfold b64EncodeBytes
  rw [List.map_append, List.map_replicate, eqCh_swap, List.reverse_append,
    List.reverse_replicate]
  rw [dropWhile_append_all _ _ _ (fun c hc => by
    rw [List.eq_of_mem_replicate hc]
    simp)]
  rw [show ((b64EncodeCore (utf8Encode s.data)).map
      (fun c => if c = '+' then '-' else if c = '/' then '_' else c)).reverse.dropWhile
      (fun c => decide (c = eqCh))
      = ((b64EncodeCore (utf8Encode s.data)).map
        (fun c => if c = '+' then '-' else if c = '/' then '_' else c)).reverse from ?_]
  · rw [List.reverse_reverse]
  · cases hrev : ((b64EncodeCore (utf8Encode s.data)).map
        (fun c => if c = '+' then '-' else if c = '/' then '_' else c)).reverse with
    | nil => rfl
    | cons c rest =>
      have hmem : c ∈ (b64EncodeCore (utf8Encode s.data)).map
          (fun c => if c = '+' then '-' else if c = '/' then '_' else c) := by
        have : c ∈ ((b64EncodeCore (utf8Encode s.data)).map
            (fun c => if c = '+' then '-' else if c = '/' then '_' else c)).reverse := by
          rw [hrev]; simp
        simpa using this
      obtain ⟨c0, hc0, rfl⟩ := List.mem_map.mp hmem
      obtain ⟨n, rfl⟩ := b64EncodeCore_mem _ _ hc0
      rw [List.dropWhile_cons]
      rw [if_neg (by
        have hs := swap_b64_toNat n
        simp only [decide_eq_true_eq]
        intro hc
        rw [hc] at hs
        have he : eqCh.toNat = 61 := by decide
        omega)]

/-- Round trip of the URL-safe Base64 pair: decode of encode is the
identity. -/
theorem safeBase64Url_roundtrip (s : String) :
    safeBase64UrlDecode (safeBase64UrlEncode s) = s := by
  unfold safeBase64UrlDecode
  simp only []
  rw [safeBase64UrlEncode_data]
  rw [show fixUrlChars ((b64EncodeCore (utf8Encode s.data)).map
      (fun c => if c = '+' then '-' else if c = '/' then '_' else c))
      = b64EncodeCore (utf8Encode s.data) from by
    unfold fixUrlChars
    rw [List.map_map]
    have hcg : (b64EncodeCore (utf8Encode s.data)).map
        ((fun c => if c = '-' then '+' else if c = '_' then '/' else c) ∘
          (fun c => if c = '+' then '-' else if c = '/' then '_' else c))
        = (b64EncodeCore (utf8Encode s.data)).map id :=
      List.map_congr_left (fun c hc => by
        simp only [Function.comp_apply, id]
        obtain ⟨n, rfl⟩ := b64EncodeCore_mem _ _ hc
        exact fix_swap_b64 n)
    rw [hcg, List.map_id]]
  rw [show (4 - (b64EncodeCore (utf8Encode s.data)).length % 4) % 4
      = b64PadLen (utf8Encode s.data) from by
    have hlen := b64EncodeBytes_len (utf8Encode s.data)
    have hple := b64PadLen_le (utf8Encode s.data)
    unfold b64EncodeBytes at hlen
    rw [List.length_append, List.length_replicate] at hlen
    omega]
  rw [show b64EncodeCore (utf8Encode s.data) ++ List.replicate (b64PadLen (utf8Encode s.data)) eqCh
      = b64EncodeBytes (utf8Encode s.data) from rfl]
  exact safeB64Decode_encode s

/-- Every character of the URL-safe encoding is a swapped Base64 digit:
code point 45, 95, a digit, or a letter. -/
theorem safeBase64UrlEncode_toNat (s : String) (c : Char)
    (hc : c ∈ (safeBase64UrlEncode s).data) :
    c.toNat = 45 ∨ c.toNat = 95 ∨ (48 ≤ c.toNat ∧ c.toNat ≤ 57) ∨
    (65 ≤ c.toNat ∧ c.toNat ≤ 90) ∨ (97 ≤ c.toNat ∧ c.toNat ≤ 122) := by
  rw [safeBase64UrlEncode_data] at hc
  obtain ⟨c0, hc0, rfl⟩ := List.mem_map.mp hc
  obtain ⟨n, rfl⟩ := b64EncodeCore_mem _ _ hc0
  exact swap_b64_toNat n

theorem safeBase64UrlEncode_not_contains (s : String) (c : Char)
    (hcn : c.toNat = 35 ∨ c.toNat = 64) :
    (safeBase64UrlEncode s).data.contains c = false := by
  cases hcont : (safeBase64UrlEncode s).data.contains c with
  | false => rfl
  | true =>
    exfalso
    have hmem : c ∈ (safeBase64UrlEncode s).data := List.elem_iff.mp hcont
    have := safeBase64UrlEncode_toNat s c hmem
    omega

theorem contains_append_false (l1 l2 : List Char) (c : Char)
    (h1 : l1.contains c = false) (h2 : l2.contains c = false) :
    (l1 ++ l2).contains c = false := by
  cases hcont : (l1 ++ l2).contains c with
  | false => rfl
  | true =>
    exfalso
    rcases List.mem_append.mp (List.elem_iff.mp hcont) with hm | hm
    · have he := List.elem_iff.mpr hm
      rw [show List.elem c l1 = l1.contains c from rfl, h1] at he
      exact absurd he (by simp)
    · have he := List.elem_iff.mpr hm
      rw [show List.elem c l2 = l2.contains c from rfl, h2] at he
      exact absurd he (by simp)

theorem contains_append_right (l1 l2 : List Char) (c : Char)
    (h : l2.contains c = true) : (l1 ++ l2).contains c = true :=
  List.elem_iff.mpr (List.mem_append.mpr (Or.inr (List.elem_iff.mp h)))

theorem strStarts_append (p x : String) : strStarts (p ++ x) p = true := by
  unfold strStarts
  rw [String.data_append]
  exact List.isPrefixOf_iff_prefix.mpr (List.prefix_append _ _)

theorem stripPre_append (p x : String) : stripPre (p ++ x) p = x := by
  unfold stripPre
  rw [String.data_append]
  rw [if_pos (List.isPrefixOf_iff_prefix.mpr (List.prefix_append _ _))]
  rw [List.drop_left]

theorem not_mem_of_contains_false (l : List Char) (c : Char)
    (h : l.contains c = false) : ∀ x ∈ l, x ≠ c := by
  intro x hx he
  subst he
  have hel := List.elem_iff.mpr hx
  rw [show List.elem x l = l.contains x from rfl, h] at hel
  exact absurd hel (by simp)

theorem idxOfChAux_none : ∀ (l : List Char) (c : Char) (i : Nat),
    (∀ x ∈ l, x ≠ c) → idxOfChAux l c i = none
  | [], _, _ => fun _ => rfl
  | a :: l, c, i => fun h => by
    unfold idxOfChAux
    rw [if_neg (h a (by simp))]
    exact idxOfChAux_none l c (i + 1) (fun x hx => h x (by simp [hx]))

theorem idxOfCh_none (l : List Char) (c : Char) (h : ∀ x ∈ l, x ≠ c) :
    idxOfCh l c = none := idxOfChAux_none l c 0 h

/-- The SSR handler on a decomposed payload: the main
`host:port:protocol:method:obfs:password` part survives verbatim and only
the `remarks` query parameter is rewritten. -/
theorem processSSR_out (main q : String) (opts : ProcessingOptions) (i : Nat)
    (loc : Option LocationData)
    (hsplit : splitOnStr (main ++ "/?" ++ q).data ['/', '?'] = [main.data, q.data]) :
    processSSR ("ssr://" ++ safeBase64UrlEncode (main ++ "/?" ++ q)) opts i loc
      = "ssr://" ++ safeBase64UrlEncode (main ++ "/?" ++ serializeQuery
          (setParam (parseQuery q) "remarks"
            (safeBase64UrlEncode (generateNewAlias "SSR" i loc opts)))) := by
  unfold processSSR
  simp only []
  rw [show stripPre ("ssr://" ++ safeBase64UrlEncode (main ++ "/?" ++ q)) "ssr://"
      = safeBase64UrlEncode (main ++ "/?" ++ q) from stripPre_append _ _]
  rw [safeBase64Url_roundtrip]
  rw [hsplit]
  rw [if_neg (by simp)]
  simp only [List.headD, List.drop, string_mk_data]

/-- The legacy-SS preprocessing: a fully Base64 body that decodes to a
standard `method:password@host:port` form is rewritten to the standard
link before parsing, so processing the encoded link equals processing the
decoded one. -/
theorem processUrlBased_legacy (creds : String) (opts : ProcessingOptions) (i : Nat)
    (loc : Option LocationData) (u' : UrlObj)
    (hat : creds.data.contains '@' = true)
    (hparse : parseUrl ("ss://" ++ creds) = some u') :
    processUrlBased ("ss://" ++ safeBase64UrlEncode creds) opts i loc
      = processUrlBased ("ss://" ++ creds) opts i loc := by
  have hcontF : ("ss://" ++ safeBase64UrlEncode creds).data.contains '@' = false := by
    rw [String.data_append]
    exact contains_append_false _ _ _ (by decide)
      (safeBase64UrlEncode_not_contains creds '@' (by decide))
  have hcT : ("ss://" ++ creds).data.contains '@' = true := by
    rw [String.data_append]
    exact contains_append_right _ _ _ hat
  have hparts : legacySsParts ("ss://" ++ safeBase64UrlEncode creds)
      = (safeBase64UrlEncode creds, "") := by
    unfold legacySsParts
    rw [idxOfCh_none _ _ (fun x hx => by
      rw [String.data_append] at hx
      rcases List.mem_append.mp hx with hm | hm
      · exact (show ∀ y ∈ ("ss://").data, y ≠ '#' from by decide) x hm
      · exact not_mem_of_contains_false _ _
          (safeBase64UrlEncode_not_contains creds '#' (by decide)) x hm)]
    rw [String.data_append]
    rw [show (5 : Nat) = ("ss://").data.length from rfl, List.drop_left]
  unfold processUrlBased
  simp only []
  rw [if_pos ⟨strStarts_append ("ss://") (safeBase64UrlEncode creds), by rw [hcontF]; simp⟩]
  rw [hparts]
  simp only []
  rw [safeBase64Url_roundtrip]
  rw [if_pos hat]
  rw [if_neg (fun hc => hc.2 hcT)]
  rw [show "ss://" ++ creds ++ "" = "ss://" ++ creds from by simp]
  rw [hparse]

theorem vmessWsGrpc_tcp (fs : List (String × Json))
    (hnet : getField (Json.obj fs) "net" = some (Json.str "tcp")) :
    vmessWsGrpc (Json.obj fs) = false := by
  unfold vmessWsGrpc
  rw [hnet]
  decide

/-- Outside the websocket/gRPC transports the VMess CDN block is the
identity. -/
theorem vmessCdn_not_wsgrpc (j : Json) (opts : ProcessingOptions)
    (h : vmessWsGrpc j = false) : vmessCdn j opts = j := by
  unfold vmessCdn
  rw [if_neg (fun hc => by rw [h] at hc; exact absurd hc.2.2 (by simp))]

/-- **C1** Round-trip identity: with every transformation option disabled
(`enableCDNIP`, `enableMux`, `enableFragment`, `allowInsecure`,
`enableALPN` all false), every supported protocol handler preserves the
link's identifying fields: a parseable VMess payload rewrites only the
display-name field `ps`; a standard URI link (vless/trojan/ss) preserves
scheme, userinfo, host, port, path and raw query, altering only the
fragment; an SSR link keeps its `host:port:protocol:method:obfs:password`
main part verbatim and every query parameter other than `remarks`; a
legacy Base64-body `ss://` link is first rewritten to its decoded standard
form and then preserves that form's userinfo (method and password), host,
port, path and query. Byte-for-byte equality is not claimed. -/
theorem C1_roundtrip_identity
    (fs : List (String × Json)) (L main q creds : String) (u u2ss : UrlObj)
    (opts : ProcessingOptions) (i : Nat) (loc : Option LocationData)
    (hcdnF : opts.enableCDNIP = false) (hmuxF : opts.enableMux = false)
    (hfragF : opts.enableFragment = false) (haiF : opts.allowInsecure = false)
    (halpnF : opts.enableALPN = false)
    (hwf : wfJson (Json.obj fs) = true)
    (hparse : parseUrl L = some u) (hwu : wfUrl u = true)
    (hss : strStarts L "ss://" = true → L.data.contains '@' = true)
    (hsplit : splitOnStr (main ++ "/?" ++ q).data ['/', '?'] = [main.data, q.data])
    (hat : creds.data.contains '@' = true)
    (hparse2 : parseUrl ("ss://" ++ creds) = some u2ss)
    (hwu2 : wfUrl u2ss = true) :
    (∃ fs2, jsonParse (safeB64Decode (jsReplace
        (processVmess ("vmess://" ++ safeB64Encode (jsonStringify (Json.obj fs))) opts i loc)
        "vmess://" "")) = some (Json.obj fs2) ∧
      ∀ key, key ≠ "ps" → lookupField fs2 key = lookupField fs key) ∧
    (∃ u2, parseUrl (processUrlBased L opts i loc) = some u2 ∧
      u2.scheme = u.scheme ∧ u2.userinfo = u.userinfo ∧ u2.host = u.host ∧
      u2.port = u.port ∧ u2.path = u.path ∧ u2.search = u.search) ∧
    (processSSR ("ssr://" ++ safeBase64UrlEncode (main ++ "/?" ++ q)) opts i loc
       = "ssr://" ++ safeBase64UrlEncode (main ++ "/?" ++ serializeQuery
           (setParam (parseQuery q) "remarks"
             (safeBase64UrlEncode (generateNewAlias "SSR" i loc opts)))) ∧
     ∀ k, k ≠ "remarks" → getParam (parseQuery (serializeQuery
         (setParam (parseQuery q) "remarks"
           (safeBase64UrlEncode (generateNewAlias "SSR" i loc opts))))) k
       = getParam (parseQuery q) k) ∧
    (∃ u2, parseUrl (processUrlBased ("ss://" ++ safeBase64UrlEncode creds) opts i loc)
        = some u2 ∧
      u2.scheme = u2ss.scheme ∧ u2.userinfo = u2ss.userinfo ∧ u2.host = u2ss.host ∧
      u2.port = u2ss.port ∧ u2.path = u2ss.path ∧ u2.search = u2ss.search) := by
  refine ⟨?_, ?_, ⟨processSSR_out main q opts i loc hsplit, ?_⟩, ?_⟩
  · rw [processVmess_obj fs opts i loc hwf]
    rw [vmess_decode _ (wfJson_vmessTransform (Json.obj fs) opts i loc hwf)]
    rw [vmessTransform_off _ _ _ _ hcdnF hmuxF halpnF]
    refine ⟨setKV fs "ps" (Json.str (generateNewAlias
      (psString (getField (Json.obj fs) "ps")) i loc opts)), rfl, ?_⟩
    intro key hkey
    exact lookupField_setKV_ne fs "ps" key _ hkey
  · have hout := processUrlBased_out L u opts i loc hparse hwu hss
      (fun hc => absurd hc (by rw [urlCdnOn_off _ _ hcdnF]; simp))
    rw [urlStages_off u opts hcdnF hmuxF hfragF haiF halpnF] at hout
    rw [urlCdnOn_off _ _ hcdnF] at hout
    simp only [if_neg (by simp : ¬(false = true))] at hout
    exact ⟨_, hout, rfl, rfl, rfl, rfl, rfl, rfl⟩
  · intro k hk
    rw [parseQuery_serializeQuery]
    exact getParam_setParam_other _ _ _ _ hk
  · rw [processUrlBased_legacy creds opts i loc u2ss hat hparse2]
    have hss2 : strStarts ("ss://" ++ creds) "ss://" = true →
        ("ss://" ++ creds).data.contains '@' = true := fun _ => by
      rw [String.data_append]
      exact contains_append_right _ _ _ hat
    have hout := processUrlBased_out ("ss://" ++ creds) u2ss opts i loc hparse2 hwu2 hss2
      (fun hc => absurd hc (by rw [urlCdnOn_off _ _ hcdnF]; simp))
    rw [urlStages_off _ opts hcdnF hmuxF hfragF haiF halpnF] at hout
    rw [urlCdnOn_off _ _ hcdnF] at hout
    simp only [if_neg (by simp : ¬(false = true))] at hout
    exact ⟨_, hout, rfl, rfl, rfl, rfl, rfl, rfl⟩

/-- Witness for C1 at a concrete VMess object, VLESS link, SSR link and
legacy Base64-body SS link. -/
theorem C1_roundtrip_identity_witness :
    (∃ fs2, jsonParse (safeB64Decode (jsReplace
        (processVmess ("vmess://" ++ safeB64Encode (jsonStringify (Json.obj
          [("add", Json.str "origin.example"), ("port", Json.str "443"),
           ("id", Json.str "uuid-1"), ("net", Json.str "ws"), ("tls", Json.str "tls"),
           ("ps", Json.str "old name")])))
          ⟨false, 8, false, "10", "1", false, false, false, false, false, "", false, "", ""⟩
          0 none)
        "vmess://" "")) = some (Json.obj fs2) ∧
      ∀ key, key ≠ "ps" → lookupField fs2 key = lookupField
        [("add", Json.str "origin.example"), ("port", Json.str "443"),
         ("id", Json.str "uuid-1"), ("net", Json.str "ws"), ("tls", Json.str "tls"),
         ("ps", Json.str "old name")] key) ∧
    (∃ u2, parseUrl (processUrlBased "vless://uuid@h.example.com:443?type=ws&security=tls#Old"
        ⟨false, 8, false, "10", "1", false, false, false, false, false, "", false, "", ""⟩
        0 none) = some u2 ∧
      u2.scheme = "vless" ∧ u2.userinfo = "uuid" ∧ u2.host = "h.example.com" ∧
      u2.port = "443" ∧ u2.path = "" ∧ u2.search = "type=ws&security=tls") ∧
    (processSSR ("ssr://" ++ safeBase64UrlEncode ("a.b:1:origin:rc4:plain:cHdk" ++ "/?" ++
          "group=dGVzdA"))
        ⟨false, 8, false, "10", "1", false, false, false, false, false, "", false, "", ""⟩
        0 none
       = "ssr://" ++ safeBase64UrlEncode ("a.b:1:origin:rc4:plain:cHdk" ++ "/?" ++
           serializeQuery (setParam (parseQuery "group=dGVzdA") "remarks"
             (safeBase64UrlEncode (generateNewAlias "SSR" 0 none
               ⟨false, 8, false, "10", "1", false, false, false, false, false, "", false, "",
                 ""⟩)))) ∧
     ∀ k, k ≠ "remarks" → getParam (parseQuery (serializeQuery
         (setParam (parseQuery "group=dGVzdA") "remarks"
           (safeBase64UrlEncode (generateNewAlias "SSR" 0 none
             ⟨false, 8, false, "10", "1", false, false, false, false, false, "", false, "",
               ""⟩))))) k
       = getParam (parseQuery "group=dGVzdA") k) ∧
    (∃ u2, parseUrl (processUrlBased
        ("ss://" ++ safeBase64UrlEncode "aes-256-cfb:pwd@h.example.com:8388")
        ⟨false, 8, false, "10", "1", false, false, false, false, false, "", false, "", ""⟩
        0 none) = some u2 ∧
      u2.scheme = "ss" ∧ u2.userinfo = "aes-256-cfb:pwd" ∧ u2.host = "h.example.com" ∧
      u2.port = "8388" ∧ u2.path = "" ∧ u2.search = "") :=
  C1_roundtrip_identity
    [("add", Json.str "origin.example"), ("port", Json.str "443"),
     ("id", Json.str "uuid-1"), ("net", Json.str "ws"), ("tls", Json.str "tls"),
     ("ps", Json.str "old name")]
    "vless://uuid@h.example.com:443?type=ws&security=tls#Old"
    "a.b:1:origin:rc4:plain:cHdk" "group=dGVzdA" "aes-256-cfb:pwd@h.example.com:8388"
    ⟨"vless", "uuid", "h.example.com", "443", "", "type=ws&security=tls", "Old"⟩
    ⟨"ss", "aes-256-cfb:pwd", "h.example.com", "8388", "", "", ""⟩
    ⟨false, 8, false, "10", "1", false, false, false, false, false, "", false, "", ""⟩
    0 none rfl rfl rfl rfl rfl (by decide) (by decide) (by decide) (by decide)
    (by decide) (by decide) (by decide) (by decide)


/-- Decimal rendering of the number one. -/
theorem natToChars_one : natToChars 1 = ['1'] := by
  rw [natToChars]
  rw [dif_pos (by omega)]
  decide

/-- With no location and no custom base name the first generated alias is
the default label with index one. -/
theorem generateNewAlias_zero (a : String) (opts : ProcessingOptions)
    (h : opts.customBaseName = "") : generateNewAlias a 0 none opts = "VS 1" := by
  unfold generateNewAlias
  rw [show (0 : Nat) + 1 = 1 from rfl, natToChars_one]
  simp only [h]
  rw [if_neg (fun hc => hc.1 rfl)]
  decide

/-- **C2** Invalid-input passthrough fails for SSR: `ssr://!!!` has a
Base64 payload that cannot be decoded, yet the per-line orchestrator step
does not return the line verbatim — the SSR handler rebuilds the link
around the empty decode, yielding a different line. (The handlers are
total functions, so the failure cannot abort the other lines.) -/
theorem C2_ssr_decode_failure_not_passthrough :
    processLine "ssr://!!!"
        ⟨false, 8, false, "10", "1", false, false, false, false, false, "", false, "", ""⟩
        0 none = "ssr://Lz9yZW1hcmtzPVZsTWdNUQ" ∧
      ¬ processLine "ssr://!!!"
        ⟨false, 8, false, "10", "1", false, false, false, false, false, "", false, "", ""⟩
        0 none = "ssr://!!!" := by
  have hmain : processLine "ssr://!!!"
      ⟨false, 8, false, "10", "1", false, false, false, false, false, "", false, "", ""⟩
      0 none = "ssr://Lz9yZW1hcmtzPVZsTWdNUQ" := by
    unfold processLine
    rw [if_neg (by decide), if_pos (by decide)]
    unfold processSSR
    rw [generateNewAlias_zero _ _ rfl]
    decide
  exact ⟨hmain, by rw [hmain]; decide⟩

/-- **C7** Alias construction: the generated alias is the space-joined
sequence of the location flag and country (present exactly when a location
with a non-empty country is supplied), the base label (the trimmed
`customBaseName` or the fixed default `VS`), and the 1-based decimal
index. -/
theorem C7_alias_construction (a : String) (i : Nat) (loc : Option LocationData)
    (opts : ProcessingOptions) :
    generateNewAlias a i loc opts =
      (match loc with
       | some l => if l.country ≠ "" then l.flag ++ " " ++ l.country ++ " " else ""
       | none => "") ++
      (if opts.customBaseName ≠ "" ∧ jsTrim opts.customBaseName ≠ "" then
        jsTrim opts.customBaseName
       else "VS") ++ " " ++ String.mk (natToChars (i + 1)) := by
  unfold generateNewAlias
  rcases loc with _ | l
  · simp only []
    split_ifs <;> simp only [joinWith, List.nil_append, List.cons_append,
      String.append_assoc] <;> rfl
  · simp only []
    split_ifs <;> simp only [joinWith, List.nil_append, List.cons_append,
      String.append_assoc] <;> rfl

/-- Witness for C7 with both a location and a custom base name present. -/
theorem C7_alias_construction_witness :
    generateNewAlias "ignored" 4 (some ⟨"FLAG", "United States", "", ""⟩)
        ⟨false, 8, false, "10", "1", false, false, false, false, false, "", false, "",
          " My Server "⟩
      = "FLAG" ++ " " ++ "United States" ++ " " ++ "My Server" ++ " " ++ "5" := by
  have h := C7_alias_construction "ignored" 4 (some ⟨"FLAG", "United States", "", ""⟩)
    ⟨false, 8, false, "10", "1", false, false, false, false, false, "", false, "",
      " My Server "⟩
  rw [h]
  rw [show natToChars (4 + 1) = ['5'] from by rw [natToChars]; rw [dif_pos (by omega)]; decide]
  decide

/-- **C10** The alias generator never reads the original display name: the
`originalAlias` argument does not occur in its body, so any two calls that
differ only in that argument agree definitionally. -/
theorem C10_alias_ignores_original_name (a1 a2 : String) (i : Nat)
    (loc : Option LocationData) (opts : ProcessingOptions) :
    generateNewAlias a1 i loc opts = generateNewAlias a2 i loc opts := rfl

/-- Witness for C10 at two very different original aliases. -/
theorem C10_alias_ignores_original_name_witness :
    generateNewAlias "Alice Prod Server" 7 none
        ⟨true, 4, true, "10", "1", true, true, true, true, true, "", true, "1.2.3.4", "X"⟩
      = generateNewAlias "" 7 none
        ⟨true, 4, true, "10", "1", true, true, true, true, true, "", true, "1.2.3.4", "X"⟩ :=
  C10_alias_ignores_original_name "Alice Prod Server" "" 7 none
    ⟨true, 4, true, "10", "1", true, true, true, true, true, "", true, "1.2.3.4", "X"⟩

/-! ### Field tracking through the transform stages -/

theorem getField_ite (b : Prop) [Decidable b] (x y : Json) (k : String) :
    getField (if b then x else y) k = if b then getField x k else getField y k := by
  split_ifs <;> rfl

theorem vmessTransform_get_ne (j : Json) (opts : ProcessingOptions) (i : Nat)
    (loc : Option LocationData) (k : String)
    (h1 : k ≠ "mux") (h2 : k ≠ "alpn") (h3 : k ≠ "ps") :
    getField (vmessTransform j opts i loc) k = getField (vmessCdn j opts) k := by
  unfold vmessTransform
  simp only []
  rw [getField_setField_ne _ _ _ _ h3, getField_ite, getField_setField_ne _ _ _ _ h2,
    ite_self, getField_ite, getField_setField_ne _ _ _ _ h1, ite_self]

theorem getParam_stageHost_ne (c : Bool) (oh : String) (st : List (String × String) × Bool)
    (k : String) (h : k ≠ "host") : getParam (stageHost c oh st).1 k = getParam st.1 k := by
  unfold stageHost
  split_ifs
  · exact getParam_setParam_other _ _ _ _ h
  · rfl

theorem getParam_stageSni_ne (c : Bool) (oh : String) (st : List (String × String) × Bool)
    (k : String) (h : k ≠ "sni") : getParam (stageSni c oh st).1 k = getParam st.1 k := by
  unfold stageSni
  split_ifs
  · exact getParam_setParam_other _ _ _ _ h
  · rfl

theorem getParam_stageMux_ne (o : ProcessingOptions) (st : List (String × String) × Bool)
    (k : String) (h1 : k ≠ "mux") (h2 : k ≠ "concurrency") :
    getParam (stageMux o st).1 k = getParam st.1 k := by
  unfold stageMux
  split_ifs
  · simp only []
    rw [getParam_setParam_other _ _ _ _ h2, getParam_setParam_other _ _ _ _ h1]
  · rfl

theorem getParam_stageFrag_ne (o : ProcessingOptions) (st : List (String × String) × Bool)
    (k : String) (h : k ≠ "fragment") : getParam (stageFrag o st).1 k = getParam st.1 k := by
  unfold stageFrag
  split_ifs
  · exact getParam_setParam_other _ _ _ _ h
  · rfl

theorem getParam_stageAllowIns_ne (o : ProcessingOptions)
    (st : List (String × String) × Bool) (k : String) (h : k ≠ "allowInsecure") :
    getParam (stageAllowIns o st).1 k = getParam st.1 k := by
  unfold stageAllowIns
  split_ifs
  · exact getParam_setParam_other _ _ _ _ h
  · rfl

theorem getParam_stageAlpn_ne (o : ProcessingOptions) (st : List (String × String) × Bool)
    (k : String) (h : k ≠ "alpn") : getParam (stageAlpn o st).1 k = getParam st.1 k := by
  unfold stageAlpn
  split_ifs
  · exact getParam_setParam_other _ _ _ _ h
  · rfl

/-- Host and sni survive the option stages that follow the CDN block. -/
theorem urlStages_get_tail (u : UrlObj) (opts : ProcessingOptions) (k : String)
    (h1 : k ≠ "mux") (h2 : k ≠ "concurrency") (h3 : k ≠ "fragment")
    (h4 : k ≠ "allowInsecure") (h5 : k ≠ "alpn") :
    getParam (urlStages u opts).1 k =
      getParam (stageSni (urlCdnOn (parseQuery u.search) opts) u.host
        (stageHost (urlCdnOn (parseQuery u.search) opts) u.host
          (parseQuery u.search, false))).1 k := by
  unfold urlStages
  simp only []
  rw [getParam_stageAlpn_ne _ _ _ h5, getParam_stageAllowIns_ne _ _ _ h4,
    getParam_stageFrag_ne _ _ _ h3, getParam_stageMux_ne _ _ _ h1 h2]

theorem getParam_none_of_not_has (ps : List (String × String)) (k : String)
    (h : hasParam ps k = false) : getParam ps k = none := by
  unfold hasParam at h
  cases hg : getParam ps k with
  | none => rfl
  | some v => rw [hg] at h; simp at h

/-- When the security parameter is none of the TLS-like values, the option
stages leave the `alpn` parameter untouched. -/
theorem urlStages_alpn_keep (u : UrlObj) (opts : ProcessingOptions)
    (hsec : ¬(getParam (parseQuery u.search) "security" = some "tls" ∨
      getParam (parseQuery u.search) "security" = some "reality" ∨
      getParam (parseQuery u.search) "security" = some "xtls")) :
    getParam (urlStages u opts).1 "alpn" = getParam (parseQuery u.search) "alpn" := by
  unfold urlStages
  simp only []
  have hsecE : getParam (stageAllowIns opts (stageFrag opts (stageMux opts
      (stageSni (urlCdnOn (parseQuery u.search) opts) u.host
        (stageHost (urlCdnOn (parseQuery u.search) opts) u.host
          (parseQuery u.search, false)))))).1 "security"
      = getParam (parseQuery u.search) "security" := by
    rw [getParam_stageAllowIns_ne _ _ _ (by decide), getParam_stageFrag_ne _ _ _ (by decide),
      getParam_stageMux_ne _ _ _ (by decide) (by decide),
      getParam_stageSni_ne _ _ _ _ (by decide), getParam_stageHost_ne _ _ _ _ (by decide)]
  unfold stageAlpn
  rw [hsecE]
  rw [if_neg (fun hc => hsec hc.2)]
  rw [getParam_stageAllowIns_ne _ _ _ (by decide), getParam_stageFrag_ne _ _ _ (by decide),
    getParam_stageMux_ne _ _ _ (by decide) (by decide),
    getParam_stageSni_ne _ _ _ _ (by decide), getParam_stageHost_ne _ _ _ _ (by decide)]

/-- The CDN field rewrite of the VMess handler, at the level of the three
affected fields. -/
theorem vmessCdn_fields (fs : List (String × Json)) (opts : ProcessingOptions)
    (origAdd : String)
    (hcdnT : opts.enableCDNIP = true) (hcc : opts.customCDN ≠ "")
    (hnet : getField (Json.obj fs) "net" = some (Json.str "ws") ∨
      getField (Json.obj fs) "net" = some (Json.str "grpc"))
    (hadd : getField (Json.obj fs) "add" = some (Json.str origAdd)) :
    getField (vmessCdn (Json.obj fs) opts) "add" = some (Json.str opts.customCDN) ∧
    getField (vmessCdn (Json.obj fs) opts) "host" =
      (if jsEmptyField (getField (Json.obj fs) "host") then some (Json.str origAdd)
       else getField (Json.obj fs) "host") ∧
    getField (vmessCdn (Json.obj fs) opts) "sni" =
      (if getField (Json.obj fs) "tls" = some (Json.str "tls") ∧
          jsEmptyField (getField (Json.obj fs) "sni") = true then some (Json.str origAdd)
       else getField (Json.obj fs) "sni") := by
  have hwg : vmessWsGrpc (Json.obj fs) = true := by
    unfold vmessWsGrpc
    rcases hnet with h | h <;> simp [h]
  unfold vmessCdn
  rw [if_pos ⟨hcdnT, hcc, hwg⟩]
  simp only []
  rw [hadd]
  rw [show getField (setField (Json.obj fs) "add" (Json.str opts.customCDN)) "host"
      = getField (Json.obj fs) "host" from getField_setField_ne _ _ _ _ (by decide)]
  by_cases hhe : jsEmptyField (getField (Json.obj fs) "host") = true
  · rw [if_pos hhe]
    rw [show setFieldOpt (setField (Json.obj fs) "add" (Json.str opts.customCDN)) "host"
        (some (Json.str origAdd))
        = setField (setField (Json.obj fs) "add" (Json.str opts.customCDN)) "host"
          (Json.str origAdd) from rfl]
    rw [show getField (setField (setField (Json.obj fs) "add" (Json.str opts.customCDN)) "host"
        (Json.str origAdd)) "tls" = getField (Json.obj fs) "tls" from by
      rw [getField_setField_ne _ _ _ _ (by decide), getField_setField_ne _ _ _ _ (by decide)]]
    rw [show getField (setField (setField (Json.obj fs) "add" (Json.str opts.customCDN)) "host"
        (Json.str origAdd)) "sni" = getField (Json.obj fs) "sni" from by
      rw [getField_setField_ne _ _ _ _ (by decide), getField_setField_ne _ _ _ _ (by decide)]]
    by_cases hsc : getField (Json.obj fs) "tls" = some (Json.str "tls") ∧
        jsEmptyField (getField (Json.obj fs) "sni") = true
    · rw [if_pos hsc, if_pos hsc]
      rw [show setFieldOpt (setField (setField (Json.obj fs) "add" (Json.str opts.customCDN))
          "host" (Json.str origAdd)) "sni" (some (Json.str origAdd))
          = setField (setField (setField (Json.obj fs) "add" (Json.str opts.customCDN))
            "host" (Json.str origAdd)) "sni" (Json.str origAdd) from rfl]
      refine ⟨?_, ?_, ?_⟩
      · rw [getField_setField_ne _ _ _ _ (by decide), getField_setField_ne _ _ _ _ (by decide)]
        exact getField_setField_self _ _ _ fs rfl
      · rw [getField_setField_ne _ _ _ _ (by decide), if_pos hhe]
        exact getField_setField_self _ _ _ (setKV fs "add" (Json.str opts.customCDN)) rfl
      · exact getField_setField_self _ _ _
          (setKV (setKV fs "add" (Json.str opts.customCDN)) "host" (Json.str origAdd)) rfl
    · rw [if_neg hsc, if_neg hsc]
      refine ⟨?_, ?_, ?_⟩
      · rw [getField_setField_ne _ _ _ _ (by decide)]
        exact getField_setField_self _ _ _ fs rfl
      · rw [if_pos hhe]
        exact getField_setField_self _ _ _ (setKV fs "add" (Json.str opts.customCDN)) rfl
      · rw [getField_setField_ne _ _ _ _ (by decide), getField_setField_ne _ _ _ _ (by decide)]
  · rw [if_neg hhe]
    rw [show getField (setField (Json.obj fs) "add" (Json.str opts.customCDN)) "tls"
        = getField (Json.obj fs) "tls" from getField_setField_ne _ _ _ _ (by decide)]
    rw [show getField (setField (Json.obj fs) "add" (Json.str opts.customCDN)) "sni"
        = getField (Json.obj fs) "sni" from getField_setField_ne _ _ _ _ (by decide)]
    by_cases hsc : getField (Json.obj fs) "tls" = some (Json.str "tls") ∧
        jsEmptyField (getField (Json.obj fs) "sni") = true
    · rw [if_pos hsc, if_pos hsc]
      rw [show setFieldOpt (setField (Json.obj fs) "add" (Json.str opts.customCDN)) "sni"
          (some (Json.str origAdd))
          = setField (setField (Json.obj fs) "add" (Json.str opts.customCDN)) "sni"
            (Json.str origAdd) from rfl]
      refine ⟨?_, ?_, ?_⟩
      · rw [getField_setField_ne _ _ _ _ (by decide)]
        exact getField_setField_self _ _ _ fs rfl
      · rw [getField_setField_ne _ _ _ _ (by decide), if_neg hhe]
        exact getField_setField_ne _ _ _ _ (by decide)
      · exact getField_setField_self _ _ _ (setKV fs "add" (Json.str opts.customCDN)) rfl
    · rw [if_neg hsc, if_neg hsc]
      refine ⟨?_, ?_, ?_⟩
      · exact getField_setField_self _ _ _ fs rfl
      · rw [if_neg hhe]
        exact getField_setField_ne _ _ _ _ (by decide)
      · exact getField_setField_ne _ _ _ _ (by decide)

/-- The host and sni parameters after the full stage pipeline, when the
CDN branch is live. -/
theorem urlStages_host_sni (u : UrlObj) (opts : ProcessingOptions)
    (hcdnOn : urlCdnOn (parseQuery u.search) opts = true) :
    getParam (urlStages u opts).1 "host" =
      (if hasParam (parseQuery u.search) "host" then getParam (parseQuery u.search) "host"
       else some u.host) ∧
    getParam (urlStages u opts).1 "sni" =
      (if hasParam (parseQuery u.search) "sni" then getParam (parseQuery u.search) "sni"
       else if getParam (parseQuery u.search) "security" = some "tls" ∨
           getParam (parseQuery u.search) "security" = some "reality" ∨
           getParam (parseQuery u.search) "security" = some "xtls" then some u.host
       else none) := by
  constructor
  · rw [urlStages_get_tail u opts "host" (by decide) (by decide) (by decide) (by decide)
      (by decide)]
    rw [getParam_stageSni_ne _ _ _ _ (by decide)]
    unfold stageHost
    by_cases hh : hasParam (parseQuery u.search) "host" = true
    · rw [if_neg (fun hc => hc.2 hh), if_pos hh]
    · rw [if_pos ⟨hcdnOn, fun hc => hh hc⟩]
      simp only []
      rw [getParam_setParam_self, if_neg hh]
  · rw [urlStages_get_tail u opts "sni" (by decide) (by decide) (by decide) (by decide)
      (by decide)]
    unfold stageSni
    have hsec : getParam (stageHost (urlCdnOn (parseQuery u.search) opts) u.host
        (parseQuery u.search, false)).1 "security" = getParam (parseQuery u.search) "security" :=
      getParam_stageHost_ne _ _ _ _ (by decide)
    have hsni : getParam (stageHost (urlCdnOn (parseQuery u.search) opts) u.host
        (parseQuery u.search, false)).1 "sni" = getParam (parseQuery u.search) "sni" :=
      getParam_stageHost_ne _ _ _ _ (by decide)
    have hsniHas : hasParam (stageHost (urlCdnOn (parseQuery u.search) opts) u.host
        (parseQuery u.search, false)).1 "sni" = hasParam (parseQuery u.search) "sni" := by
      unfold hasParam
      rw [hsni]
    rw [hsniHas, hsec]
    by_cases h1 : hasParam (parseQuery u.search) "sni" = true
    · rw [if_neg (fun hc => hc.2.1 h1), hsni, if_pos h1]
    · by_cases h2 : getParam (parseQuery u.search) "security" = some "tls" ∨
          getParam (parseQuery u.search) "security" = some "reality" ∨
          getParam (parseQuery u.search) "security" = some "xtls"
      · rw [if_pos ⟨hcdnOn, fun hc => h1 hc, h2⟩]
        simp only []
        rw [getParam_setParam_self, if_neg h1, if_pos h2]
      · rw [if_neg (fun hc => h2 hc.2.2), hsni, if_neg h1, if_neg h2]
        exact getParam_none_of_not_has _ _ (by
          rw [Bool.not_eq_true] at h1
          exact h1)

/-- **C3** CDN-IP substitution: with `enableCDNIP` on and a non-empty
`customCDN`, a websocket/gRPC VMess object gets its address replaced by the
CDN, the original address lands in `host` exactly when that field was
empty or absent, and in `sni` exactly when `sni` was empty or absent and
the security type is `tls`; a websocket/gRPC URI link gets its hostname
replaced by the CDN, with the original hostname written to the `host`
parameter exactly when absent, and to `sni` exactly when absent with
security `tls`, `reality` or `xtls`. -/
theorem C3_cdn_ip_substitution
    (fs : List (String × Json)) (origAdd : String) (L : String) (u : UrlObj)
    (opts : ProcessingOptions) (i : Nat) (loc : Option LocationData)
    (hcdnT : opts.enableCDNIP = true) (hcc : opts.customCDN ≠ "")
    (hwf : wfJson (Json.obj fs) = true)
    (hnet : getField (Json.obj fs) "net" = some (Json.str "ws") ∨
      getField (Json.obj fs) "net" = some (Json.str "grpc"))
    (hadd : getField (Json.obj fs) "add" = some (Json.str origAdd))
    (hparse : parseUrl L = some u) (hwu : wfUrl u = true)
    (hss : strStarts L "ss://" = true → L.data.contains '@' = true)
    (hcchars : opts.customCDN.data.all (fun c =>
      c ≠ ':' && c ≠ '/' && c ≠ '?' && c ≠ '#' && c ≠ '@' && c ≠ '[' && c ≠ ']') = true)
    (htyp : getParam (parseQuery u.search) "type" = some "ws" ∨
      getParam (parseQuery u.search) "type" = some "grpc") :
    (∃ j2, jsonParse (safeB64Decode (jsReplace
        (processVmess ("vmess://" ++ safeB64Encode (jsonStringify (Json.obj fs))) opts i loc)
        "vmess://" "")) = some j2 ∧
      getField j2 "add" = some (Json.str opts.customCDN) ∧
      getField j2 "host" = (if jsEmptyField (getField (Json.obj fs) "host") then
        some (Json.str origAdd) else getField (Json.obj fs) "host") ∧
      getField j2 "sni" = (if getField (Json.obj fs) "tls" = some (Json.str "tls") ∧
          jsEmptyField (getField (Json.obj fs) "sni") = true then some (Json.str origAdd)
        else getField (Json.obj fs) "sni")) ∧
    (∃ u2, parseUrl (processUrlBased L opts i loc) = some u2 ∧
      u2.host = opts.customCDN ∧
      getParam (parseQuery u2.search) "host" =
        (if hasParam (parseQuery u.search) "host" then getParam (parseQuery u.search) "host"
         else some u.host) ∧
      getParam (parseQuery u2.search) "sni" =
        (if hasParam (parseQuery u.search) "sni" then getParam (parseQuery u.search) "sni"
         else if getParam (parseQuery u.search) "security" = some "tls" ∨
             getParam (parseQuery u.search) "security" = some "reality" ∨
             getParam (parseQuery u.search) "security" = some "xtls" then some u.host
         else none)) := by
  constructor
  · rw [processVmess_obj fs opts i loc hwf]
    rw [vmess_decode _ (wfJson_vmessTransform (Json.obj fs) opts i loc hwf)]
    obtain ⟨hAdd, hHost, hSni⟩ := vmessCdn_fields fs opts origAdd hcdnT hcc hnet hadd
    refine ⟨vmessTransform (Json.obj fs) opts i loc, rfl, ?_, ?_, ?_⟩
    · rw [vmessTransform_get_ne _ _ _ _ _ (by decide) (by decide) (by decide)]
      exact hAdd
    · rw [vmessTransform_get_ne _ _ _ _ _ (by decide) (by decide) (by decide)]
      exact hHost
    · rw [vmessTransform_get_ne _ _ _ _ _ (by decide) (by decide) (by decide)]
      exact hSni
  · have hcdnOn : urlCdnOn (parseQuery u.search) opts = true := by
      unfold urlCdnOn urlIsWsOrGrpc
      rcases htyp with h | h <;> simp [hcdnT, hcc, h]
    have hout := processUrlBased_out L u opts i loc hparse hwu hss (fun _ => hcchars)
    rw [hcdnOn] at hout
    simp only [if_pos (rfl : (true : Bool) = true)] at hout
    obtain ⟨hHost, hSni⟩ := urlStages_host_sni u opts hcdnOn
    exact ⟨_, hout, rfl, by rw [urlStages_search u opts]; exact hHost,
      by rw [urlStages_search u opts]; exact hSni⟩

/-- Witness for C3: a websocket VMess object with empty host and `tls`
security, and a websocket VLESS link carrying neither `host` nor `sni`. -/
theorem C3_cdn_ip_substitution_witness :
    ((⟨true, 8, false, "10", "1", false, false, false, false, false, "", true, "77.88.99.1",
        ""⟩ : ProcessingOptions).enableCDNIP = true ∧
      wfJson (Json.obj [("add", Json.str "origin.example"), ("net", Json.str "ws"),
        ("tls", Json.str "tls"), ("ps", Json.str "x")]) = true ∧
      parseUrl "vless://uuid@h.example.com:443?type=ws&security=tls#Old"
        = some ⟨"vless", "uuid", "h.example.com", "443", "", "type=ws&security=tls", "Old"⟩) ∧
    ((∃ j2, jsonParse (safeB64Decode (jsReplace
        (processVmess ("vmess://" ++ safeB64Encode (jsonStringify (Json.obj
          [("add", Json.str "origin.example"), ("net", Json.str "ws"),
           ("tls", Json.str "tls"), ("ps", Json.str "x")])))
          ⟨true, 8, false, "10", "1", false, false, false, false, false, "", true, "77.88.99.1",
            ""⟩ 0 none)
        "vmess://" "")) = some j2 ∧
      getField j2 "add" = some (Json.str "77.88.99.1") ∧
      getField j2 "host" = (if jsEmptyField (getField (Json.obj
          [("add", Json.str "origin.example"), ("net", Json.str "ws"),
           ("tls", Json.str "tls"), ("ps", Json.str "x")]) "host") then
          some (Json.str "origin.example")
        else getField (Json.obj [("add", Json.str "origin.example"), ("net", Json.str "ws"),
          ("tls", Json.str "tls"), ("ps", Json.str "x")]) "host") ∧
      getField j2 "sni" = (if getField (Json.obj [("add", Json.str "origin.example"),
            ("net", Json.str "ws"), ("tls", Json.str "tls"), ("ps", Json.str "x")]) "tls"
            = some (Json.str "tls") ∧
          jsEmptyField (getField (Json.obj [("add", Json.str "origin.example"),
            ("net", Json.str "ws"), ("tls", Json.str "tls"), ("ps", Json.str "x")]) "sni")
            = true then some (Json.str "origin.example")
        else getField (Json.obj [("add", Json.str "origin.example"), ("net", Json.str "ws"),
          ("tls", Json.str "tls"), ("ps", Json.str "x")]) "sni"))) ∧
    (∃ u2, parseUrl (processUrlBased "vless://uuid@h.example.com:443?type=ws&security=tls#Old"
        ⟨true, 8, false, "10", "1", false, false, false, false, false, "", true, "77.88.99.1",
          ""⟩ 0 none) = some u2 ∧
      u2.host = "77.88.99.1" ∧
      getParam (parseQuery u2.search) "host" =
        (if hasParam (parseQuery "type=ws&security=tls") "host" then
          getParam (parseQuery "type=ws&security=tls") "host" else some "h.example.com") ∧
      getParam (parseQuery u2.search) "sni" =
        (if hasParam (parseQuery "type=ws&security=tls") "sni" then
          getParam (parseQuery "type=ws&security=tls") "sni"
         else if getParam (parseQuery "type=ws&security=tls") "security" = some "tls" ∨
             getParam (parseQuery "type=ws&security=tls") "security" = some "reality" ∨
             getParam (parseQuery "type=ws&security=tls") "security" = some "xtls" then
           some "h.example.com"
         else none)) :=
  ⟨⟨rfl, by decide, by decide⟩,
    C3_cdn_ip_substitution
      [("add", Json.str "origin.example"), ("net", Json.str "ws"),
       ("tls", Json.str "tls"), ("ps", Json.str "x")]
      "origin.example"
      "vless://uuid@h.example.com:443?type=ws&security=tls#Old"
      ⟨"vless", "uuid", "h.example.com", "443", "", "type=ws&security=tls", "Old"⟩
      ⟨true, 8, false, "10", "1", false, false, false, false, false, "", true, "77.88.99.1",
        ""⟩ 0 none
      rfl (by decide) (by decide) (by decide) (by decide) (by decide) (by decide)
      (by decide) (by decide) (by decide)⟩

/-- **C4** (corrected) CDN substitution precondition: a VMess configuration
with transport `net=tcp` keeps its address under the CDN options, and a
parseable URI link whose `type` is `tcp` keeps its address too — provided
the link also carries no gRPC markers (`mode=grpc` or a truthy
`serviceName`). The claim as stated, for every transport-`tcp` link, is
refuted by the counterexample: the guard also fires on `type=tcp` links
with a `serviceName` parameter. The unsupported combination is skipped
silently: the handler still returns a rewritten link, never an error. -/
theorem C4_cdn_tcp_noop
    (L : String) (u : UrlObj) (fs : List (String × Json)) (opts : ProcessingOptions)
    (i : Nat) (loc : Option LocationData)
    (_hcdnT : opts.enableCDNIP = true) (_hcc : opts.customCDN ≠ "")
    (hparse : parseUrl L = some u) (hwu : wfUrl u = true)
    (hss : strStarts L "ss://" = true → L.data.contains '@' = true)
    (htcp : getParam (parseQuery u.search) "type" = some "tcp")
    (hmode : getParam (parseQuery u.search) "mode" ≠ some "grpc")
    (hsvc : jsTruthyOptStr (getParam (parseQuery u.search) "serviceName") = false)
    (hwf : wfJson (Json.obj fs) = true)
    (hnet : getField (Json.obj fs) "net" = some (Json.str "tcp")) :
    (∃ u2, parseUrl (processUrlBased L opts i loc) = some u2 ∧ u2.host = u.host) ∧
    (∃ j2, jsonParse (safeB64Decode (jsReplace
        (processVmess ("vmess://" ++ safeB64Encode (jsonStringify (Json.obj fs))) opts i loc)
        "vmess://" "")) = some j2 ∧
      getField j2 "add" = getField (Json.obj fs) "add") := by
  constructor
  · have hwg : urlIsWsOrGrpc (parseQuery u.search) = false := by
      unfold urlIsWsOrGrpc
      simp [htcp, hmode, hsvc]
    have hcdnOff : urlCdnOn (parseQuery u.search) opts = false := by
      unfold urlCdnOn
      simp [hwg]
    have hout := processUrlBased_out L u opts i loc hparse hwu hss
      (fun hc => absurd hc (by rw [hcdnOff]; simp))
    rw [hcdnOff] at hout
    simp only [if_neg (by simp : ¬(false = true))] at hout
    exact ⟨_, hout, rfl⟩
  · rw [processVmess_obj fs opts i loc hwf]
    rw [vmess_decode _ (wfJson_vmessTransform (Json.obj fs) opts i loc hwf)]
    refine ⟨_, rfl, ?_⟩
    rw [vmessTransform_get_ne _ _ _ _ _ (by decide) (by decide) (by decide)]
    rw [vmessCdn_not_wsgrpc _ _ (vmessWsGrpc_tcp fs hnet)]


/-- Counterexample to C4 as frozen: a `type=tcp` link that also carries a
`serviceName` parameter still has its address replaced by the CDN. -/
theorem C4_cdn_tcp_noop_counterexample :
    ∃ u2, parseUrl (processUrlBased
        "vless://uuid@h.example.com:443?type=tcp&serviceName=svc#Old"
        ⟨false, 8, false, "10", "1", false, false, false, false, false, "", true, "1.2.3.4", ""⟩
        0 none) = some u2 ∧
      u2.host = "1.2.3.4" ∧ ¬(u2.host = "h.example.com") := by
  have hout := processUrlBased_out
    "vless://uuid@h.example.com:443?type=tcp&serviceName=svc#Old"
    ⟨"vless", "uuid", "h.example.com", "443", "", "type=tcp&serviceName=svc", "Old"⟩
    ⟨false, 8, false, "10", "1", false, false, false, false, false, "", true, "1.2.3.4", ""⟩
    0 none (by decide) (by decide) (by decide) (fun _ => by decide)
  rw [show urlCdnOn (parseQuery
      (⟨"vless", "uuid", "h.example.com", "443", "", "type=tcp&serviceName=svc", "Old"⟩
        : UrlObj).search)
      ⟨false, 8, false, "10", "1", false, false, false, false, false, "", true, "1.2.3.4", ""⟩
      = true from by decide] at hout
  simp only [if_pos (rfl : (true : Bool) = true)] at hout
  exact ⟨_, hout, rfl, by decide⟩

theorem setFieldOpt_obj (fs : List (String × Json)) (k : String) (ov : Option Json) :
    ∃ fs2, setFieldOpt (Json.obj fs) k ov = Json.obj fs2 := by
  cases ov with
  | some v => exact ⟨setKV fs k v, rfl⟩
  | none => exact ⟨removeKey fs k, rfl⟩

theorem vmessCdn_obj (fs : List (String × Json)) (opts : ProcessingOptions) :
    ∃ fs2, vmessCdn (Json.obj fs) opts = Json.obj fs2 := by
  unfold vmessCdn
  simp only []
  split_ifs with g1 g2 g3 g4
  · obtain ⟨f1, e1⟩ := setFieldOpt_obj (setKV fs "add" (Json.str opts.customCDN)) "host"
      (getField (Json.obj fs) "add")
    rw [show setField (Json.obj fs) "add" (Json.str opts.customCDN)
        = Json.obj (setKV fs "add" (Json.str opts.customCDN)) from rfl, e1]
    exact setFieldOpt_obj f1 "sni" _
  · obtain ⟨f1, e1⟩ := setFieldOpt_obj (setKV fs "add" (Json.str opts.customCDN)) "host"
      (getField (Json.obj fs) "add")
    rw [show setField (Json.obj fs) "add" (Json.str opts.customCDN)
        = Json.obj (setKV fs "add" (Json.str opts.customCDN)) from rfl, e1]
    exact ⟨f1, rfl⟩
  · exact setFieldOpt_obj (setKV fs "add" (Json.str opts.customCDN)) "sni" _
  · exact ⟨setKV fs "add" (Json.str opts.customCDN), rfl⟩
  · exact ⟨fs, rfl⟩

theorem getField_setField_self_obj (j : Json) (hj : ∃ fs, j = Json.obj fs)
    (k : String) (v : Json) : getField (setField j k v) k = some v := by
  obtain ⟨fs, rfl⟩ := hj
  exact getField_setField_self _ _ _ fs rfl

theorem obj_ite (b : Prop) [Decidable b] (x y : Json) (hx : ∃ fs, x = Json.obj fs)
    (hy : ∃ fs, y = Json.obj fs) : ∃ fs, (if b then x else y) = Json.obj fs := by
  split_ifs <;> assumption

theorem vmessCdn_get_ne (j : Json) (opts : ProcessingOptions) (k : String)
    (h1 : k ≠ "add") (h2 : k ≠ "host") (h3 : k ≠ "sni") :
    getField (vmessCdn j opts) k = getField j k := by
  unfold vmessCdn
  simp only []
  split_ifs with g1 g2 g3 g4
  · rw [getField_setFieldOpt_ne _ _ _ _ h3, getField_setFieldOpt_ne _ _ _ _ h2,
      getField_setField_ne _ _ _ _ h1]
  · rw [getField_setFieldOpt_ne _ _ _ _ h2, getField_setField_ne _ _ _ _ h1]
  · rw [getField_setFieldOpt_ne _ _ _ _ h3, getField_setField_ne _ _ _ _ h1]
  · rw [getField_setField_ne _ _ _ _ h1]
  · rfl

/-- The tls field survives the CDN and mux stages. -/
theorem vmessConfig2_tls (fs : List (String × Json)) (opts : ProcessingOptions) :
    getField (if opts.enableMux then
      setField (vmessCdn (Json.obj fs) opts) "mux" (Json.obj [("enabled", Json.bool true),
        ("concurrency", Json.num (if opts.muxConcurrency = 0 then 8
          else opts.muxConcurrency))])
      else vmessCdn (Json.obj fs) opts) "tls" = getField (Json.obj fs) "tls" := by
  rw [getField_ite, getField_setField_ne _ _ _ _ (by decide), ite_self]
  exact vmessCdn_get_ne _ _ _ (by decide) (by decide) (by decide)

/-- The ps field written by the VMess transform is exactly the generated
alias (whose originalAlias argument is irrelevant). -/
theorem vmessTransform_ps (fs : List (String × Json)) (opts : ProcessingOptions)
    (i : Nat) (loc : Option LocationData) :
    getField (vmessTransform (Json.obj fs) opts i loc) "ps"
      = some (Json.str (generateNewAlias "" i loc opts)) := by
  unfold vmessTransform
  simp only []
  obtain ⟨fsC, hC⟩ := vmessCdn_obj fs opts
  have hshape2 : ∃ g, (if opts.enableMux then
      setField (vmessCdn (Json.obj fs) opts) "mux" (Json.obj [("enabled", Json.bool true),
        ("concurrency", Json.num (if opts.muxConcurrency = 0 then 8
          else opts.muxConcurrency))])
      else vmessCdn (Json.obj fs) opts) = Json.obj g := by
    apply obj_ite
    · rw [hC]
      exact ⟨_, rfl⟩
    · exact ⟨fsC, hC⟩
  have hshape3 : ∃ g, (if opts.enableALPN = true ∧ getField (if opts.enableMux then
      setField (vmessCdn (Json.obj fs) opts) "mux" (Json.obj [("enabled", Json.bool true),
        ("concurrency", Json.num (if opts.muxConcurrency = 0 then 8
          else opts.muxConcurrency))])
      else vmessCdn (Json.obj fs) opts) "tls" = some (Json.str "tls") then
      setField (if opts.enableMux then
        setField (vmessCdn (Json.obj fs) opts) "mux" (Json.obj [("enabled", Json.bool true),
          ("concurrency", Json.num (if opts.muxConcurrency = 0 then 8
            else opts.muxConcurrency))])
        else vmessCdn (Json.obj fs) opts) "alpn" (Json.str "h2,http/1.1")
      else (if opts.enableMux then
        setField (vmessCdn (Json.obj fs) opts) "mux" (Json.obj [("enabled", Json.bool true),
          ("concurrency", Json.num (if opts.muxConcurrency = 0 then 8
            else opts.muxConcurrency))])
        else vmessCdn (Json.obj fs) opts)) = Json.obj g := by
    apply obj_ite
    · obtain ⟨g, hg⟩ := hshape2
      rw [hg]
      exact ⟨_, rfl⟩
    · exact hshape2
  rw [show generateNewAlias (psString (getField (if opts.enableALPN = true ∧
      getField (if opts.enableMux then
        setField (vmessCdn (Json.obj fs) opts) "mux" (Json.obj [("enabled", Json.bool true),
          ("concurrency", Json.num (if opts.muxConcurrency = 0 then 8
            else opts.muxConcurrency))])
        else vmessCdn (Json.obj fs) opts) "tls" = some (Json.str "tls") then
      setField (if opts.enableMux then
        setField (vmessCdn (Json.obj fs) opts) "mux" (Json.obj [("enabled", Json.bool true),
          ("concurrency", Json.num (if opts.muxConcurrency = 0 then 8
            else opts.muxConcurrency))])
        else vmessCdn (Json.obj fs) opts) "alpn" (Json.str "h2,http/1.1")
      else (if opts.enableMux then
        setField (vmessCdn (Json.obj fs) opts) "mux" (Json.obj [("enabled", Json.bool true),
          ("concurrency", Json.num (if opts.muxConcurrency = 0 then 8
            else opts.muxConcurrency))])
        else vmessCdn (Json.obj fs) opts)) "ps")) i loc opts
      = generateNewAlias "" i loc opts from rfl]
  exact getField_setField_self_obj _ hshape3 _ _

/-- The alpn parameter after the stage pipeline, when `enableALPN` is on
and the original security type is TLS-like. -/
theorem urlStages_alpn (u : UrlObj) (opts : ProcessingOptions)
    (halpnT : opts.enableALPN = true)
    (hsec : getParam (parseQuery u.search) "security" = some "tls" ∨
      getParam (parseQuery u.search) "security" = some "reality" ∨
      getParam (parseQuery u.search) "security" = some "xtls") :
    getParam (urlStages u opts).1 "alpn" = some "h2,http/1.1" := by
  unfold urlStages
  simp only []
  have hsecE : getParam (stageAllowIns opts (stageFrag opts (stageMux opts
      (stageSni (urlCdnOn (parseQuery u.search) opts) u.host
        (stageHost (urlCdnOn (parseQuery u.search) opts) u.host
          (parseQuery u.search, false)))))).1 "security"
      = getParam (parseQuery u.search) "security" := by
    rw [getParam_stageAllowIns_ne _ _ _ (by decide), getParam_stageFrag_ne _ _ _ (by decide),
      getParam_stageMux_ne _ _ _ (by decide) (by decide),
      getParam_stageSni_ne _ _ _ _ (by decide), getParam_stageHost_ne _ _ _ _ (by decide)]
  unfold stageAlpn
  rw [hsecE]
  rw [if_pos ⟨halpnT, hsec⟩]
  simp only []
  rw [getParam_setParam_self]

/-- With `enableALPN` on and security exactly `tls`, the VMess transform
writes the fixed ALPN list. -/
theorem vmessTransform_alpn_set (fs : List (String × Json)) (opts : ProcessingOptions)
    (i : Nat) (loc : Option LocationData) (halpnT : opts.enableALPN = true)
    (htls : getField (Json.obj fs) "tls" = some (Json.str "tls")) :
    getField (vmessTransform (Json.obj fs) opts i loc) "alpn"
      = some (Json.str "h2,http/1.1") := by
  unfold vmessTransform
  simp only []
  rw [getField_setField_ne _ _ _ _ (by decide)]
  rw [if_pos ⟨halpnT, by rw [vmessConfig2_tls]; exact htls⟩]
  apply getField_setField_self_obj
  apply obj_ite
  · obtain ⟨fsC, hC⟩ := vmessCdn_obj fs opts
    rw [hC]
    exact ⟨_, rfl⟩
  · exact vmessCdn_obj fs opts

/-- With any security type other than `tls`, the VMess transform leaves the
ALPN field untouched. -/
theorem vmessTransform_alpn_unchanged (fs : List (String × Json)) (opts : ProcessingOptions)
    (i : Nat) (loc : Option LocationData)
    (htls : ¬(getField (Json.obj fs) "tls" = some (Json.str "tls"))) :
    getField (vmessTransform (Json.obj fs) opts i loc) "alpn"
      = getField (Json.obj fs) "alpn" := by
  unfold vmessTransform
  simp only []
  rw [getField_setField_ne _ _ _ _ (by decide)]
  rw [if_neg (fun hc => htls (by rw [← vmessConfig2_tls fs opts]; exact hc.2))]
  rw [getField_ite, getField_setField_ne _ _ _ _ (by decide), ite_self]
  exact vmessCdn_get_ne _ _ _ (by decide) (by decide) (by decide)

/-- **C5** (corrected) ALPN override: with `enableALPN` on, a URI link
whose security type is `tls`, `reality` or `xtls` gets the fixed
preference list `h2,http/1.1` as its `alpn` parameter, and a URI link with
any other security type keeps its `alpn` parameter untouched; a VMess
object receives the list only when its security type is exactly `tls` —
any other security type, including `xtls` and `reality`, leaves the `alpn`
field untouched (this narrower VMess guard is what refutes the claim as
frozen; see the counterexample). -/
theorem C5_alpn_override
    (fs : List (String × Json)) (L : String) (u : UrlObj)
    (opts : ProcessingOptions) (i : Nat) (loc : Option LocationData)
    (halpnT : opts.enableALPN = true)
    (hwf : wfJson (Json.obj fs) = true)
    (hparse : parseUrl L = some u) (hwu : wfUrl u = true)
    (hss : strStarts L "ss://" = true → L.data.contains '@' = true)
    (hcdn : urlCdnOn (parseQuery u.search) opts = true →
      opts.customCDN.data.all (fun c =>
        c ≠ ':' && c ≠ '/' && c ≠ '?' && c ≠ '#' && c ≠ '@' && c ≠ '[' && c ≠ ']') = true) :
    ((getParam (parseQuery u.search) "security" = some "tls" ∨
      getParam (parseQuery u.search) "security" = some "reality" ∨
      getParam (parseQuery u.search) "security" = some "xtls") →
      ∃ u2, parseUrl (processUrlBased L opts i loc) = some u2 ∧
        getParam (parseQuery u2.search) "alpn" = some "h2,http/1.1") ∧
    (¬(getParam (parseQuery u.search) "security" = some "tls" ∨
      getParam (parseQuery u.search) "security" = some "reality" ∨
      getParam (parseQuery u.search) "security" = some "xtls") →
      ∃ u2, parseUrl (processUrlBased L opts i loc) = some u2 ∧
        getParam (parseQuery u2.search) "alpn" = getParam (parseQuery u.search) "alpn") ∧
    (getField (Json.obj fs) "tls" = some (Json.str "tls") →
      ∃ j2, jsonParse (safeB64Decode (jsReplace
        (processVmess ("vmess://" ++ safeB64Encode (jsonStringify (Json.obj fs))) opts i loc)
        "vmess://" "")) = some j2 ∧
        getField j2 "alpn" = some (Json.str "h2,http/1.1")) ∧
    (¬(getField (Json.obj fs) "tls" = some (Json.str "tls")) →
      ∃ j2, jsonParse (safeB64Decode (jsReplace
        (processVmess ("vmess://" ++ safeB64Encode (jsonStringify (Json.obj fs))) opts i loc)
        "vmess://" "")) = some j2 ∧
        getField j2 "alpn" = getField (Json.obj fs) "alpn") := by
  refine ⟨?_, ?_, ?_, ?_⟩
  · intro hsec
    have hout := processUrlBased_out L u opts i loc hparse hwu hss hcdn
    exact ⟨_, hout, by rw [urlStages_search u opts]; exact urlStages_alpn u opts halpnT hsec⟩
  · intro hsec
    have hout := processUrlBased_out L u opts i loc hparse hwu hss hcdn
    exact ⟨_, hout, by rw [urlStages_search u opts]; exact urlStages_alpn_keep u opts hsec⟩
  · intro htls
    rw [processVmess_obj fs opts i loc hwf]
    rw [vmess_decode _ (wfJson_vmessTransform (Json.obj fs) opts i loc hwf)]
    exact ⟨_, rfl, vmessTransform_alpn_set fs opts i loc halpnT htls⟩
  · intro htls
    rw [processVmess_obj fs opts i loc hwf]
    rw [vmess_decode _ (wfJson_vmessTransform (Json.obj fs) opts i loc hwf)]
    exact ⟨_, rfl, vmessTransform_alpn_unchanged fs opts i loc htls⟩


/-- Counterexample to C5 as frozen: a VMess configuration with security
type `xtls` processed with `enableALPN` on does not receive an ALPN list —
the VMess branch fires only on `tls`. -/
theorem C5_alpn_override_counterexample :
    ∃ j2, jsonParse (safeB64Decode (jsReplace
        (processVmess ("vmess://" ++ safeB64Encode (jsonStringify (Json.obj
          [("add", Json.str "a.example"), ("net", Json.str "ws"),
           ("tls", Json.str "xtls"), ("ps", Json.str "x")])))
        ⟨false, 8, false, "10", "1", false, true, false, false, false, "", false, "", ""⟩
        0 none) "vmess://" "")) = some j2 ∧
      getField j2 "alpn" = none ∧
      ¬(getField j2 "alpn" = some (Json.str "h2,http/1.1")) := by
  rw [processVmess_obj _ _ _ _ (by decide)]
  rw [vmess_decode _ (wfJson_vmessTransform _ _ _ _ (by decide))]
  refine ⟨_, rfl, ?_, ?_⟩
  · rw [vmessTransform_alpn_unchanged _ _ _ _ (by decide)]
    decide
  · rw [vmessTransform_alpn_unchanged _ _ _ _ (by decide)]
    decide

theorem C4_cdn_tcp_noop_witness :
    (∃ u2, parseUrl (processUrlBased "vless://uuid@h.example.com:443?type=tcp#Old"
        ⟨false, 8, false, "10", "1", false, false, false, false, false, "", true, "1.2.3.4", ""⟩
        0 none) = some u2 ∧ u2.host = "h.example.com") ∧
    (∃ j2, jsonParse (safeB64Decode (jsReplace
        (processVmess ("vmess://" ++ safeB64Encode (jsonStringify (Json.obj
          [("add", Json.str "a.example"), ("net", Json.str "tcp"), ("ps", Json.str "x")])))
        ⟨false, 8, false, "10", "1", false, false, false, false, false, "", true, "1.2.3.4", ""⟩
        0 none) "vmess://" "")) = some j2 ∧
      getField j2 "add" = getField (Json.obj
        [("add", Json.str "a.example"), ("net", Json.str "tcp"), ("ps", Json.str "x")])
        "add") :=
  C4_cdn_tcp_noop "vless://uuid@h.example.com:443?type=tcp#Old"
    ⟨"vless", "uuid", "h.example.com", "443", "", "type=tcp", "Old"⟩
    [("add", Json.str "a.example"), ("net", Json.str "tcp"), ("ps", Json.str "x")]
    ⟨false, 8, false, "10", "1", false, false, false, false, false, "", true, "1.2.3.4", ""⟩
    0 none (by decide) (by decide) (by decide) (by decide) (by decide) (by decide)
    (by decide) (by decide) (by decide) (by decide)

theorem C5_alpn_override_witness :
    ((getParam (parseQuery (⟨"vless", "u", "h.com", "1", "", "security=tls", "Old"⟩
        : UrlObj).search) "security" = some "tls" ∨
      getParam (parseQuery (⟨"vless", "u", "h.com", "1", "", "security=tls", "Old"⟩
        : UrlObj).search) "security" = some "reality" ∨
      getParam (parseQuery (⟨"vless", "u", "h.com", "1", "", "security=tls", "Old"⟩
        : UrlObj).search) "security" = some "xtls") →
      ∃ u2, parseUrl (processUrlBased "vless://u@h.com:1?security=tls#Old"
        ⟨false, 8, false, "10", "1", false, true, false, false, false, "", false, "", ""⟩
        0 none) = some u2 ∧
        getParam (parseQuery u2.search) "alpn" = some "h2,http/1.1") ∧
    (¬(getParam (parseQuery (⟨"vless", "u", "h.com", "1", "", "security=tls", "Old"⟩
        : UrlObj).search) "security" = some "tls" ∨
      getParam (parseQuery (⟨"vless", "u", "h.com", "1", "", "security=tls", "Old"⟩
        : UrlObj).search) "security" = some "reality" ∨
      getParam (parseQuery (⟨"vless", "u", "h.com", "1", "", "security=tls", "Old"⟩
        : UrlObj).search) "security" = some "xtls") →
      ∃ u2, parseUrl (processUrlBased "vless://u@h.com:1?security=tls#Old"
        ⟨false, 8, false, "10", "1", false, true, false, false, false, "", false, "", ""⟩
        0 none) = some u2 ∧
        getParam (parseQuery u2.search) "alpn" = getParam (parseQuery
          (⟨"vless", "u", "h.com", "1", "", "security=tls", "Old"⟩ : UrlObj).search) "alpn") ∧
    (getField (Json.obj [("add", Json.str "a.example"), ("net", Json.str "ws"),
        ("tls", Json.str "tls"), ("ps", Json.str "x")]) "tls" = some (Json.str "tls") →
      ∃ j2, jsonParse (safeB64Decode (jsReplace
        (processVmess ("vmess://" ++ safeB64Encode (jsonStringify (Json.obj
          [("add", Json.str "a.example"), ("net", Json.str "ws"),
           ("tls", Json.str "tls"), ("ps", Json.str "x")])))
        ⟨false, 8, false, "10", "1", false, true, false, false, false, "", false, "", ""⟩
        0 none) "vmess://" "")) = some j2 ∧
        getField j2 "alpn" = some (Json.str "h2,http/1.1")) ∧
    (¬(getField (Json.obj [("add", Json.str "a.example"), ("net", Json.str "ws"),
        ("tls", Json.str "tls"), ("ps", Json.str "x")]) "tls" = some (Json.str "tls")) →
      ∃ j2, jsonParse (safeB64Decode (jsReplace
        (processVmess ("vmess://" ++ safeB64Encode (jsonStringify (Json.obj
          [("add", Json.str "a.example"), ("net", Json.str "ws"),
           ("tls", Json.str "tls"), ("ps", Json.str "x")])))
        ⟨false, 8, false, "10", "1", false, true, false, false, false, "", false, "", ""⟩
        0 none) "vmess://" "")) = some j2 ∧
        getField j2 "alpn" = getField (Json.obj [("add", Json.str "a.example"),
          ("net", Json.str "ws"), ("tls", Json.str "tls"), ("ps", Json.str "x")]) "alpn") :=
  C5_alpn_override
    [("add", Json.str "a.example"), ("net", Json.str "ws"),
     ("tls", Json.str "tls"), ("ps", Json.str "x")]
    "vless://u@h.com:1?security=tls#Old"
    ⟨"vless", "u", "h.com", "1", "", "security=tls", "Old"⟩
    ⟨false, 8, false, "10", "1", false, true, false, false, false, "", false, "", ""⟩
    0 none rfl (by decide) (by decide) (by decide) (by decide) (by decide)

/-- **C6** (corrected) Alias rewrite is not gated: even with the
`addLocationFlag` master switch off, the per-line handlers replace the
display name of every parseable link with the freshly generated alias —
the URI fragment becomes the percent-encoded alias and the VMess `ps`
field becomes the alias; the switch only controls whether locations are
resolved and fed into that alias. -/
theorem C6_alias_always_rewritten
    (fs : List (String × Json)) (L : String) (u : UrlObj)
    (opts : ProcessingOptions) (i : Nat) (loc : Option LocationData)
    (_hflag : opts.addLocationFlag = false)
    (hwf : wfJson (Json.obj fs) = true)
    (hparse : parseUrl L = some u) (hwu : wfUrl u = true)
    (hss : strStarts L "ss://" = true → L.data.contains '@' = true)
    (hcdn : urlCdnOn (parseQuery u.search) opts = true →
      opts.customCDN.data.all (fun c =>
        c ≠ ':' && c ≠ '/' && c ≠ '?' && c ≠ '#' && c ≠ '@' && c ≠ '[' && c ≠ ']') = true) :
    (∃ u2, parseUrl (processUrlBased L opts i loc) = some u2 ∧
      u2.hash = encodeURIComponent (generateNewAlias "Config" i loc opts)) ∧
    (∃ j2, jsonParse (safeB64Decode (jsReplace
        (processVmess ("vmess://" ++ safeB64Encode (jsonStringify (Json.obj fs))) opts i loc)
        "vmess://" "")) = some j2 ∧
      getField j2 "ps" = some (Json.str (generateNewAlias "" i loc opts))) := by
  refine ⟨⟨_, processUrlBased_out L u opts i loc hparse hwu hss hcdn, rfl⟩, ?_⟩
  rw [processVmess_obj fs opts i loc hwf]
  rw [vmess_decode _ (wfJson_vmessTransform (Json.obj fs) opts i loc hwf)]
  exact ⟨_, rfl, vmessTransform_ps fs opts i loc⟩

theorem C6_alias_always_rewritten_witness :
    (∃ u2, parseUrl (processUrlBased "vless://u@h.com:1?type=ws#OldName"
        ⟨false, 8, false, "10", "1", false, false, false, false, false, "", false, "", ""⟩
        0 none) = some u2 ∧
      u2.hash = encodeURIComponent (generateNewAlias "Config" 0 none
        ⟨false, 8, false, "10", "1", false, false, false, false, false, "", false, "", ""⟩)) ∧
    (∃ j2, jsonParse (safeB64Decode (jsReplace
        (processVmess ("vmess://" ++ safeB64Encode (jsonStringify (Json.obj
          [("add", Json.str "a.example"), ("net", Json.str "ws"),
           ("ps", Json.str "OldPs")])))
        ⟨false, 8, false, "10", "1", false, false, false, false, false, "", false, "", ""⟩
        0 none) "vmess://" "")) = some j2 ∧
      getField j2 "ps" = some (Json.str (generateNewAlias "" 0 none
        ⟨false, 8, false, "10", "1", false, false, false, false, false, "", false, "", ""⟩))) :=
  C6_alias_always_rewritten
    [("add", Json.str "a.example"), ("net", Json.str "ws"), ("ps", Json.str "OldPs")]
    "vless://u@h.com:1?type=ws#OldName"
    ⟨"vless", "u", "h.com", "1", "", "type=ws", "OldName"⟩
    ⟨false, 8, false, "10", "1", false, false, false, false, false, "", false, "", ""⟩
    0 none rfl (by decide) (by decide) (by decide) (by decide) (by decide)

/-- Counterexample to C6 as frozen: with the `addLocationFlag` switch off
the display name is still replaced — the original fragment `OldName` does
not survive processing. -/
theorem C6_alias_gating_counterexample :
    ∃ u2, parseUrl (processUrlBased "vless://u@h.com:1?type=ws#OldName"
        ⟨false, 8, false, "10", "1", false, false, false, false, false, "", false, "", ""⟩
        0 none) = some u2 ∧
      u2.hash = "VS%201" ∧ ¬(u2.hash = "OldName") := by
  have hout := processUrlBased_out "vless://u@h.com:1?type=ws#OldName"
    ⟨"vless", "u", "h.com", "1", "", "type=ws", "OldName"⟩
    ⟨false, 8, false, "10", "1", false, false, false, false, false, "", false, "", ""⟩
    0 none (by decide) (by decide) (by decide) (by decide)
  refine ⟨_, hout, ?_, ?_⟩
  · rw [generateNewAlias_zero _ _ rfl]
    decide
  · rw [generateNewAlias_zero _ _ rfl]
    decide

/-- **C9** Private or malformed hosts are rejected before any provider
query: a host of fewer than three characters, or an uncached host whose
lookup target is private, makes `resolveLocation` answer nothing with an
empty provider-query log. -/
theorem C9_private_malformed_host_rejection
    (env : GeoEnv) (cache : List (String × LocationData)) (host : String)
    (h : host.data.length < 3 ∨
      (lookupLoc cache host = none ∧ isPrivateIP (geoTarget env host) = true)) :
    resolveLocation env cache host = (none, []) := by
  unfold resolveLocation
  rcases h with h | ⟨hc, hp⟩
  · rw [if_pos (Or.inr h)]
  · by_cases he : host = "" ∨ host.data.length < 3
    · rw [if_pos he]
    · rw [if_neg he]
      simp only [hc]
      rw [if_pos hp]

theorem C9_private_malformed_host_rejection_witness :
    resolveLocation
        ⟨fun _ => none, fun _ => some ⟨"", "X", "", ""⟩, fun _ => some ⟨"", "Y", "", ""⟩⟩
        [] "10.0.0.1" = (none, []) ∧
      resolveLocation
        ⟨fun _ => none, fun _ => some ⟨"", "X", "", ""⟩, fun _ => some ⟨"", "Y", "", ""⟩⟩
        [] "ab" = (none, []) :=
  ⟨C9_private_malformed_host_rejection _ [] "10.0.0.1" (Or.inr ⟨rfl, by decide⟩),
   C9_private_malformed_host_rejection _ [] "ab" (Or.inl (by decide))⟩

end VSub
